import Mathlib

/-!
# mockeagain: a shallow embedding of `mockeagain.c`

The shim keeps four static tables indexed by descriptor handle
(`active_fds`, `polled_fds`, `weird_fds`, `snd_timeout_fds`), a table of
match windows (`matchbufs`), the configured write-stall `pattern` and the cached
`mocking_type`.  Every intercepted operation is a function from the statics
before the call to the statics after it, together with what the caller
observes and the calls made to the real implementation.

Conventions of the embedding

* C `int`, `short`, `char` and `ssize_t` cells are `Int`.  The only arithmetic
  in the modelled code is `retval--`, `len + 1`, the clock helper `now` and the
  timeout computation of `poll`.  The first three stay within `int` (for clock
  readings that `gettimeofday` delivers, `now` is below 87399); the difference
  `timeout - elapsed` can leave it, and is reduced to 32 bits (`to_int`).
* `a[fd]` for a static table `a` is the cell that the C expression denotes.  The
  code guards every table access with `fd <= MAX_FD` only, so a table is a map
  from the C index (an `Int`) to its cell; indices outside `0..MAX_FD` denote
  cells outside the array.  The window table lies on the heap: `matchbufs[fd]`
  for a negative `fd` is the word in front of it, and `socket` and `close`, which
  pass that word to `free`, end in a fault there (`wild_free`, in `step`).
* The real implementations are oracles (`Libc`); every call made to one of
  them is recorded in the result, with the arguments passed.
* Symbol resolution (`dlsym`) is taken to succeed, and diagnostic output
  (`get_verbose_level`, `fprintf`, `dd`) is not part of the model.
* What a call depends on outside the statics is its context (`Ctx`): the
  environment, the real implementations, the caller's memory, whether a `malloc`
  succeeds, the clock, and `wl`, the value `is_whitelist()` returns at the top
  of the call.
* The caller filter (`is_whitelist`, `get_whitelist`) is modelled on its own
  statics (`Filter`): `backtrace_symbols` is taken to succeed, and `strtok`,
  `hcreate` and `hsearch` behave as the C library documents them.  A call of a
  wrapper is modelled from the point where `is_whitelist()` has returned `wl`;
  the fault `is_whitelist` itself can end in is part of `is_whitelist`, not of
  `step`.
-/

namespace Mockeagain

/-! ## Constants -/

/-- Capacity bound of the descriptor tables: `#define MAX_FD 1024`. -/
def MAX_FD : Int := 1024

/-- Readable bit of `<poll.h>` (Linux value `0x001`). -/
def POLLIN : Int := 1

/-- Writable bit of `<poll.h>` (Linux value `0x004`). -/
def POLLOUT : Int := 4

/-- Would-block error number of `<errno.h>` (Linux value 11). -/
def EAGAIN : Int := 11

/-- Stream socket type of `<sys/socket.h>` (Linux value 1). -/
def SOCK_STREAM : Int := 1

/-- Enumerator `MOCKING_READS = 0x01`. -/
def MOCKING_READS : Int := 1

/-- Enumerator `MOCKING_WRITES = 0x02`. -/
def MOCKING_WRITES : Int := 2

/-! ## Data model -/

/-- One entry of the array handed to `poll`: `struct pollfd`. -/
structure pollfd where
  fd : Int
  events : Int
  revents : Int
deriving DecidableEq, Repr

/-- One segment of a vectorized write: `struct iovec`.  `iov_base` is an
address, `0` being `NULL`. -/
structure iovec where
  iov_base : Nat
  iov_len : Nat
deriving DecidableEq, Repr

/-- A clock reading or a sleep duration: `struct timeval`. -/
structure timeval where
  tv_sec : Int
  tv_usec : Int
deriving DecidableEq, Repr

/-- The process environment as seen by `getenv`: `none` is an unset variable, a
value is the C string without its terminator. -/
structure Env where
  MOCKEAGAIN : Option (List Char)
  MOCKEAGAIN_WRITE_TIMEOUT_PATTERN : Option (List Nat)
  MOCKEAGAIN_WL : Option (List Char)

/-- The file-scope statics of `mockeagain.c`.  `matchbufs` is `none` while the
pointer is `NULL`; `matchbufs[fd]` is `none` while that window is `NULL`, and
otherwise the `matchbuf_len` bytes of the window.  `pattern` is `none` while the
pointer is `NULL`, and otherwise the bytes of the C string. -/
structure State where
  active_fds : Int → Int
  polled_fds : Int → Int
  weird_fds : Int → Int
  snd_timeout_fds : Int → Int
  matchbufs : Option (Int → Option (List Nat))
  matchbuf_len : Nat
  pattern : Option (List Nat)
  mocking_type : Int

/-- The statics at process start: zeroed tables, `matchbufs = NULL`,
`matchbuf_len = 0`, `pattern = NULL`, `mocking_type = -1`. -/
def State.init : State where
  active_fds := fun _ => 0
  polled_fds := fun _ => 0
  weird_fds := fun _ => 0
  snd_timeout_fds := fun _ => 0
  matchbufs := none
  matchbuf_len := 0
  pattern := none
  mocking_type := -1

/-- The assignment `a[i] = v`. -/
def upd {α : Type} (a : Int → α) (i : Int) (v : α) : Int → α :=
  fun j => if j = i then v else a j

/-- The C expression `x & ~m` on two's complement integers, computed as
`x ^ (x & m)` so that it evaluates on numerals; `and_not_eq` shows that it is
`Int.land x (Int.lnot m)`. -/
def and_not (x m : Int) : Int := Int.xor x (Int.land x m)

/-- An intercepted operation with its arguments.  The same shape describes a
call of the application into the shim and a call of the shim into the real
implementation.  A buffer is its address; `iovcnt` and `nfds` are the lengths of
the lists. -/
inductive Call where
  | socket (domain type protocol : Int)
  | poll (ufds : List pollfd) (timeout : Int)
  | writev (fd : Int) (iov : List iovec)
  | close (fd : Int)
  | send (fd : Int) (buf len : Nat) (flags : Int)
  | read (fd : Int) (buf len : Nat)
  | recv (fd : Int) (buf len : Nat) (flags : Int)
  | recvfrom (fd : Int) (buf len : Nat) (flags : Int) (src_addr addrlen : Nat)
deriving DecidableEq, Repr

/-- The real implementations the shim forwards to, each giving the value the
real call returns.  The real `poll` also gives the `revents` it writes into the
entries of the array, in order. -/
structure Libc where
  socket : Int → Int → Int → Int
  poll : List pollfd → Int → List Int × Int
  writev : Int → List iovec → Int
  close : Int → Int
  send : Int → Nat → Nat → Int → Int
  read : Int → Nat → Nat → Int
  recv : Int → Nat → Nat → Int → Int
  recvfrom : Int → Nat → Nat → Int → Nat → Nat → Int

/-- What a wrapper leaves behind: the statics, the value returned, the value
the wrapper itself assigned to `errno` (if any), the calls it made to the real
implementation in order, and for `poll` the caller's array on return and the
duration handed to `select` when a timeout is emulated. -/
structure Result where
  st : State
  retval : Int
  errno : Option Int
  calls : List Call
  ufds : List pollfd
  slept : Option timeval

/-- A run-time failure of the shim itself: a write or read through a null
pointer, or `free` called on a word that is no pointer `malloc` returned. -/
inductive Fault where
  | null_deref
  | bad_free
deriving DecidableEq, Repr

/-- Everything outside the shim that one intercepted call depends on: the
environment, the real implementations, the caller's memory (byte at an
address), whether a `malloc` made during the call succeeds, the value
`is_whitelist()` returns for the call, and the two clock readings `poll` takes
around the real call. -/
structure Ctx where
  env : Env
  libc : Libc
  mem : Nat → Nat
  malloc_ok : Bool
  wl : Int
  t0 : timeval
  t1 : timeval

/-! ## Configuration -/

/-- The `while (*p)` loop of `get_mocking_type`, started with the accumulated
mask `acc`. -/
def scan_mocking : List Char → Int → Int
  | [], acc => acc
  | c :: cs, acc =>
    if c = 'r' ∨ c = 'R' then scan_mocking cs (Int.lor acc MOCKING_READS)
    else if c = 'w' ∨ c = 'W' then scan_mocking cs (Int.lor acc MOCKING_WRITES)
    else scan_mocking cs acc

/-- Function `get_mocking_type`: the value returned and the statics after the
call. -/
def get_mocking_type (env : Env) (st : State) : Int × State :=
  if 0 ≤ st.mocking_type then (st.mocking_type, st)
  else
    match env.MOCKEAGAIN with
    | none => (0, { st with mocking_type := 0 })
    | some [] => (0, { st with mocking_type := 0 })
    | some (c :: cs) =>
      let m := scan_mocking (c :: cs) 0
      let m1 := if m = 0 then MOCKING_WRITES else m
      (m1, { st with mocking_type := m1 })

/-- Function `init_matchbufs`; `malloc_ok` tells whether its `malloc` succeeds.
-/
def init_matchbufs (env : Env) (malloc_ok : Bool) (st : State) : State :=
  match st.matchbufs with
  | some _ => st
  | none =>
    match env.MOCKEAGAIN_WRITE_TIMEOUT_PATTERN with
    | none => { st with matchbuf_len := 0 }
    | some [] => { st with matchbuf_len := 0 }
    | some (c :: cs) =>
      if malloc_ok then
        { st with
          matchbufs := some (fun _ => none)
          matchbuf_len := (c :: cs).length + 1
          pattern := some (c :: cs) }
      else st

/-- The clock helper `now` applied to the reading `tv` that `gettimeofday`
delivers: `tv.tv_sec % (3600 * 24) + tv.tv_usec/1000`, with C's truncating
division. -/
def now (tv : timeval) : Int :=
  Int.tmod tv.tv_sec (3600 * 24) + Int.tdiv tv.tv_usec 1000

/-! ## Match windows -/

/-- Library function `strlen` on a buffer that holds a terminator. -/
def strlen : List Nat → Nat
  | [] => 0
  | c :: cs => if c = 0 then 0 else strlen cs + 1

/-- Library function `strncmp(s1, s2, n)`; reading a string at its end yields
the terminator. -/
def strncmp : List Nat → List Nat → Nat → Int
  | _, _, 0 => 0
  | s1, s2, n + 1 =>
    if s1.headD 0 ≠ s2.headD 0 then (s1.headD 0 : Int) - (s2.headD 0 : Int)
    else if s1.headD 0 = 0 then 0
    else strncmp s1.tail s2.tail n

/-- The call `memmove(p, p + 1, n)`: bytes `1..n` move to `0..n-1`. -/
def memmove_down (p : List Nat) (n : Nat) : List Nat :=
  (p.drop 1).take n ++ p.drop n

/-- The test `matchbufs && matchbufs[fd]` of `socket` (line 156) and `close`
(line 452) reads in front of the window table: the table is allocated and `fd`
is negative.  The word found there is not a pointer to a window, and the code
passes it to `free`. -/
def wild_free (mb : Option (Int → Option (List Nat))) (fd : Int) : Bool :=
  mb.isSome && decide (fd < 0)

/-- The statements `free(matchbufs[fd]); matchbufs[fd] = NULL;` guarded by
`matchbufs && matchbufs[fd]`, for an index within the table (the other case is
`wild_free`). -/
def free_matchbuf (mb : Option (Int → Option (List Nat))) (fd : Int) :
    Option (Int → Option (List Nat)) :=
  match mb with
  | none => none
  | some m =>
    match m fd with
    | none => some m
    | some _ => some (upd m fd none)

/-- The window of a descriptor and the local `len` after the byte `c` is stored
(lines 369-397 of `writev`): a missing window `w = none` is allocated, zeroed
and given `c` as its first byte; an existing one is extended at its `strlen`,
or shifted down by one byte once `strlen` has reached `matchbuf_len - 1`.  The
result is a fault when `malloc` returns `NULL`, which `memset` then dereferences.
The block runs only while a pattern is configured, when `matchbuf_len` is the
pattern length plus one (`State.wf`), so the `size_t` subtractions do not wrap.
-/
def window_feed (malloc_ok : Bool) (matchbuf_len : Nat) (c : Nat) :
    Option (List Nat) → Except Fault (List Nat × Nat)
  | none =>
    if malloc_ok then .ok ((List.replicate matchbuf_len 0).set 0 c, 1)
    else .error .null_deref
  | some p =>
    if strlen p < matchbuf_len - 1 then .ok (p.set (strlen p) c, strlen p + 1)
    else .ok ((memmove_down p (matchbuf_len - 2)).set (matchbuf_len - 2) c, strlen p)

/-- The `if (pattern)` block of `writev` (lines 362-412) for the byte `c` read
at the base of the truncated segment: the window of `fd` is updated by
`window_feed`, and `snd_timeout_fds[fd]` is set when the window is full and
equals the pattern `pat`.  Reading `matchbufs[fd]` while `matchbufs` is `NULL` is
a fault. -/
def writev_match (malloc_ok : Bool) (pat : List Nat) (c : Nat) (st : State) (fd : Int) :
    Except Fault State :=
  match st.matchbufs with
  | none => .error .null_deref
  | some mb =>
    match window_feed malloc_ok st.matchbuf_len c (mb fd) with
    | .error e => .error e
    | .ok (p, len) =>
      if len = st.matchbuf_len - 1 ∧ strncmp p pat len = 0 then
        .ok { st with
              matchbufs := some (upd mb fd (some p))
              snd_timeout_fds := upd st.snd_timeout_fds fd 1 }
      else .ok { st with matchbufs := some (upd mb fd (some p)) }

/-! ## The intercepted operations -/

/-- The caller's array after the real `poll` has written `revents` into its
entries; the real call changes nothing else. -/
def set_revents : List pollfd → List Int → List pollfd
  | [], _ => []
  | p :: ps, [] => p :: ps
  | p :: ps, r :: rs => { p with revents := r } :: set_revents ps rs

/-- The macro `call_original`, and every direct call through an `orig_`
pointer: the real implementation is called with the arguments of `c` and its
value returned; the statics are those given. -/
def forward (libc : Libc) (st : State) (c : Call) : Result :=
  match c with
  | .socket d t p =>
    { st := st, retval := libc.socket d t p, errno := none, calls := [c], ufds := [],
      slept := none }
  | .poll u t =>
    { st := st, retval := (libc.poll u t).2, errno := none, calls := [c],
      ufds := set_revents u (libc.poll u t).1, slept := none }
  | .writev fd iov =>
    { st := st, retval := libc.writev fd iov, errno := none, calls := [c], ufds := [],
      slept := none }
  | .close fd =>
    { st := st, retval := libc.close fd, errno := none, calls := [c], ufds := [],
      slept := none }
  | .send fd b l f =>
    { st := st, retval := libc.send fd b l f, errno := none, calls := [c], ufds := [],
      slept := none }
  | .read fd b l =>
    { st := st, retval := libc.read fd b l, errno := none, calls := [c], ufds := [],
      slept := none }
  | .recv fd b l f =>
    { st := st, retval := libc.recv fd b l f, errno := none, calls := [c], ufds := [],
      slept := none }
  | .recvfrom fd b l f a n =>
    { st := st, retval := libc.recvfrom fd b l f a n, errno := none, calls := [c],
      ufds := [], slept := none }

/-- The statements `errno = EAGAIN; return -1;`. -/
def would_block (st : State) : Result :=
  { st := st, retval := -1, errno := some EAGAIN, calls := [], ufds := [], slept := none }

/-- The assignment `active_fds[fd] &= ~bit`. -/
def clear_active (st : State) (fd : Int) (bit : Int) : State :=
  { st with active_fds := upd st.active_fds fd (and_not (st.active_fds fd) bit) }

/-- Function `socket`, for a call that gets past the test of `matchbufs[fd]`;
`step` holds the case `wild_free`, in which the call ends there. -/
def socket (c : Ctx) (st : State) (domain type protocol : Int) : Result :=
  let st0 := init_matchbufs c.env c.malloc_ok st
  let r := forward c.libc st0 (.socket domain type protocol)
  let fd := r.retval
  if fd ≤ MAX_FD then
    let st1 :=
      if Int.land type SOCK_STREAM = 0 then { st0 with weird_fds := upd st0.weird_fds fd 1 }
      else { st0 with weird_fds := upd st0.weird_fds fd 0 }
    let st2 := { st1 with matchbufs := free_matchbuf st1.matchbufs fd }
    { r with st :=
        { st2 with
          active_fds := upd st2.active_fds fd 0
          polled_fds := upd st2.polled_fds fd 0
          snd_timeout_fds := upd st2.snd_timeout_fds fd 0 } }
  else r

/-- Function `close`, for a call that gets past the test of `matchbufs[fd]`;
`step` holds the case `wild_free`, in which the call ends there. -/
def close (c : Ctx) (st : State) (fd : Int) : Result :=
  if c.wl ≠ 0 then forward c.libc st (.close fd)
  else
    let st1 :=
      if fd ≤ MAX_FD then
        { st with
          matchbufs := free_matchbuf st.matchbufs fd
          active_fds := upd st.active_fds fd 0
          polled_fds := upd st.polled_fds fd 0
          snd_timeout_fds := upd st.snd_timeout_fds fd 0
          weird_fds := upd st.weird_fds fd 0 }
      else st
    forward c.libc st1 (.close fd)

/-- Function `send`. -/
def send (c : Ctx) (st : State) (fd : Int) (buf len : Nat) (flags : Int) : Result :=
  if c.wl ≠ 0 then forward c.libc st (.send fd buf len flags)
  else
    let g := get_mocking_type c.env st
    if Int.land g.1 MOCKING_WRITES ≠ 0 ∧ fd ≤ MAX_FD ∧ g.2.polled_fds fd ≠ 0
        ∧ Int.land (g.2.active_fds fd) POLLOUT = 0 then
      would_block g.2
    else
      let g1 := get_mocking_type c.env g.2
      if Int.land g1.1 MOCKING_WRITES ≠ 0 ∧ fd ≤ MAX_FD ∧ g1.2.polled_fds fd ≠ 0
          ∧ len ≠ 0 then
        let r := forward c.libc g1.2 (.send fd buf 1 flags)
        { r with st := clear_active r.st fd POLLOUT }
      else forward c.libc g1.2 (.send fd buf len flags)

/-- Function `read`. -/
def read (c : Ctx) (st : State) (fd : Int) (buf len : Nat) : Result :=
  if c.wl ≠ 0 then forward c.libc st (.read fd buf len)
  else
    let g := get_mocking_type c.env st
    if Int.land g.1 MOCKING_READS ≠ 0 ∧ fd ≤ MAX_FD ∧ g.2.polled_fds fd ≠ 0
        ∧ Int.land (g.2.active_fds fd) POLLIN = 0 then
      would_block g.2
    else
      let g1 := get_mocking_type c.env g.2
      if Int.land g1.1 MOCKING_READS ≠ 0 ∧ fd ≤ MAX_FD ∧ g1.2.polled_fds fd ≠ 0
          ∧ len ≠ 0 then
        let r := forward c.libc g1.2 (.read fd buf 1)
        { r with st := clear_active r.st fd POLLIN }
      else forward c.libc g1.2 (.read fd buf len)

/-- Function `recv`. -/
def recv (c : Ctx) (st : State) (fd : Int) (buf len : Nat) (flags : Int) : Result :=
  if c.wl ≠ 0 then forward c.libc st (.recv fd buf len flags)
  else
    let g := get_mocking_type c.env st
    if Int.land g.1 MOCKING_READS ≠ 0 ∧ fd ≤ MAX_FD ∧ g.2.polled_fds fd ≠ 0
        ∧ Int.land (g.2.active_fds fd) POLLIN = 0 then
      would_block g.2
    else
      let g1 := get_mocking_type c.env g.2
      if Int.land g1.1 MOCKING_READS ≠ 0 ∧ fd ≤ MAX_FD ∧ g1.2.polled_fds fd ≠ 0
          ∧ len ≠ 0 then
        let r := forward c.libc g1.2 (.recv fd buf 1 flags)
        { r with st := clear_active r.st fd POLLIN }
      else forward c.libc g1.2 (.recv fd buf len flags)

/-- Function `recvfrom`. -/
def recvfrom (c : Ctx) (st : State) (fd : Int) (buf len : Nat) (flags : Int)
    (src_addr addrlen : Nat) : Result :=
  if c.wl ≠ 0 then forward c.libc st (.recvfrom fd buf len flags src_addr addrlen)
  else
    let g := get_mocking_type c.env st
    if Int.land g.1 MOCKING_READS ≠ 0 ∧ fd ≤ MAX_FD ∧ g.2.polled_fds fd ≠ 0
        ∧ Int.land (g.2.active_fds fd) POLLIN = 0 then
      would_block g.2
    else
      let g1 := get_mocking_type c.env g.2
      if Int.land g1.1 MOCKING_READS ≠ 0 ∧ fd ≤ MAX_FD ∧ g1.2.polled_fds fd ≠ 0
          ∧ len ≠ 0 then
        let r := forward c.libc g1.2 (.recvfrom fd buf 1 flags src_addr addrlen)
        { r with st := clear_active r.st fd POLLIN }
      else forward c.libc g1.2 (.recvfrom fd buf len flags src_addr addrlen)

/-- The first loop of `writev` (lines 335-344) started from
`new_iov = { {NULL, 0} }`: the value of `new_iov[0]` after the loop. -/
def truncate_iov : List iovec → iovec
  | [] => ⟨0, 0⟩
  | p :: ps =>
    if p.iov_base = 0 ∨ p.iov_len = 0 then truncate_iov ps else ⟨p.iov_base, 1⟩

/-- Function `writev`.  The result is a fault when the pattern block
dereferences a null pointer. -/
def writev (c : Ctx) (st : State) (fd : Int) (iov : List iovec) : Except Fault Result :=
  if c.wl ≠ 0 then .ok (forward c.libc st (.writev fd iov))
  else
    let g := get_mocking_type c.env st
    if Int.land g.1 MOCKING_WRITES ≠ 0 ∧ fd ≤ MAX_FD ∧ g.2.polled_fds fd ≠ 0
        ∧ Int.land (g.2.active_fds fd) POLLOUT = 0 then
      .ok (would_block g.2)
    else
      let g1 := get_mocking_type c.env g.2
      if Int.land g1.1 MOCKING_WRITES = 0 then .ok (forward c.libc g1.2 (.writev fd iov))
      else
        let new_iov : iovec :=
          if fd ≤ MAX_FD ∧ g1.2.polled_fds fd ≠ 0 then truncate_iov iov else ⟨0, 0⟩
        if new_iov.iov_base = 0 then .ok (forward c.libc g1.2 (.writev fd iov))
        else
          let m : Except Fault State :=
            match g1.2.pattern with
            | some pat => writev_match c.malloc_ok pat (c.mem new_iov.iov_base) g1.2 fd
            | none => .ok g1.2
          match m with
          | .error e => .error e
          | .ok st2 =>
            let r := forward c.libc st2 (.writev fd [new_iov])
            .ok { r with st := clear_active r.st fd POLLOUT }

/-- The statements `active_fds[fd] = p->revents; polled_fds[fd] = 1;`. -/
def record_poll (st : State) (fd : Int) (revents : Int) : State :=
  { st with
    active_fds := upd st.active_fds fd revents
    polled_fds := upd st.polled_fds fd 1 }

/-- One iteration of the loop of `poll` (lines 217-244) on the entry `p`: the
entry, the statics and `retval` after it. -/
def poll_entry (p : pollfd) (st : State) (retval : Int) : pollfd × State × Int :=
  if p.fd > MAX_FD ∨ st.weird_fds p.fd ≠ 0 then (p, st, retval)
  else if st.pattern.isSome ∧ Int.land p.revents POLLOUT ≠ 0
      ∧ st.snd_timeout_fds p.fd ≠ 0 then
    let p1 : pollfd := { p with revents := and_not p.revents POLLOUT }
    if p1.revents = 0 then (p1, st, retval - 1)
    else (p1, record_poll st p1.fd p1.revents, retval)
  else (p, record_poll st p.fd p.revents, retval)

/-- The loop of `poll` over the entries of the array, in order. -/
def poll_loop : List pollfd → State → Int → List pollfd × State × Int
  | [], st, retval => ([], st, retval)
  | p :: ps, st, retval =>
    let e := poll_entry p st retval
    let l := poll_loop ps e.2.1 e.2.2
    (e.1 :: l.1, l.2.1, l.2.2)

/-- The value an `int` variable (32 bits, two's complement) holds when the
integer `x` is stored in it. -/
def to_int (x : Int) : Int :=
  (x + 2147483648) % 4294967296 - 2147483648

/-- The timeout emulation of `poll` (lines 253-281): the duration handed to
`select`, if it is called.  The difference is held in `int diff`, and `/` and
`%` truncate towards zero. -/
def emulate_timeout (timeout elapsed : Int) : Option timeval :=
  if timeout < 0 then some ⟨3600 * 24, 0⟩
  else if elapsed < timeout then
    let diff := to_int (timeout - elapsed)
    some ⟨Int.tdiv diff 1000, Int.tmod diff 1000 * 1000⟩
  else none

/-- Function `poll`. -/
def poll (c : Ctx) (st : State) (ufds : List pollfd) (timeout : Int) : Result :=
  let st0 := init_matchbufs c.env c.malloc_ok st
  let begin_ : Int := if st0.pattern.isSome then now c.t0 else 0
  let r := forward c.libc st0 (.poll ufds timeout)
  let elapsed : Int := if st0.pattern.isSome then now c.t1 - begin_ else 0
  if r.retval > 0 then
    let l := poll_loop r.ufds st0 r.retval
    { r with
      st := l.2.1
      retval := l.2.2
      ufds := l.1
      slept := if l.2.2 = 0 then emulate_timeout timeout elapsed else none }
  else r

/-- One intercepted call made by the application.  A `socket` call whose real
result is negative and a non-exempt `close` of a negative handle end in a fault
when the window table is allocated, as they call `free` on the word in front of
the table. -/
def step (c : Ctx) (st : State) : Call → Except Fault Result
  | .socket d t p =>
    if wild_free (init_matchbufs c.env c.malloc_ok st).matchbufs (c.libc.socket d t p) = true then
      .error .bad_free
    else .ok (socket c st d t p)
  | .poll u t => .ok (poll c st u t)
  | .writev fd iov => writev c st fd iov
  | .close fd =>
    if c.wl = 0 ∧ wild_free st.matchbufs fd = true then .error .bad_free
    else .ok (close c st fd)
  | .send fd b l f => .ok (send c st fd b l f)
  | .read fd b l => .ok (read c st fd b l)
  | .recv fd b l f => .ok (recv c st fd b l f)
  | .recvfrom fd b l f a n => .ok (recvfrom c st fd b l f a n)

/-- A sequence of intercepted calls, each in its own context: the statics after
the last one, or the fault that ended the run. -/
def run (st : State) : List (Ctx × Call) → Except Fault State
  | [] => .ok st
  | (c, k) :: rest =>
    match step c st k with
    | .ok r => run r.st rest
    | .error e => .error e

/-- The statics the process can be in: those at process start and those left
by an intercepted call made in such statics. -/
inductive Reachable : State → Prop where
  | init : Reachable State.init
  | step {st : State} {r : Result} (c : Ctx) (k : Call) :
      Reachable st → step c st k = .ok r → Reachable r.st

/-! ## Vocabulary of the properties -/

/-- The two directions of transfer: outbound (`writev`, `send`) and inbound
(`read`, `recv`, `recvfrom`). -/
inductive Dir where
  | write
  | read
deriving DecidableEq, Repr

/-- The bit of `mocking_type` that enables mocking in a direction. -/
def Dir.flag : Dir → Int
  | .write => MOCKING_WRITES
  | .read => MOCKING_READS

/-- The readiness bit a direction consults in `active_fds`. -/
def Dir.bit : Dir → Int
  | .write => POLLOUT
  | .read => POLLIN

/-- The direction and the descriptor of a transfer call; `none` for `socket`,
`poll` and `close`. -/
def Call.transfer : Call → Option (Dir × Int)
  | .writev fd _ => some (.write, fd)
  | .send fd _ _ _ => some (.write, fd)
  | .read fd _ _ => some (.read, fd)
  | .recv fd _ _ _ => some (.read, fd)
  | .recvfrom fd _ _ _ _ _ => some (.read, fd)
  | _ => none

/-- The mocking flag of direction `d` is on for a call made in context `c` and
statics `st`: the bit is set in the value `get_mocking_type` returns. -/
def mode_on (c : Ctx) (st : State) (d : Dir) : Prop :=
  Int.land (get_mocking_type c.env st).1 d.flag ≠ 0

/-- The descriptor tables, the match windows and the pattern statics of two
states coincide; only the cached `mocking_type` may differ. -/
def same_tables (a b : State) : Prop :=
  a.active_fds = b.active_fds ∧ a.polled_fds = b.polled_fds ∧ a.weird_fds = b.weird_fds
    ∧ a.snd_timeout_fds = b.snd_timeout_fds ∧ a.matchbufs = b.matchbufs
    ∧ a.matchbuf_len = b.matchbuf_len ∧ a.pattern = b.pattern

/-- The call `k` is a `poll` whose array has an entry for `fd`. -/
def polls (fd : Int) : Call → Prop
  | .poll u _ => ∃ p ∈ u, p.fd = fd
  | _ => False

/-- The call `k`, made in context `c`, is a `poll`, `close` or `socket` call on
`fd`: a `poll` with an entry for `fd`, `close(fd)`, or a `socket` call whose real
result is `fd`. -/
def resets (c : Ctx) (fd : Int) : Call → Prop
  | .poll u _ => ∃ p ∈ u, p.fd = fd
  | .close f => f = fd
  | .socket d t p => c.libc.socket d t p = fd
  | _ => False

/-- The one-byte request a transfer call is truncated to: the same call with
length 1, for `writev` with the single segment `truncate_iov` builds. -/
def Call.truncated : Call → Call
  | .writev fd iov => .writev fd [truncate_iov iov]
  | .send fd buf _ flags => .send fd buf 1 flags
  | .read fd buf _ => .read fd buf 1
  | .recv fd buf _ flags => .recv fd buf 1 flags
  | .recvfrom fd buf _ flags a n => .recvfrom fd buf 1 flags a n
  | k => k

/-- The request carries a payload: a non-zero length, for `writev` a segment
with a non-null base and a non-zero length. -/
def Call.has_payload : Call → Prop
  | .writev _ iov => (truncate_iov iov).iov_base ≠ 0
  | .send _ _ len _ => len ≠ 0
  | .read _ _ len => len ≠ 0
  | .recv _ _ len _ => len ≠ 0
  | .recvfrom _ _ len _ _ _ => len ≠ 0
  | _ => False

/-- The guard under which the code injects a would-block failure (lines 305-308
and their four siblings). -/
def block_cond (c : Ctx) (st : State) (d : Dir) (fd : Int) : Prop :=
  mode_on c st d ∧ fd ≤ MAX_FD ∧ st.polled_fds fd ≠ 0 ∧ Int.land (st.active_fds fd) d.bit = 0

/-- The condition under which a request is truncated to one byte: the mode flag
is on, the descriptor is within the guard and polled, its readiness bit is set
and the request carries a payload. -/
def trunc_cond (c : Ctx) (st : State) (d : Dir) (fd : Int) (k : Call) : Prop :=
  mode_on c st d ∧ fd ≤ MAX_FD ∧ st.polled_fds fd ≠ 0 ∧ Int.land (st.active_fds fd) d.bit ≠ 0
    ∧ k.has_payload

/-- The decision `send`, `read`, `recv` and `recvfrom` share, for direction `d`:
`k` is the caller's request, `k1` the request truncated to one byte and `len`
the caller's length. -/
def mocked_transfer (c : Ctx) (st : State) (d : Dir) (fd : Int) (len : Nat) (k1 k : Call) :
    Result :=
  if c.wl ≠ 0 then forward c.libc st k
  else if Int.land (get_mocking_type c.env st).1 d.flag ≠ 0 ∧ fd ≤ MAX_FD
      ∧ st.polled_fds fd ≠ 0 ∧ Int.land (st.active_fds fd) d.bit = 0 then
    would_block (get_mocking_type c.env st).2
  else if Int.land (get_mocking_type c.env st).1 d.flag ≠ 0 ∧ fd ≤ MAX_FD
      ∧ st.polled_fds fd ≠ 0 ∧ len ≠ 0 then
    { forward c.libc (get_mocking_type c.env st).2 k1 with
      st := clear_active (get_mocking_type c.env st).2 fd d.bit }
  else forward c.libc (get_mocking_type c.env st).2 k

/-! ## Sample inputs -/

/-- Real implementations for the examples: `socket` returns `fd`, `poll` reports
`revs` and returns `n`, `close` returns 0 and every transfer moves one byte. -/
def sample_libc (fd : Int) (revs : List Int) (n : Int) : Libc where
  socket := fun _ _ _ => fd
  poll := fun _ _ => (revs, n)
  writev := fun _ _ => 1
  close := fun _ => 0
  send := fun _ _ _ _ => 1
  read := fun _ _ _ => 1
  recv := fun _ _ _ _ => 1
  recvfrom := fun _ _ _ _ _ _ => 1

/-- A context for the examples: mocking-mode setting `mode`, pattern setting
`pat`, filter verdict `wl`, the byte `b` at every address, the real
implementations of `sample_libc fd revs n`. -/
def sample_ctx (mode : Option (List Char)) (pat : Option (List Nat)) (wl : Int) (b : Nat)
    (fd : Int) (revs : List Int) (n : Int) : Ctx where
  env := { MOCKEAGAIN := mode, MOCKEAGAIN_WRITE_TIMEOUT_PATTERN := pat, MOCKEAGAIN_WL := none }
  libc := sample_libc fd revs n
  mem := fun _ => b
  malloc_ok := true
  wl := wl
  t0 := ⟨0, 0⟩
  t1 := ⟨0, 0⟩

/-- The statics at process start with descriptor `fd` polled and its readiness
mask `mask`. -/
def sample_state (fd mask : Int) : State :=
  record_poll State.init fd mask

/-- The statics a transfer call can leave behind: the polled flags, the exempt
flags and the pattern are kept, a cached mocking mode is kept, the readiness
masks are kept but for one bit cleared in that of the descriptor, and the
windows and stall flags are kept unless a pattern is configured and
write-mocking is on, in which case the window table exists afterwards and only
the stall flag of the descriptor may have been set. -/
def transfer_post (st st1 : State) (fd : Int) : Prop :=
  st1.polled_fds = st.polled_fds ∧ st1.weird_fds = st.weird_fds
    ∧ st1.pattern = st.pattern ∧ st1.matchbuf_len = st.matchbuf_len
    ∧ (0 ≤ st.mocking_type → st1.mocking_type = st.mocking_type)
    ∧ (st1.active_fds = st.active_fds
        ∨ ∃ bit, st1.active_fds = upd st.active_fds fd (and_not (st.active_fds fd) bit))
    ∧ ((st1.matchbufs = st.matchbufs ∧ st1.snd_timeout_fds = st.snd_timeout_fds)
        ∨ (st.pattern ≠ none ∧ Int.land st1.mocking_type MOCKING_WRITES ≠ 0
            ∧ st1.matchbufs ≠ none
            ∧ (∀ j, j ≠ fd → st1.snd_timeout_fds j = st.snd_timeout_fds j)
            ∧ (st1.snd_timeout_fds fd = st.snd_timeout_fds fd ∨ st1.snd_timeout_fds fd = 1)))

/-- The next mocked call on `fd` in direction `d` would block: the mocking mode
is cached with the flag of `d` on, the descriptor is polled and its readiness
bit is clear. -/
def blocked (st : State) (d : Dir) (fd : Int) : Prop :=
  0 ≤ st.mocking_type ∧ Int.land st.mocking_type d.flag ≠ 0 ∧ st.polled_fds fd ≠ 0
    ∧ Int.land (st.active_fds fd) d.bit = 0

/-- A non-exempt context with write-mocking on and no pattern. -/
def ctx_w : Ctx := sample_ctx (some ['w']) none 0 104 3 [4] 1

/-- A non-exempt context with read-mocking and write-mocking on and no pattern.
-/
def ctx_rw : Ctx := sample_ctx (some ['r', 'w']) none 0 104 3 [5] 1

/-- An exempt context with write-mocking on. -/
def ctx_exempt : Ctx := sample_ctx (some ['w']) none 1 104 3 [4] 1

/-- The statics `pattern`, `matchbufs` and `matchbuf_len` agree the way
`init_matchbufs` sets them together: a configured pattern is non-empty, the
window table exists and `matchbuf_len` is the pattern length plus one. -/
def State.wf (st : State) : Prop :=
  ∀ pat, st.pattern = some pat →
    st.matchbufs ≠ none ∧ st.matchbuf_len = pat.length + 1 ∧ pat ≠ []

/-- The call `k` in context `c`, made after the calls `pre` from the statics
`st`. -/
def run_then (st : State) (pre : List (Ctx × Call)) (c : Ctx) (k : Call) :
    Except Fault Result :=
  match run st pre with
  | .ok st1 => step c st1 k
  | .error e => .error e

/-- What the caller of a wrapper observes: the value returned, the `errno`
assigned and the calls made to the real implementation; `none` for a fault. -/
def observe (r : Except Fault Result) : Option (Int × Option Int × List Call) :=
  match r with
  | .ok r => some (r.retval, r.errno, r.calls)
  | .error _ => none

/-- A non-exempt context with write-mocking on whose real `poll` reports no
event for the first entry and writability for the second. -/
def ctx_w2 : Ctx := sample_ctx (some ['w']) none 0 104 3 [0, 4] 1

/-- The invariant of the statics: the pattern configuration is consistent and
a stall flag is set only while a pattern is configured. -/
def State.inv (st : State) : Prop :=
  st.wf ∧ ∀ fd, st.snd_timeout_fds fd ≠ 0 → st.pattern ≠ none

/-- The entry `poll` hands back for the entry `p` the real call left, in statics
`st`: the first component of one iteration of the loop. -/
def returned_entry (st : State) (p : pollfd) : pollfd :=
  (poll_entry p st 0).1

/-- The mocking-mode setting is unset or empty. -/
def mocking_disabled (env : Env) : Prop :=
  env.MOCKEAGAIN = none ∨ env.MOCKEAGAIN = some []

/-- The result `r` of the call `k` is what the real implementation gives for
the caller's arguments: the one call `k` was made, its value and (for `poll`)
its array are returned, `errno` was not assigned and no timeout was emulated. -/
def transparent (libc : Libc) (k : Call) (r : Result) : Prop :=
  r.calls = [k] ∧ r.retval = (forward libc r.st k).retval
    ∧ r.ufds = (forward libc r.st k).ufds ∧ r.errno = none ∧ r.slept = none

/-- A non-exempt context with write-mocking on and the pattern `"A"`: the byte
at every address is `'A'`, the real `socket` returns 3 and the real `poll`
reports `POLLIN | POLLOUT` for the first entry. -/
def ctx_pat : Ctx := sample_ctx (some ['w']) (some [65]) 0 65 3 [5] 1

/-- The context `ctx_pat` with a real `poll` that reports `POLLOUT` only. -/
def ctx_pat_out : Ctx := sample_ctx (some ['w']) (some [65]) 0 65 3 [4] 1

/-- Three calls that stall descriptor 3: it is created, polled readable and
writable, and the byte `'A'` is written to it, which completes the pattern. -/
def stall_calls : List (Ctx × Call) :=
  [(ctx_pat, .socket 2 1 0), (ctx_pat, .poll [⟨3, 5, 0⟩] 0), (ctx_pat, .writev 3 [⟨100, 5⟩])]

/-- The statics after `stall_calls`. -/
def stalled_state : State :=
  match run State.init stall_calls with
  | .ok st => st
  | .error _ => State.init

/-- A context with mocking disabled whose real `poll` reports `POLLIN` for the
first entry and `POLLOUT` for the second, two events in all. -/
def ctx_dup : Ctx := sample_ctx none none 0 0 3 [1, 4] 2

/-- Mocking is off in the statics: the mode is not yet cached or cached as 0,
and no descriptor is write-stalled. -/
def State.off (st : State) : Prop :=
  (st.mocking_type = -1 ∨ st.mocking_type = 0) ∧ ∀ fd, st.snd_timeout_fds fd = 0

/-- A context with the mocking-mode setting unset, a pattern configured and an
exempt caller; the real `poll` reports `POLLIN | POLLOUT`. -/
def ctx_off : Ctx := sample_ctx none (some [65]) 1 65 3 [5] 1

/-- The last `L` bytes of `bs`, or all of them when there are fewer. -/
def last_bytes (L : Nat) (bs : List Nat) : List Nat := bs.drop (bs.length - L)

/-- The buffer of `L + 1` bytes that holds the last bytes of `bs` followed by
zero bytes. -/
def window_of (L : Nat) (bs : List Nat) : List Nat :=
  last_bytes L bs ++ List.replicate (L + 1 - (last_bytes L bs).length) 0

/-- The match window of `fd`: `none` while `matchbufs` or `matchbufs[fd]` is
`NULL`. -/
def window (st : State) (fd : Int) : Option (List Nat) :=
  match st.matchbufs with
  | none => none
  | some mb => mb fd

/-- Between two statics the pattern configuration, the window of `fd` and the
stall flag of `fd` are the same; everything else may differ. -/
def same_window (fd : Int) (a b : State) : Prop :=
  b.pattern = a.pattern ∧ b.matchbuf_len = a.matchbuf_len
    ∧ b.snd_timeout_fds fd = a.snd_timeout_fds fd ∧ window b fd = window a fd

/-- The bytes fed to the pattern matcher of `fd`, one per mocked truncated
`writev`: `FeedRun fd st bs st1` holds when, starting in `st`, a sequence of
non-exempt `writev` calls on `fd` that each take the truncated branch and return
has fed the bytes `bs` (for each call the byte at the base of the first
non-empty segment) and left the statics `st1`.  Between two of these calls
anything may happen that keeps the pattern configuration, the window and the
stall flag of `fd`. -/
inductive FeedRun (fd : Int) : State → List Nat → State → Prop where
  | start (st : State) : FeedRun fd st [] st
  | feed {st st1 st2 : State} {bs : List Nat} (c : Ctx) (iov : List iovec) (r : Result) :
      FeedRun fd st bs st1 → same_window fd st1 st2 → c.wl = 0 →
      trunc_cond c st2 .write fd (.writev fd iov) → writev c st2 fd iov = .ok r →
      FeedRun fd st (bs ++ [c.mem (truncate_iov iov).iov_base]) r.st

/-- A non-exempt context with write-mocking on and the pattern `"AB"`: the byte
at every address is `b`, the real `socket` returns 3 and the real `poll` reports
`POLLOUT` for the first entry. -/
def ctx_ab (b : Nat) : Ctx := sample_ctx (some ['w']) (some [65, 66]) 0 b 3 [4] 1

/-- Descriptor 3 is created and then, three times, polled writable and written
to: the bytes fed to the pattern matcher are `'A'`, a zero byte and `'B'`. -/
def zero_byte_calls : List (Ctx × Call) :=
  [(ctx_ab 65, .socket 2 1 0),
    (ctx_ab 65, .poll [⟨3, 4, 0⟩] 0), (ctx_ab 65, .writev 3 [⟨100, 2⟩]),
    (ctx_ab 0, .poll [⟨3, 4, 0⟩] 0), (ctx_ab 0, .writev 3 [⟨100, 2⟩]),
    (ctx_ab 66, .poll [⟨3, 4, 0⟩] 0), (ctx_ab 66, .writev 3 [⟨100, 2⟩])]

/-- The stall flag of descriptor 3 after a run; `none` for a fault. -/
def stall_flag_3 (r : Except Fault State) : Option Int :=
  match r with
  | .ok st => some (st.snd_timeout_fds 3)
  | .error _ => none

/-- The statics after descriptor 3 is created and polled readable and writable
under `ctx_pat`. -/
def polled_state : State :=
  (poll ctx_pat (socket ctx_pat State.init 2 1 0).st [⟨3, 5, 0⟩] 0).st

/-- The result of the mocked `writev` of `ctx_pat` on descriptor 3 in
`polled_state`. -/
def fed_result : Result :=
  match writev ctx_pat polled_state 3 [⟨100, 5⟩] with
  | .ok r => r
  | .error _ => would_block State.init

/-- What the statics hold after the non-zero bytes `bs` have been fed to the
matcher of a fresh descriptor `fd` under the pattern `pat`: the pattern
configuration, the window `window_of` of the bytes (none before the first
byte), and the stall flag set exactly when some full window matched. -/
def fed (pat : List Nat) (fd : Int) (bs : List Nat) (st : State) : Prop :=
  st.pattern = some pat ∧ st.matchbuf_len = pat.length + 1
    ∧ window st fd = (if bs = [] then none else some (window_of pat.length bs))
    ∧ (st.snd_timeout_fds fd ≠ 0 ↔
        ∃ k, pat.length ≤ k ∧ k ≤ bs.length ∧ (bs.take k).drop (k - pat.length) = pat)

/-- What the caller observes of each call of a run, in order; the run ends at a
fault. -/
def trace (st : State) : List (Ctx × Call) → List (Option (Int × Option Int × List Call))
  | [] => []
  | (c, k) :: rest =>
    match step c st k with
    | .ok r => some (r.retval, r.errno, r.calls) :: trace r.st rest
    | .error _ => [none]

/-- The context `ctx_pat_out` with an exempt caller. -/
def ctx_pat_exempt : Ctx := sample_ctx (some ['w']) (some [65]) 1 65 3 [4] 1

/-- The context `ctx_pat` with a `malloc` that fails. -/
def ctx_pat_nomem : Ctx := { ctx_pat with malloc_ok := false }

/-- A non-exempt context with write-mocking on whose real `socket` fails with
-1 and whose real `poll` reports no event for the first entry and `POLLOUT` for
the second. -/
def ctx_fail : Ctx := sample_ctx (some ['w']) none 0 104 (-1) [0, 4] 1

/-- The time of day in milliseconds of a clock reading,
`(tv_sec mod 86400) * 1000 + tv_usec div 1000`: the value the specification
states for `now`, and the one its comment ("returns a time in milliseconds")
announces.  It is compared with `now`, which is taken from the code. -/
def now_spec (tv : timeval) : Int :=
  (tv.tv_sec % 86400) * 1000 + tv.tv_usec / 1000

/-- No descriptor is both exempt and polled: wherever the exempt flag is set the
polled flag is clear. -/
def State.exempt_unpolled (st : State) : Prop :=
  ∀ fd, st.weird_fds fd ≠ 0 → st.polled_fds fd = 0

/-- The statics after a datagram socket is created as descriptor 3 and a `poll`
lists it. -/
def dgram_state : State :=
  (poll ctx_pat (socket ctx_pat State.init 2 2 0).st [⟨3, 5, 0⟩] 0).st

/-- The mask with the read-mocking bit iff `r` and the write-mocking bit iff
`w`. -/
def mode_mask (r w : Bool) : Int :=
  (if r then MOCKING_READS else 0) + (if w then MOCKING_WRITES else 0)

/-- Whether the setting `s` contains the character `a` or the character `b`. -/
def mentions (s : List Char) (a b : Char) : Bool :=
  s.any (fun ch => decide (ch = a ∨ ch = b))

/-- The event count of a `poll` call after its loop has run on what the real
`poll` reported. -/
def adjusted_count (c : Ctx) (st : State) (u : List pollfd) (t : Int) : Int :=
  (poll_loop (set_revents u (c.libc.poll u t).1) (init_matchbufs c.env c.malloc_ok st)
    (c.libc.poll u t).2).2.2

/-- The context `ctx_pat_out` with the second clock reading 100 ms after the
first. -/
def ctx_late : Ctx := { ctx_pat_out with t1 := ⟨0, 100000⟩ }

/-- The context `ctx_pat` with a real `writev` that fails (returns -1) and a
real `send` that transfers nothing (returns 0). -/
def ctx_pat_fail : Ctx :=
  { ctx_pat with
    libc := { ctx_pat.libc with writev := fun _ _ => -1, send := fun _ _ _ _ => 0 } }

/-- The result of the mocked `writev` of `ctx_pat_fail` on descriptor 3 in
`polled_state`. -/
def failed_result : Result :=
  match writev ctx_pat_fail polled_state 3 [⟨100, 5⟩] with
  | .ok r => r
  | .error _ => would_block State.init

/-- Every write-stalled descriptor is within the guard and blocked for writing:
the write-mocking flag is cached on, the descriptor is polled and `POLLOUT` is
clear in its readiness mask. -/
def State.stall_blocked (st : State) : Prop :=
  ∀ fd, st.snd_timeout_fds fd ≠ 0 → fd ≤ MAX_FD ∧ blocked st .write fd

/-- Every write-stalled descriptor is polled with `POLLOUT` clear, and a pattern
is configured. -/
def State.stall_polled (st : State) : Prop :=
  ∀ fd, st.snd_timeout_fds fd ≠ 0 →
    st.pattern.isSome = true ∧ st.polled_fds fd ≠ 0 ∧ Int.land (st.active_fds fd) POLLOUT = 0

/-- The call `k`, made in context `c`, releases the record of `fd`: a non-exempt
`close(fd)`, or a `socket` call whose real result is `fd`. -/
def releases (c : Ctx) (fd : Int) : Call → Prop
  | .close f => f = fd ∧ c.wl = 0
  | .socket d t p => c.libc.socket d t p = fd
  | _ => False

/-- The number of entries of a `poll` array whose `revents` is not 0. -/
def count_events (u : List pollfd) : Int :=
  ((u.countP (fun p => decide (p.revents ≠ 0)) : Nat) : Int)

/-! ## The caller filter -/

/-- Capacity of the frame buffer: `#define MAX_BACKTRACE 64`. -/
def MAX_BACKTRACE : Nat := 64

/-- Size asked of the hash table: `#define MAX_WHITELIST 64`. -/
def MAX_WHITELIST : Nat := 64

/-- Value of `whitelist_status` before the first call: `#define WHITELIST_UNSET 0x00`. -/
def WHITELIST_UNSET : Int := 0

/-- Value of `whitelist_status` when the filter is off: `#define WHITELIST_ERR 0x01`. -/
def WHITELIST_ERR : Int := 1

/-- Value of `whitelist_status` when the filter is on: `#define WHITELIST_OK 0x02`. -/
def WHITELIST_OK : Int := 2

/-- The statics of the caller filter: `whitelist_status` and the keys held by the
hash table of `<search.h>` (`none` until `hcreate` has made one). -/
structure Filter where
  whitelist_status : Int
  htab : Option (List (List Char))

/-- The filter statics at process start. -/
def Filter.init : Filter := { whitelist_status := WHITELIST_UNSET, htab := none }

/-- What a call of `is_whitelist` depends on outside the statics: the
environment, whether `hcreate` succeeds, the number of keys the table it makes
can hold, and the strings `backtrace_symbols` gives for the frames of the call
stack, innermost first. -/
structure Stack where
  env : Env
  hcreate_ok : Bool
  hcap : Nat
  symbols : List (List Char)

/-- Library function `strtok`, on the string `s` the scan starts at (the
argument, or the saved position when the argument is `NULL`): leading delimiters
are skipped, the token runs to the next delimiter or to the end of the string,
and the saved position is left behind that delimiter.  The result is the token
(`none` for `NULL`) and the string at the saved position. -/
def strtok (s delims : List Char) : Option (List Char) × List Char :=
  match s.dropWhile (fun ch => delims.contains ch) with
  | [] => (none, [])
  | c :: cs =>
    (some ((c :: cs).takeWhile (fun ch => !delims.contains ch)),
      ((c :: cs).dropWhile (fun ch => !delims.contains ch)).drop 1)

/-- Library function `hsearch` with action `ENTER` on a table that holds the keys
`tab` and has room for `cap`: the table afterwards, `none` when the key is new
and the table is full. -/
def hsearch_enter (cap : Nat) (tab : List (List Char)) (key : List Char) :
    Option (List (List Char)) :=
  if key ∈ tab then some tab
  else if tab.length < cap then some (tab ++ [key])
  else none

/-- The loop `while (token)` of `get_whitelist`: `token` is the current token,
`rest` the string at the saved position of `strtok` and `tab` the keys entered so
far.  The first argument bounds the number of iterations; the length of the
setting is enough, as every token takes a character of it. -/
def enter_tokens (cap : Nat) : Nat → Option (List Char) → List Char → List (List Char) →
    List (List Char)
  | 0, _, _, tab => tab
  | _ + 1, none, _, tab => tab
  | n + 1, some token, rest, tab =>
    match hsearch_enter cap tab token with
    | none => tab
    | some tab1 =>
      enter_tokens cap n (strtok rest [' ', ',']).1 (strtok rest [' ', ',']).2 tab1

/-- Function `get_whitelist`: the value returned and the filter statics after
the call. -/
def get_whitelist (w : Stack) (f : Filter) : Int × Filter :=
  match w.env.MOCKEAGAIN_WL with
  | none => (1, f)
  | some [] => (1, f)
  | some (c :: cs) =>
    match (strtok (c :: cs) [' ', ',']).1 with
    | none => (1, f)
    | some token =>
      if w.hcreate_ok = false then (0, f)
      else
        (1, { whitelist_status := WHITELIST_OK
              htab := some (enter_tokens w.hcap ((c :: cs).length + 1) (some token)
                (strtok (c :: cs) [' ', ',']).2 []) })

/-- The two `strtok` calls `is_whitelist` makes on the string of a frame, with
the delimiters `"(+"`: the second token, which is the one looked up. -/
def frame_token (symbol : List Char) : Option (List Char) :=
  (strtok (strtok symbol ['(', '+']).2 ['(', '+']).1

/-- The loop of `is_whitelist` over the frames: the value of `retval` after it.
A token that is `NULL` is not skipped and reaches `hsearch` as the key, which
reads the string it points to. -/
def frames_loop (tab : List (List Char)) : List (List Char) → Except Fault Int
  | [] => .ok 0
  | symbol :: rest =>
    match frame_token symbol with
    | none => .error .null_deref
    | some token =>
      if token.head? = some ')' ∨ token.head? = some '0' then frames_loop tab rest
      else if token ∈ tab then .ok 1
      else frames_loop tab rest

/-- Function `is_whitelist`: the value returned and the filter statics after
the call. -/
def is_whitelist (w : Stack) (f : Filter) : Except Fault (Int × Filter) :=
  let f1 : Filter :=
    if f.whitelist_status = WHITELIST_UNSET then
      (get_whitelist w { f with whitelist_status := WHITELIST_ERR }).2
    else f
  if f1.whitelist_status ≠ WHITELIST_OK then .ok (0, f1)
  else
    match frames_loop (f1.htab.getD []) (w.symbols.take MAX_BACKTRACE) with
    | .ok retval => .ok (retval, f1)
    | .error e => .error e

/-- The value a call of `is_whitelist` returns; `none` for a fault. -/
def verdict (r : Except Fault (Int × Filter)) : Option Int :=
  match r with
  | .ok v => some v.1
  | .error _ => none

/-- A call stack with the frame strings `symbols`, under the exemption list
`wl`, with a hash table that can be made and holds 67 keys. -/
def sample_stack (wl : String) (symbols : List String) : Stack :=
  { env := { MOCKEAGAIN := none, MOCKEAGAIN_WRITE_TIMEOUT_PATTERN := none,
             MOCKEAGAIN_WL := some wl.toList }
    hcreate_ok := true
    hcap := 67
    symbols := symbols.map String.toList }

/-- A non-exempt context with the mocking-mode setting unset and a pattern
configured; the real `socket` returns 3. -/
def ctx_off_plain : Ctx := sample_ctx none (some [65]) 0 65 3 [5] 1

/-- A non-exempt context with the mocking-mode setting unset and a pattern
configured whose real `socket` fails with -1. -/
def ctx_off_fail : Ctx := sample_ctx none (some [65]) 0 65 (-1) [5] 1

/-- The context `ctx_pat_out` with the clock readings `(0, 999000)` before the
real `poll` and `(1, 0)`, one millisecond later, after it. -/
def ctx_wrap : Ctx := { ctx_pat_out with t0 := ⟨0, 999000⟩, t1 := ⟨1, 0⟩ }

/-! # Properties -/

/-! ## Calls that return -/

theorem step_socket_ok {c : Ctx} {st : State} {d t p : Int} {r : Result}
    (h : step c st (.socket d t p) = .ok r) : socket c st d t p = r := by
  simp only [step] at h
  split at h
  · exact absurd h (by simp)
  · injection h

theorem step_close_ok {c : Ctx} {st : State} {fd : Int} {r : Result}
    (h : step c st (.close fd) = .ok r) : close c st fd = r := by
  simp only [step] at h
  split at h
  · exact absurd h (by simp)
  · injection h

/-! ## Bit-level facts -/

theorem int_testBit_ext {x y : Int} (h : ∀ i, Int.testBit x i = Int.testBit y i) : x = y := by
  have key : ∀ m n : Nat, ¬ (∀ i, Nat.testBit m i = !Nat.testBit n i) := by
    intro m n hmn
    have hm : m < 2 ^ (m + n) :=
      lt_of_lt_of_le (Nat.lt_two_pow m) (Nat.pow_le_pow_right (by norm_num) (Nat.le_add_right m n))
    have hn : n < 2 ^ (m + n) :=
      lt_of_lt_of_le (Nat.lt_two_pow n) (Nat.pow_le_pow_right (by norm_num) (Nat.le_add_left n m))
    have h1 := hmn (m + n)
    rw [Nat.testBit_lt_two_pow hm, Nat.testBit_lt_two_pow hn] at h1
    simp at h1
  cases x with
  | ofNat m =>
    cases y with
    | ofNat n =>
      congr 1
      exact Nat.eq_of_testBit_eq h
    | negSucc n =>
      exact absurd (fun i => by simpa [Int.testBit] using h i) (key m n)
  | negSucc m =>
    cases y with
    | ofNat n =>
      exact absurd (fun i => by simpa [Int.testBit] using (h i).symm) (key n m)
    | negSucc n =>
      congr 1
      apply Nat.eq_of_testBit_eq
      intro i
      have := h i
      simpa [Int.testBit] using this

theorem int_testBit_zero (i : Nat) : Int.testBit 0 i = false := by
  show Int.testBit (Int.ofNat 0) i = false
  simp [Int.testBit]

theorem testBit_and_not (x m : Int) (i : Nat) :
    Int.testBit (and_not x m) i = (Int.testBit x i && !Int.testBit m i) := by
  unfold and_not
  rw [Int.testBit_lxor, Int.testBit_land]
  cases Int.testBit x i <;> cases Int.testBit m i <;> rfl

/-- The evaluable `and_not` is the C expression `x & ~m`. -/
theorem and_not_eq (x m : Int) : and_not x m = Int.land x (Int.lnot m) := by
  apply int_testBit_ext
  intro i
  rw [testBit_and_not, Int.testBit_land, Int.testBit_lnot]

theorem land_eq_zero_iff (x m : Int) :
    Int.land x m = 0 ↔ ∀ i, (Int.testBit x i && Int.testBit m i) = false := by
  constructor
  · intro h i
    rw [← Int.testBit_land, h, int_testBit_zero]
  · intro h
    apply int_testBit_ext
    intro i
    rw [Int.testBit_land, h, int_testBit_zero]

/-- After `x &= ~m` no bit of `m` is left in `x`. -/
theorem land_and_not_self (x m : Int) : Int.land (and_not x m) m = 0 := by
  rw [land_eq_zero_iff]
  intro i
  rw [testBit_and_not]
  cases Int.testBit x i <;> cases Int.testBit m i <;> rfl

/-- Clearing the bits of `a` does not bring back a bit of `b`. -/
theorem land_and_not_of_land_eq_zero {x b : Int} (a : Int) (h : Int.land x b = 0) :
    Int.land (and_not x a) b = 0 := by
  rw [land_eq_zero_iff] at h ⊢
  intro i
  have hi := h i
  rw [testBit_and_not]
  cases hx : Int.testBit x i <;> cases hb : Int.testBit b i <;> cases Int.testBit a i <;>
    simp_all

/-! ## The cached mocking mode -/

theorem scan_mocking_range (cs : List Char) (acc : Int)
    (h : acc = 0 ∨ acc = 1 ∨ acc = 2 ∨ acc = 3) :
    scan_mocking cs acc = 0 ∨ scan_mocking cs acc = 1 ∨ scan_mocking cs acc = 2
      ∨ scan_mocking cs acc = 3 := by
  induction cs generalizing acc with
  | nil => simpa [scan_mocking] using h
  | cons c cs ih =>
    unfold scan_mocking
    split
    · apply ih
      rcases h with h | h | h | h <;> subst h <;> decide
    · split
      · apply ih
        rcases h with h | h | h | h <;> subst h <;> decide
      · exact ih acc h

theorem get_mocking_type_snd_mocking_type (env : Env) (st : State) :
    (get_mocking_type env st).2.mocking_type = (get_mocking_type env st).1 := by
  unfold get_mocking_type
  split
  · rfl
  · split <;> rfl

theorem get_mocking_type_nonneg (env : Env) (st : State) :
    0 ≤ (get_mocking_type env st).1 := by
  unfold get_mocking_type
  split
  · assumption
  · split
    · exact le_refl _
    · exact le_refl _
    · rename_i c cs _
      have h := scan_mocking_range (c :: cs) 0 (Or.inl rfl)
      simp only
      split
      · simp [MOCKING_WRITES]
      · rcases h with h | h | h | h <;> rw [h] <;> simp

/-- A second call of `get_mocking_type` returns the cached value and changes
nothing, whatever the environment has become. -/
theorem get_mocking_type_cached (env env1 : Env) (st : State) :
    get_mocking_type env1 (get_mocking_type env st).2
      = ((get_mocking_type env st).1, (get_mocking_type env st).2) := by
  have h1 := get_mocking_type_snd_mocking_type env st
  have h2 := get_mocking_type_nonneg env st
  generalize get_mocking_type env st = g at h1 h2
  unfold get_mocking_type
  rw [if_pos (by rw [h1]; exact h2), h1]

theorem get_mocking_type_same_tables (env : Env) (st : State) :
    same_tables st (get_mocking_type env st).2 := by
  unfold get_mocking_type same_tables
  split
  · simp
  · split <;> simp

theorem get_mocking_type_of_nonneg (env : Env) (st : State) (h : 0 ≤ st.mocking_type) :
    get_mocking_type env st = (st.mocking_type, st) := by
  unfold get_mocking_type
  rw [if_pos h]

/-! ## Forwarding -/

theorem forward_st (libc : Libc) (st : State) (k : Call) : (forward libc st k).st = st := by
  cases k <;> rfl

theorem forward_calls (libc : Libc) (st : State) (k : Call) :
    (forward libc st k).calls = [k] := by
  cases k <;> rfl

theorem forward_errno (libc : Libc) (st : State) (k : Call) :
    (forward libc st k).errno = none := by
  cases k <;> rfl

theorem forward_slept (libc : Libc) (st : State) (k : Call) :
    (forward libc st k).slept = none := by
  cases k <;> rfl

theorem forward_retval (libc : Libc) (st st1 : State) (k : Call) :
    (forward libc st k).retval = (forward libc st1 k).retval := by
  cases k <;> rfl

/-! ## Frame facts of the helpers -/

@[simp] theorem gmt_active (env : Env) (st : State) :
    (get_mocking_type env st).2.active_fds = st.active_fds :=
  (get_mocking_type_same_tables env st).1.symm

@[simp] theorem gmt_polled (env : Env) (st : State) :
    (get_mocking_type env st).2.polled_fds = st.polled_fds :=
  (get_mocking_type_same_tables env st).2.1.symm

@[simp] theorem gmt_weird (env : Env) (st : State) :
    (get_mocking_type env st).2.weird_fds = st.weird_fds :=
  (get_mocking_type_same_tables env st).2.2.1.symm

@[simp] theorem gmt_snd_timeout (env : Env) (st : State) :
    (get_mocking_type env st).2.snd_timeout_fds = st.snd_timeout_fds :=
  (get_mocking_type_same_tables env st).2.2.2.1.symm

@[simp] theorem gmt_matchbufs (env : Env) (st : State) :
    (get_mocking_type env st).2.matchbufs = st.matchbufs :=
  (get_mocking_type_same_tables env st).2.2.2.2.1.symm

@[simp] theorem gmt_matchbuf_len (env : Env) (st : State) :
    (get_mocking_type env st).2.matchbuf_len = st.matchbuf_len :=
  (get_mocking_type_same_tables env st).2.2.2.2.2.1.symm

@[simp] theorem gmt_pattern (env : Env) (st : State) :
    (get_mocking_type env st).2.pattern = st.pattern :=
  (get_mocking_type_same_tables env st).2.2.2.2.2.2.symm

theorem same_tables_refl (st : State) : same_tables st st :=
  ⟨rfl, rfl, rfl, rfl, rfl, rfl, rfl⟩

@[simp] theorem upd_same {α : Type} (a : Int → α) (i : Int) (v : α) : upd a i v i = v := by
  simp [upd]

theorem upd_other {α : Type} (a : Int → α) {i j : Int} (v : α) (h : j ≠ i) :
    upd a i v j = a j := by
  simp [upd, h]

theorem init_matchbufs_tables (env : Env) (b : Bool) (st : State) :
    (init_matchbufs env b st).active_fds = st.active_fds
      ∧ (init_matchbufs env b st).polled_fds = st.polled_fds
      ∧ (init_matchbufs env b st).weird_fds = st.weird_fds
      ∧ (init_matchbufs env b st).snd_timeout_fds = st.snd_timeout_fds
      ∧ (init_matchbufs env b st).mocking_type = st.mocking_type := by
  unfold init_matchbufs
  split
  · simp
  · split
    · simp
    · simp
    · split <;> simp

@[simp] theorem init_matchbufs_active (env : Env) (b : Bool) (st : State) :
    (init_matchbufs env b st).active_fds = st.active_fds :=
  (init_matchbufs_tables env b st).1

@[simp] theorem init_matchbufs_polled (env : Env) (b : Bool) (st : State) :
    (init_matchbufs env b st).polled_fds = st.polled_fds :=
  (init_matchbufs_tables env b st).2.1

@[simp] theorem init_matchbufs_weird (env : Env) (b : Bool) (st : State) :
    (init_matchbufs env b st).weird_fds = st.weird_fds :=
  (init_matchbufs_tables env b st).2.2.1

@[simp] theorem init_matchbufs_snd_timeout (env : Env) (b : Bool) (st : State) :
    (init_matchbufs env b st).snd_timeout_fds = st.snd_timeout_fds :=
  (init_matchbufs_tables env b st).2.2.2.1

@[simp] theorem init_matchbufs_mocking_type (env : Env) (b : Bool) (st : State) :
    (init_matchbufs env b st).mocking_type = st.mocking_type :=
  (init_matchbufs_tables env b st).2.2.2.2

/-- The pattern block of `writev` leaves the readiness masks, the polled flags,
the exempt flags and the configuration as they are; the stall flags of other
descriptors keep their value and that of `fd` is kept or set to 1. -/
theorem writev_match_frame {b : Bool} {pat : List Nat} {ch : Nat} {st st2 : State} {fd : Int}
    (h : writev_match b pat ch st fd = .ok st2) :
    st2.active_fds = st.active_fds ∧ st2.polled_fds = st.polled_fds
      ∧ st2.weird_fds = st.weird_fds ∧ st2.pattern = st.pattern
      ∧ st2.matchbuf_len = st.matchbuf_len ∧ st2.mocking_type = st.mocking_type
      ∧ st2.matchbufs.isSome = true
      ∧ (∀ j, j ≠ fd → st2.snd_timeout_fds j = st.snd_timeout_fds j)
      ∧ (st2.snd_timeout_fds fd = st.snd_timeout_fds fd ∨ st2.snd_timeout_fds fd = 1) := by
  unfold writev_match at h
  split at h
  · exact absurd h (by simp)
  · rename_i mb _
    split at h
    · exact absurd h (by simp)
    · rename_i p len _
      split at h
      · injection h with h
        subst h
        refine ⟨rfl, rfl, rfl, rfl, rfl, rfl, rfl, ?_, Or.inr (by simp)⟩
        intro j hj
        simp [upd_other _ _ hj]
      · injection h with h
        subst h
        exact ⟨rfl, rfl, rfl, rfl, rfl, rfl, rfl, fun _ _ => rfl, Or.inl rfl⟩

/-! ## The five transfer wrappers in normal form -/

theorem send_eq (c : Ctx) (st : State) (fd : Int) (buf len : Nat) (flags : Int) :
    send c st fd buf len flags
      = mocked_transfer c st .write fd len (.send fd buf 1 flags) (.send fd buf len flags) := by
  unfold send mocked_transfer
  simp only [get_mocking_type_cached, gmt_polled, gmt_active, forward_st, Dir.flag, Dir.bit]

theorem read_eq (c : Ctx) (st : State) (fd : Int) (buf len : Nat) :
    read c st fd buf len
      = mocked_transfer c st .read fd len (.read fd buf 1) (.read fd buf len) := by
  unfold read mocked_transfer
  simp only [get_mocking_type_cached, gmt_polled, gmt_active, forward_st, Dir.flag, Dir.bit]

theorem recv_eq (c : Ctx) (st : State) (fd : Int) (buf len : Nat) (flags : Int) :
    recv c st fd buf len flags
      = mocked_transfer c st .read fd len (.recv fd buf 1 flags) (.recv fd buf len flags) := by
  unfold recv mocked_transfer
  simp only [get_mocking_type_cached, gmt_polled, gmt_active, forward_st, Dir.flag, Dir.bit]

theorem recvfrom_eq (c : Ctx) (st : State) (fd : Int) (buf len : Nat) (flags : Int)
    (a n : Nat) :
    recvfrom c st fd buf len flags a n
      = mocked_transfer c st .read fd len (.recvfrom fd buf 1 flags a n)
          (.recvfrom fd buf len flags a n) := by
  unfold recvfrom mocked_transfer
  simp only [get_mocking_type_cached, gmt_polled, gmt_active, forward_st, Dir.flag, Dir.bit]

/-- Function `writev` with the second `get_mocking_type` call replaced by the
cached value and the three forwarding exits merged. -/
theorem writev_eq (c : Ctx) (st : State) (fd : Int) (iov : List iovec) :
    writev c st fd iov =
      if c.wl ≠ 0 then .ok (forward c.libc st (.writev fd iov))
      else if Int.land (get_mocking_type c.env st).1 MOCKING_WRITES ≠ 0 ∧ fd ≤ MAX_FD
          ∧ st.polled_fds fd ≠ 0 ∧ Int.land (st.active_fds fd) POLLOUT = 0 then
        .ok (would_block (get_mocking_type c.env st).2)
      else if Int.land (get_mocking_type c.env st).1 MOCKING_WRITES ≠ 0 ∧ fd ≤ MAX_FD
          ∧ st.polled_fds fd ≠ 0 ∧ (truncate_iov iov).iov_base ≠ 0 then
        match (match st.pattern with
          | some pat =>
            writev_match c.malloc_ok pat (c.mem (truncate_iov iov).iov_base)
              (get_mocking_type c.env st).2 fd
          | none => .ok (get_mocking_type c.env st).2) with
        | .error e => .error e
        | .ok st2 =>
          .ok { forward c.libc st2 (.writev fd [truncate_iov iov]) with
                st := clear_active st2 fd POLLOUT }
      else .ok (forward c.libc (get_mocking_type c.env st).2 (.writev fd iov)) := by
  unfold writev
  simp only [get_mocking_type_cached, gmt_polled, gmt_active, gmt_pattern, forward_st]
  by_cases hwl : c.wl ≠ 0
  · simp only [if_pos hwl]
  · simp only [if_neg hwl]
    split
    · rfl
    · by_cases hm : Int.land (get_mocking_type c.env st).1 MOCKING_WRITES = 0
      · have h1 : ¬ (Int.land (get_mocking_type c.env st).1 MOCKING_WRITES ≠ 0 ∧ fd ≤ MAX_FD
            ∧ st.polled_fds fd ≠ 0 ∧ (truncate_iov iov).iov_base ≠ 0) := fun h => h.1 hm
        rw [if_pos hm, if_neg h1]
      · rw [if_neg hm]
        by_cases hp : fd ≤ MAX_FD ∧ st.polled_fds fd ≠ 0
        · rw [if_pos hp]
          by_cases hb : (truncate_iov iov).iov_base = 0
          · have h1 : ¬ (Int.land (get_mocking_type c.env st).1 MOCKING_WRITES ≠ 0
                ∧ fd ≤ MAX_FD ∧ st.polled_fds fd ≠ 0 ∧ (truncate_iov iov).iov_base ≠ 0) :=
              fun h => h.2.2.2 hb
            rw [if_pos hb, if_neg h1]
          · have h1 : Int.land (get_mocking_type c.env st).1 MOCKING_WRITES ≠ 0
                ∧ fd ≤ MAX_FD ∧ st.polled_fds fd ≠ 0 ∧ (truncate_iov iov).iov_base ≠ 0 :=
              ⟨hm, hp.1, hp.2, hb⟩
            rw [if_neg hb, if_pos h1]
        · have h1 : ¬ (Int.land (get_mocking_type c.env st).1 MOCKING_WRITES ≠ 0
              ∧ fd ≤ MAX_FD ∧ st.polled_fds fd ≠ 0 ∧ (truncate_iov iov).iov_base ≠ 0) :=
            fun h => hp ⟨h.2.1, h.2.2.1⟩
          rw [if_neg hp, if_neg h1]
          simp

/-! ## Transfer calls, case by case -/

/-- A transfer call of an exempt caller is forwarded as it is. -/
theorem step_exempt (c : Ctx) (st : State) (k : Call) (d : Dir) (fd : Int)
    (hk : k.transfer = some (d, fd)) (hwl : c.wl ≠ 0) :
    step c st k = .ok (forward c.libc st k) := by
  cases k <;> simp only [Call.transfer, reduceCtorEq] at hk <;>
    simp [step, writev_eq, send_eq, read_eq, recv_eq, recvfrom_eq, mocked_transfer, hwl]

/-- A transfer call of a non-exempt caller under the guard `block_cond` is
answered with the would-block failure. -/
theorem step_block (c : Ctx) (st : State) (k : Call) (d : Dir) (fd : Int)
    (hk : k.transfer = some (d, fd)) (hwl : c.wl = 0) (hb : block_cond c st d fd) :
    step c st k = .ok (would_block (get_mocking_type c.env st).2) := by
  unfold block_cond mode_on at hb
  cases k <;> simp only [Call.transfer, reduceCtorEq, Option.some.injEq, Prod.mk.injEq] at hk <;>
    obtain ⟨rfl, rfl⟩ := hk <;>
    simp only [Dir.flag, Dir.bit] at hb <;>
    simp [step, writev_eq, send_eq, read_eq, recv_eq, recvfrom_eq, mocked_transfer, hwl, hb,
      Dir.flag, Dir.bit]

/-- A transfer call on a descriptor whose polled flag is clear, or which lies
above `MAX_FD`, is forwarded as it is. -/
theorem step_unpolled (c : Ctx) (st : State) (k : Call) (d : Dir) (fd : Int)
    (hk : k.transfer = some (d, fd)) (hp : fd ≤ MAX_FD → st.polled_fds fd = 0) :
    ∃ st1, step c st k = .ok (forward c.libc st1 k) ∧ same_tables st st1 := by
  by_cases hwl : c.wl ≠ 0
  · exact ⟨st, step_exempt c st k d fd hk hwl, same_tables_refl st⟩
  · refine ⟨(get_mocking_type c.env st).2, ?_, get_mocking_type_same_tables c.env st⟩
    have hnp : ¬ (fd ≤ MAX_FD ∧ st.polled_fds fd ≠ 0) := fun h => h.2 (hp h.1)
    have h1 : ∀ (P Q : Prop), ¬ (P ∧ fd ≤ MAX_FD ∧ st.polled_fds fd ≠ 0 ∧ Q) :=
      fun P Q h => hnp ⟨h.2.1, h.2.2.1⟩
    cases k <;> simp only [Call.transfer, reduceCtorEq, Option.some.injEq, Prod.mk.injEq] at hk <;>
      obtain ⟨rfl, rfl⟩ := hk
    · simp only [step, writev_eq, if_neg hwl, if_neg (h1 _ _)]
    · simp only [step, send_eq, mocked_transfer, if_neg hwl, if_neg (h1 _ _)]
    · simp only [step, read_eq, mocked_transfer, if_neg hwl, if_neg (h1 _ _)]
    · simp only [step, recv_eq, mocked_transfer, if_neg hwl, if_neg (h1 _ _)]
    · simp only [step, recvfrom_eq, mocked_transfer, if_neg hwl, if_neg (h1 _ _)]

/-! ## What each call leaves of the tables -/

theorem clear_active_fields (st : State) (fd bit : Int) :
    (clear_active st fd bit).polled_fds = st.polled_fds
      ∧ (clear_active st fd bit).weird_fds = st.weird_fds
      ∧ (clear_active st fd bit).snd_timeout_fds = st.snd_timeout_fds
      ∧ (clear_active st fd bit).matchbufs = st.matchbufs
      ∧ (clear_active st fd bit).matchbuf_len = st.matchbuf_len
      ∧ (clear_active st fd bit).pattern = st.pattern
      ∧ (clear_active st fd bit).mocking_type = st.mocking_type :=
  ⟨rfl, rfl, rfl, rfl, rfl, rfl, rfl⟩

theorem clear_active_active (st : State) (fd bit : Int) :
    (clear_active st fd bit).active_fds = upd st.active_fds fd (and_not (st.active_fds fd) bit) :=
  rfl

/-- Every transfer call that returns leaves statics as `transfer_post`
describes. -/
theorem step_transfer_post {c : Ctx} {st : State} {k : Call} {d : Dir} {fd : Int} {r : Result}
    (hk : k.transfer = some (d, fd)) (h : step c st k = .ok r) :
    transfer_post st r.st fd := by
  have hg : transfer_post st (get_mocking_type c.env st).2 fd := by
    refine ⟨by simp, by simp, by simp, by simp, ?_, Or.inl (by simp), Or.inl (by simp)⟩
    intro h0
    rw [get_mocking_type_of_nonneg _ _ h0]
  have hclr : ∀ st2 bit, transfer_post st st2 fd → st2.active_fds = st.active_fds →
      transfer_post st (clear_active st2 fd bit) fd := by
    intro st2 bit h2 ha
    obtain ⟨h2a, h2b, h2c, h2d, h2e, _, h2g⟩ := h2
    refine ⟨h2a, h2b, h2c, h2d, h2e, Or.inr ⟨bit, ?_⟩, h2g⟩
    rw [clear_active_active, ha]
  have hrefl : transfer_post st st fd :=
    ⟨rfl, rfl, rfl, rfl, fun _ => rfl, Or.inl rfl, Or.inl ⟨rfl, rfl⟩⟩
  have hmt : ∀ (len : Nat) (k1 k2 : Call),
      transfer_post st (mocked_transfer c st d fd len k1 k2).st fd := by
    intro len k1 k2
    unfold mocked_transfer
    split
    · rw [forward_st]; exact hrefl
    · split
      · exact hg
      · split
        · exact hclr _ _ hg (by simp)
        · rw [forward_st]; exact hg
  cases k with
  | socket _ _ _ => simp [Call.transfer] at hk
  | poll _ _ => simp [Call.transfer] at hk
  | close _ => simp [Call.transfer] at hk
  | writev f iov =>
    simp only [Call.transfer, Option.some.injEq, Prod.mk.injEq] at hk
    obtain ⟨rfl, rfl⟩ := hk
    simp only [step, writev_eq] at h
    split at h
    · injection h with h; subst h; rw [forward_st]; exact hrefl
    · split at h
      · injection h with h; subst h; exact hg
      · split at h
        · rename_i hcond
          split at h
          · exact absurd h (by simp)
          · rename_i st2 hm
            injection h with h
            subst h
            split at hm
            · rename_i pat hpat
              obtain ⟨f1, f2, f3, f4, f5, f6, f7, f8, f9⟩ := writev_match_frame hm
              refine hclr st2 _ ⟨?_, ?_, ?_, ?_, ?_, Or.inl ?_, Or.inr ⟨?_, ?_, ?_, ?_, ?_⟩⟩ ?_
              · rw [f2]; simp
              · rw [f3]; simp
              · rw [f4]; simp
              · rw [f5]; simp
              · intro h0; rw [f6]; exact hg.2.2.2.2.1 h0
              · rw [f1]; simp
              · rw [hpat]; simp
              · rw [f6, get_mocking_type_snd_mocking_type]; exact hcond.1
              · intro e; rw [e] at f7; simp at f7
              · intro j hj; rw [f8 j hj]; simp
              · simpa using f9
              · rw [f1]; simp
            · injection hm with hm
              subst hm
              exact hclr _ _ hg (by simp)
        · injection h with h; subst h; rw [forward_st]; exact hg
  | send f b l fl =>
    simp only [Call.transfer, Option.some.injEq, Prod.mk.injEq] at hk
    obtain ⟨rfl, rfl⟩ := hk
    simp only [step, send_eq] at h; injection h with h; subst h; exact hmt _ _ _
  | read f b l =>
    simp only [Call.transfer, Option.some.injEq, Prod.mk.injEq] at hk
    obtain ⟨rfl, rfl⟩ := hk
    simp only [step, read_eq] at h; injection h with h; subst h; exact hmt _ _ _
  | recv f b l fl =>
    simp only [Call.transfer, Option.some.injEq, Prod.mk.injEq] at hk
    obtain ⟨rfl, rfl⟩ := hk
    simp only [step, recv_eq] at h; injection h with h; subst h; exact hmt _ _ _
  | recvfrom f b l fl a n =>
    simp only [Call.transfer, Option.some.injEq, Prod.mk.injEq] at hk
    obtain ⟨rfl, rfl⟩ := hk
    simp only [step, recvfrom_eq] at h; injection h with h; subst h; exact hmt _ _ _

/-! ## The loop of `poll` -/

theorem set_revents_fd (u : List pollfd) (rs : List Int) :
    (set_revents u rs).map pollfd.fd = u.map pollfd.fd := by
  induction u generalizing rs with
  | nil => rfl
  | cons p ps ih =>
    cases rs with
    | nil => rfl
    | cons r rs => simp [set_revents, ih]

theorem set_revents_mem_fd {u : List pollfd} {rs : List Int} {q : pollfd}
    (h : q ∈ set_revents u rs) : ∃ p ∈ u, p.fd = q.fd := by
  have h1 : q.fd ∈ (set_revents u rs).map pollfd.fd := List.mem_map_of_mem _ h
  rw [set_revents_fd] at h1
  obtain ⟨p, hp, hpq⟩ := List.mem_map.1 h1
  exact ⟨p, hp, hpq⟩

/-- One iteration of the loop changes neither the exempt flags, the stall flags,
the windows nor the configuration. -/
theorem poll_entry_static (p : pollfd) (st : State) (r : Int) :
    (poll_entry p st r).2.1.weird_fds = st.weird_fds
      ∧ (poll_entry p st r).2.1.snd_timeout_fds = st.snd_timeout_fds
      ∧ (poll_entry p st r).2.1.pattern = st.pattern
      ∧ (poll_entry p st r).2.1.matchbufs = st.matchbufs
      ∧ (poll_entry p st r).2.1.matchbuf_len = st.matchbuf_len
      ∧ (poll_entry p st r).2.1.mocking_type = st.mocking_type := by
  unfold poll_entry
  dsimp only
  split
  · simp
  · split
    · split <;> simp [record_poll]
    · simp [record_poll]

/-- One iteration of the loop touches the readiness mask and the polled flag of
the entry's descriptor only. -/
theorem poll_entry_other (p : pollfd) (st : State) (r : Int) {fd : Int} (h : p.fd ≠ fd) :
    (poll_entry p st r).2.1.active_fds fd = st.active_fds fd
      ∧ (poll_entry p st r).2.1.polled_fds fd = st.polled_fds fd := by
  have h1 : fd ≠ p.fd := fun e => h e.symm
  unfold poll_entry
  dsimp only
  split
  · simp
  · split
    · split <;> simp [record_poll, upd_other _ _ h1]
    · simp [record_poll, upd_other _ _ h1]

theorem poll_loop_static (u : List pollfd) (st : State) (r : Int) :
    (poll_loop u st r).2.1.weird_fds = st.weird_fds
      ∧ (poll_loop u st r).2.1.snd_timeout_fds = st.snd_timeout_fds
      ∧ (poll_loop u st r).2.1.pattern = st.pattern
      ∧ (poll_loop u st r).2.1.matchbufs = st.matchbufs
      ∧ (poll_loop u st r).2.1.matchbuf_len = st.matchbuf_len
      ∧ (poll_loop u st r).2.1.mocking_type = st.mocking_type := by
  induction u generalizing st r with
  | nil => simp [poll_loop]
  | cons p ps ih =>
    simp only [poll_loop]
    obtain ⟨a1, a2, a3, a4, a5, a6⟩ := ih (poll_entry p st r).2.1 (poll_entry p st r).2.2
    obtain ⟨b1, b2, b3, b4, b5, b6⟩ := poll_entry_static p st r
    exact ⟨a1.trans b1, a2.trans b2, a3.trans b3, a4.trans b4, a5.trans b5, a6.trans b6⟩

theorem poll_loop_other (u : List pollfd) (st : State) (r : Int) {fd : Int}
    (h : ∀ p ∈ u, p.fd ≠ fd) :
    (poll_loop u st r).2.1.active_fds fd = st.active_fds fd
      ∧ (poll_loop u st r).2.1.polled_fds fd = st.polled_fds fd := by
  induction u generalizing st r with
  | nil => simp [poll_loop]
  | cons p ps ih =>
    simp only [poll_loop]
    obtain ⟨a1, a2⟩ := ih (poll_entry p st r).2.1 (poll_entry p st r).2.2
      (fun q hq => h q (List.mem_cons_of_mem _ hq))
    obtain ⟨b1, b2⟩ := poll_entry_other p st r (h p (List.mem_cons_self _ _))
    exact ⟨a1.trans b1, a2.trans b2⟩

/-- The statics `poll` leaves: those of the loop run on the real result when
the real call reports events, and otherwise those `init_matchbufs` leaves. -/
theorem poll_st (c : Ctx) (st : State) (u : List pollfd) (t : Int) :
    (poll c st u t).st =
      if (c.libc.poll u t).2 > 0 then
        (poll_loop (set_revents u (c.libc.poll u t).1) (init_matchbufs c.env c.malloc_ok st)
          (c.libc.poll u t).2).2.1
      else init_matchbufs c.env c.malloc_ok st := by
  unfold poll
  simp only [forward]
  split <;> rfl

/-- A `poll` call without an entry for `fd` leaves the readiness mask and the
polled flag of `fd` as they are. -/
theorem poll_other (c : Ctx) (st : State) (u : List pollfd) (t : Int) {fd : Int}
    (h : ∀ p ∈ u, p.fd ≠ fd) :
    (poll c st u t).st.active_fds fd = st.active_fds fd
      ∧ (poll c st u t).st.polled_fds fd = st.polled_fds fd := by
  rw [poll_st]
  split
  · have h1 : ∀ q ∈ set_revents u (c.libc.poll u t).1, q.fd ≠ fd := by
      intro q hq
      obtain ⟨p, hp, hpq⟩ := set_revents_mem_fd hq
      rw [← hpq]
      exact h p hp
    have := poll_loop_other _ (init_matchbufs c.env c.malloc_ok st) (c.libc.poll u t).2 h1
    simpa using this
  · simp

theorem poll_static (c : Ctx) (st : State) (u : List pollfd) (t : Int) :
    (poll c st u t).st.weird_fds = st.weird_fds
      ∧ (poll c st u t).st.snd_timeout_fds = st.snd_timeout_fds
      ∧ (poll c st u t).st.mocking_type = st.mocking_type := by
  rw [poll_st]
  split
  · obtain ⟨a1, a2, _, _, _, a6⟩ :=
      poll_loop_static (set_revents u (c.libc.poll u t).1)
        (init_matchbufs c.env c.malloc_ok st) (c.libc.poll u t).2
    simp [a1, a2, a6]
  · simp

/-! ## `socket` and `close` -/

theorem socket_st (c : Ctx) (st : State) (d t p : Int) :
    (socket c st d t p).st =
      if c.libc.socket d t p ≤ MAX_FD then
        { init_matchbufs c.env c.malloc_ok st with
          weird_fds := upd (init_matchbufs c.env c.malloc_ok st).weird_fds (c.libc.socket d t p)
            (if Int.land t SOCK_STREAM = 0 then 1 else 0)
          matchbufs := free_matchbuf (init_matchbufs c.env c.malloc_ok st).matchbufs
            (c.libc.socket d t p)
          active_fds := upd st.active_fds (c.libc.socket d t p) 0
          polled_fds := upd st.polled_fds (c.libc.socket d t p) 0
          snd_timeout_fds := upd st.snd_timeout_fds (c.libc.socket d t p) 0 }
      else init_matchbufs c.env c.malloc_ok st := by
  unfold socket
  simp only [forward]
  split
  · split <;> simp
  · rfl

theorem close_st (c : Ctx) (st : State) (fd : Int) :
    (close c st fd).st =
      if c.wl ≠ 0 then st
      else if fd ≤ MAX_FD then
        { st with
          matchbufs := free_matchbuf st.matchbufs fd
          active_fds := upd st.active_fds fd 0
          polled_fds := upd st.polled_fds fd 0
          snd_timeout_fds := upd st.snd_timeout_fds fd 0
          weird_fds := upd st.weird_fds fd 0 }
      else st := by
  unfold close
  split
  · rw [forward_st]
  · rw [forward_st]

/-! ## The truncated branch -/

/-- What a mocked call that is truncated to one byte does, when it returns: the
real implementation is called once with the one-byte request, its value is
returned, the readiness bit of the direction is cleared in `active_fds[fd]`,
the polled flags are kept and the mocking mode is cached. -/
theorem step_trunc {c : Ctx} {st : State} {k : Call} {d : Dir} {fd : Int} {r : Result}
    (hk : k.transfer = some (d, fd)) (hwl : c.wl = 0) (ht : trunc_cond c st d fd k)
    (h : step c st k = .ok r) :
    r.calls = [k.truncated] ∧ r.retval = (forward c.libc st k.truncated).retval
      ∧ r.errno = none
      ∧ r.st.active_fds = upd st.active_fds fd (and_not (st.active_fds fd) d.bit)
      ∧ r.st.polled_fds = st.polled_fds
      ∧ r.st.mocking_type = (get_mocking_type c.env st).1 := by
  obtain ⟨hm, hle, hpo, hbit, hpay⟩ := ht
  unfold mode_on at hm
  have hnb : ∀ (b : Int), b = d.bit → ¬ (Int.land (get_mocking_type c.env st).1 d.flag ≠ 0
      ∧ fd ≤ MAX_FD ∧ st.polled_fds fd ≠ 0 ∧ Int.land (st.active_fds fd) b = 0) := by
    intro b hb h4
    rw [hb] at h4
    exact hbit h4.2.2.2
  have hmt : ∀ (len : Nat) (k1 k2 : Call), len ≠ 0 →
      mocked_transfer c st d fd len k1 k2 =
        { forward c.libc (get_mocking_type c.env st).2 k1 with
          st := clear_active (get_mocking_type c.env st).2 fd d.bit } := by
    intro len k1 k2 hlen
    unfold mocked_transfer
    rw [if_neg (by simp [hwl]), if_neg (hnb _ rfl), if_pos ⟨hm, hle, hpo, hlen⟩]
  have hfin : ∀ (k1 : Call) (r0 : Result),
      r0 = { forward c.libc (get_mocking_type c.env st).2 k1 with
             st := clear_active (get_mocking_type c.env st).2 fd d.bit } →
      r0.calls = [k1] ∧ r0.retval = (forward c.libc st k1).retval ∧ r0.errno = none
        ∧ r0.st.active_fds = upd st.active_fds fd (and_not (st.active_fds fd) d.bit)
        ∧ r0.st.polled_fds = st.polled_fds
        ∧ r0.st.mocking_type = (get_mocking_type c.env st).1 := by
    intro k1 r0 hr0
    subst hr0
    refine ⟨forward_calls _ _ _, forward_retval _ _ _ _, forward_errno _ _ _, ?_, ?_, ?_⟩
    · simp [clear_active_active]
    · simp [clear_active]
    · simp [clear_active, get_mocking_type_snd_mocking_type]
  cases k with
  | socket _ _ _ => simp [Call.transfer] at hk
  | poll _ _ => simp [Call.transfer] at hk
  | close _ => simp [Call.transfer] at hk
  | writev f iov =>
    simp only [Call.transfer, Option.some.injEq, Prod.mk.injEq] at hk
    obtain ⟨rfl, rfl⟩ := hk
    simp only [Call.has_payload] at hpay
    simp only [step, writev_eq] at h
    have hnb1 : ¬ (Int.land (get_mocking_type c.env st).1 MOCKING_WRITES ≠ 0 ∧ f ≤ MAX_FD
        ∧ st.polled_fds f ≠ 0 ∧ Int.land (st.active_fds f) POLLOUT = 0) := hnb _ rfl
    have hpos : Int.land (get_mocking_type c.env st).1 MOCKING_WRITES ≠ 0 ∧ f ≤ MAX_FD
        ∧ st.polled_fds f ≠ 0 ∧ (truncate_iov iov).iov_base ≠ 0 := ⟨hm, hle, hpo, hpay⟩
    rw [if_neg (by simp [hwl]), if_neg hnb1, if_pos hpos] at h
    split at h
    · exact absurd h (by simp)
    · rename_i st2 hst2
      injection h with h
      subst h
      have hst2f : st2.active_fds = st.active_fds ∧ st2.polled_fds = st.polled_fds
          ∧ st2.mocking_type = (get_mocking_type c.env st).1 := by
        split at hst2
        · obtain ⟨f1, f2, _, _, _, f6, _⟩ := writev_match_frame hst2
          exact ⟨by rw [f1]; simp, by rw [f2]; simp,
            by rw [f6]; exact get_mocking_type_snd_mocking_type _ _⟩
        · injection hst2 with hst2
          subst hst2
          exact ⟨by simp, by simp, get_mocking_type_snd_mocking_type _ _⟩
      refine ⟨forward_calls _ _ _, forward_retval _ _ _ _, forward_errno _ _ _, ?_, ?_, ?_⟩
      · simp [clear_active_active, hst2f.1, Dir.bit]
      · simp [clear_active, hst2f.2.1]
      · simp [clear_active, hst2f.2.2]
  | send f b l fl =>
    simp only [Call.transfer, Option.some.injEq, Prod.mk.injEq] at hk
    obtain ⟨rfl, rfl⟩ := hk
    simp only [Call.has_payload] at hpay
    simp only [step, send_eq, hmt _ _ _ hpay] at h
    injection h with h
    exact hfin _ _ h.symm
  | read f b l =>
    simp only [Call.transfer, Option.some.injEq, Prod.mk.injEq] at hk
    obtain ⟨rfl, rfl⟩ := hk
    simp only [Call.has_payload] at hpay
    simp only [step, read_eq, hmt _ _ _ hpay] at h
    injection h with h
    exact hfin _ _ h.symm
  | recv f b l fl =>
    simp only [Call.transfer, Option.some.injEq, Prod.mk.injEq] at hk
    obtain ⟨rfl, rfl⟩ := hk
    simp only [Call.has_payload] at hpay
    simp only [step, recv_eq, hmt _ _ _ hpay] at h
    injection h with h
    exact hfin _ _ h.symm
  | recvfrom f b l fl a n =>
    simp only [Call.transfer, Option.some.injEq, Prod.mk.injEq] at hk
    obtain ⟨rfl, rfl⟩ := hk
    simp only [Call.has_payload] at hpay
    simp only [step, recvfrom_eq, hmt _ _ _ hpay] at h
    injection h with h
    exact hfin _ _ h.symm

/-- After a mocked call that was truncated to one byte, the next call of the
same direction on the descriptor would block. -/
theorem step_trunc_blocked {c : Ctx} {st : State} {k : Call} {d : Dir} {fd : Int} {r : Result}
    (hk : k.transfer = some (d, fd)) (hwl : c.wl = 0) (ht : trunc_cond c st d fd k)
    (h : step c st k = .ok r) : blocked r.st d fd := by
  obtain ⟨_, _, _, h4, h5, h6⟩ := step_trunc hk hwl ht h
  obtain ⟨hm, _, hpo, _, _⟩ := ht
  refine ⟨?_, ?_, ?_, ?_⟩
  · rw [h6]; exact get_mocking_type_nonneg _ _
  · rw [h6]; exact hm
  · rw [h5]; exact hpo
  · rw [h4, upd_same]; exact land_and_not_self _ _

/-- A call that is no `poll`, `close` or `socket` call on `fd` keeps `fd`
blocked. -/
theorem step_keeps_blocked {c : Ctx} {st : State} {k : Call} {d : Dir} {fd : Int} {r : Result}
    (hres : ¬ resets c fd k) (h : step c st k = .ok r) (hb : blocked st d fd) :
    blocked r.st d fd := by
  obtain ⟨h0, hm, hpo, hbit⟩ := hb
  have htr : ∀ (d1 : Dir) (fd1 : Int), k.transfer = some (d1, fd1) → blocked r.st d fd := by
    intro d1 fd1 hk
    obtain ⟨p1, _, _, _, p5, p6, _⟩ := step_transfer_post hk h
    refine ⟨?_, ?_, ?_, ?_⟩
    · rw [p5 h0]; exact h0
    · rw [p5 h0]; exact hm
    · rw [p1]; exact hpo
    · rcases p6 with p6 | ⟨bit, p6⟩
      · rw [p6]; exact hbit
      · rw [p6]
        by_cases hfd : fd = fd1
        · subst hfd
          rw [upd_same]
          exact land_and_not_of_land_eq_zero _ hbit
        · rw [upd_other _ _ hfd]
          exact hbit
  cases k with
  | socket dm t p =>
    simp only [resets] at hres
    have h := step_socket_ok h
    subst h
    rw [socket_st]
    have hne : fd ≠ c.libc.socket dm t p := fun e => hres e.symm
    split
    · refine ⟨?_, ?_, ?_, ?_⟩
      · simpa using h0
      · simpa using hm
      · simpa [upd_other _ _ hne] using hpo
      · simpa [upd_other _ _ hne] using hbit
    · exact ⟨by simpa using h0, by simpa using hm, by simpa using hpo, by simpa using hbit⟩
  | poll u t =>
    simp only [resets, not_exists, not_and] at hres
    simp only [step] at h
    injection h with h
    subst h
    obtain ⟨a1, a2⟩ := poll_other c st u t hres
    obtain ⟨_, _, a3⟩ := poll_static c st u t
    exact ⟨by rw [a3]; exact h0, by rw [a3]; exact hm, by rw [a2]; exact hpo,
      by rw [a1]; exact hbit⟩
  | close f =>
    simp only [resets] at hres
    have h := step_close_ok h
    subst h
    rw [close_st]
    have hne : fd ≠ f := fun e => hres e.symm
    split
    · exact ⟨h0, hm, hpo, hbit⟩
    · split
      · exact ⟨h0, hm, by simpa [upd_other _ _ hne] using hpo,
          by simpa [upd_other _ _ hne] using hbit⟩
      · exact ⟨h0, hm, hpo, hbit⟩
  | writev f iov => exact htr _ _ rfl
  | send f b l fl => exact htr _ _ rfl
  | read f b l => exact htr _ _ rfl
  | recv f b l fl => exact htr _ _ rfl
  | recvfrom f b l fl a n => exact htr _ _ rfl

theorem run_keeps_blocked {d : Dir} {fd : Int} (mid : List (Ctx × Call)) {st st2 : State}
    (hmid : ∀ x ∈ mid, ¬ resets x.1 fd x.2) (hrun : run st mid = .ok st2)
    (hb : blocked st d fd) : blocked st2 d fd := by
  induction mid generalizing st with
  | nil =>
    simp only [run] at hrun
    injection hrun with hrun
    subst hrun
    exact hb
  | cons x rest ih =>
    obtain ⟨c, k⟩ := x
    simp only [run] at hrun
    split at hrun
    · rename_i r hr
      exact ih (fun y hy => hmid y (List.mem_cons_of_mem _ hy)) hrun
        (step_keeps_blocked (hmid (c, k) (List.mem_cons_self _ _)) hr hb)
    · exact absurd hrun (by simp)

/-- A blocked descriptor within the guard answers the next non-exempt call of
the direction with the would-block failure and leaves the statics as they are.
-/
theorem step_of_blocked {c : Ctx} {st : State} {k : Call} {d : Dir} {fd : Int}
    (hk : k.transfer = some (d, fd)) (hwl : c.wl = 0) (hle : fd ≤ MAX_FD)
    (hb : blocked st d fd) : step c st k = .ok (would_block st) := by
  obtain ⟨h0, hm, hpo, hbit⟩ := hb
  have hg := get_mocking_type_of_nonneg c.env st h0
  have := step_block c st k d fd hk hwl ⟨by unfold mode_on; rw [hg]; exact hm, hle, hpo, hbit⟩
  rw [this, hg]

/-! ## The polled flag is set by `poll` only -/

theorem step_polled_clear {c : Ctx} {st : State} {k : Call} {fd : Int} {r : Result}
    (hp : ¬ polls fd k) (h : step c st k = .ok r) (h0 : st.polled_fds fd = 0) :
    r.st.polled_fds fd = 0 := by
  have htr : ∀ (d1 : Dir) (fd1 : Int), k.transfer = some (d1, fd1) → r.st.polled_fds fd = 0 := by
    intro d1 fd1 hk
    rw [(step_transfer_post hk h).1]
    exact h0
  cases k with
  | socket dm t p =>
    have h := step_socket_ok h
    subst h
    rw [socket_st]
    split
    · by_cases e : fd = c.libc.socket dm t p
      · simp [e]
      · simpa [upd_other _ _ e] using h0
    · simpa using h0
  | poll u t =>
    simp only [polls, not_exists, not_and] at hp
    simp only [step] at h
    injection h with h
    subst h
    rw [(poll_other c st u t hp).2]
    exact h0
  | close f =>
    have h := step_close_ok h
    subst h
    rw [close_st]
    split
    · exact h0
    · split
      · by_cases e : fd = f
        · simp [e]
        · simpa [upd_other _ _ e] using h0
      · exact h0
  | writev f iov => exact htr _ _ rfl
  | send f b l fl => exact htr _ _ rfl
  | read f b l => exact htr _ _ rfl
  | recv f b l fl => exact htr _ _ rfl
  | recvfrom f b l fl a n => exact htr _ _ rfl

theorem run_polled_clear {fd : Int} (mid : List (Ctx × Call)) {st st2 : State}
    (hmid : ∀ x ∈ mid, ¬ polls fd x.2) (hrun : run st mid = .ok st2)
    (h0 : st.polled_fds fd = 0) : st2.polled_fds fd = 0 := by
  induction mid generalizing st with
  | nil =>
    simp only [run] at hrun
    injection hrun with hrun
    subst hrun
    exact h0
  | cons x rest ih =>
    obtain ⟨c, k⟩ := x
    simp only [run] at hrun
    split at hrun
    · rename_i r hr
      exact ih (fun y hy => hmid y (List.mem_cons_of_mem _ hy)) hrun
        (step_polled_clear (hmid (c, k) (List.mem_cons_self _ _)) hr h0)
    · exact absurd hrun (by simp)

/-! ## Vectorized writes -/

theorem truncate_iov_first (pre : List iovec) (seg : iovec) (post : List iovec)
    (hpre : ∀ s ∈ pre, s.iov_base = 0 ∨ s.iov_len = 0) (hb : seg.iov_base ≠ 0)
    (hl : seg.iov_len ≠ 0) : truncate_iov (pre ++ seg :: post) = ⟨seg.iov_base, 1⟩ := by
  induction pre with
  | nil =>
    simp only [List.nil_append, truncate_iov]
    rw [if_neg (by simp [hb, hl])]
  | cons p ps ih =>
    simp only [List.cons_append, truncate_iov]
    rw [if_pos (hpre p (List.mem_cons_self _ _))]
    exact ih (fun s hs => hpre s (List.mem_cons_of_mem _ hs))

theorem truncate_iov_empty (iov : List iovec)
    (h : ∀ s ∈ iov, s.iov_base = 0 ∨ s.iov_len = 0) : truncate_iov iov = ⟨0, 0⟩ := by
  induction iov with
  | nil => rfl
  | cons p ps ih =>
    simp only [truncate_iov]
    rw [if_pos (h p (List.mem_cons_self _ _))]
    exact ih (fun s hs => h s (List.mem_cons_of_mem _ hs))

/-- The pattern block does not fault when the window table exists and the
allocation of a missing window succeeds. -/
theorem writev_match_ok (ok : Bool) (pat : List Nat) (ch : Nat) (st : State) (fd : Int)
    (hmb : st.matchbufs ≠ none) (hal : window st fd = none → ok = true) :
    ∃ st2, writev_match ok pat ch st fd = .ok st2 := by
  unfold writev_match
  split
  · rename_i h
    exact absurd h hmb
  · rename_i mb hmb1
    have hw : ∃ p len, window_feed ok st.matchbuf_len ch (mb fd) = .ok (p, len) := by
      unfold window_feed
      split
      · rename_i hnone
        have : ok = true := hal (by unfold window; rw [hmb1]; exact hnone)
        rw [if_pos this]
        exact ⟨_, _, rfl⟩
      · split
        · exact ⟨_, _, rfl⟩
        · exact ⟨_, _, rfl⟩
    obtain ⟨p, len, hw⟩ := hw
    rw [hw]
    dsimp only
    split
    · exact ⟨_, rfl⟩
    · exact ⟨_, rfl⟩

/-! ## Invariants of the statics -/

theorem init_matchbufs_of_pattern {st : State} (env : Env) (b : Bool) (hwf : st.wf)
    (hp : st.pattern ≠ none) : init_matchbufs env b st = st := by
  cases hpat : st.pattern with
  | none => exact absurd hpat hp
  | some pat =>
    have hmb := (hwf pat hpat).1
    unfold init_matchbufs
    split
    · rfl
    · rename_i h
      exact absurd h hmb

theorem free_matchbuf_ne_none {mb : Option (Int → Option (List Nat))} (fd : Int)
    (h : mb ≠ none) : free_matchbuf mb fd ≠ none := by
  unfold free_matchbuf
  split
  · exact absurd rfl h
  · split <;> simp

theorem init_matchbufs_inv {st : State} (env : Env) (b : Bool) (h : st.inv) :
    (init_matchbufs env b st).inv := by
  obtain ⟨hwf, hst⟩ := h
  by_cases hp : st.pattern = none
  · have hsnd : ∀ fd, st.snd_timeout_fds fd = 0 := by
      intro fd
      by_contra hne
      exact hst fd hne hp
    unfold init_matchbufs
    split
    · exact ⟨hwf, hst⟩
    · split
      · refine ⟨?_, ?_⟩
        · intro pat hpat; simp only at hpat; rw [hp] at hpat; exact absurd hpat (by simp)
        · intro fd hfd; exact absurd (hsnd fd) hfd
      · refine ⟨?_, ?_⟩
        · intro pat hpat; simp only at hpat; rw [hp] at hpat; exact absurd hpat (by simp)
        · intro fd hfd; exact absurd (hsnd fd) hfd
      · split
        · refine ⟨?_, ?_⟩
          · intro pat hpat
            simp only [Option.some.injEq] at hpat
            subst hpat
            simp
          · intro fd _; simp
        · exact ⟨hwf, hst⟩
  · rw [init_matchbufs_of_pattern env b hwf hp]
    exact ⟨hwf, hst⟩

/-- Every intercepted call that returns keeps the invariant of the statics. -/
theorem step_inv {c : Ctx} {st : State} {k : Call} {r : Result} (hinv : st.inv)
    (h : step c st k = .ok r) : r.st.inv := by
  have htr : ∀ (d1 : Dir) (fd1 : Int), k.transfer = some (d1, fd1) → r.st.inv := by
    intro d1 fd1 hk
    obtain ⟨hwf, hst⟩ := hinv
    obtain ⟨_, _, p3, p4, _, _, p7⟩ := step_transfer_post hk h
    rcases p7 with ⟨q1, q2⟩ | ⟨q1, _, q3, q4, q5⟩
    · refine ⟨?_, ?_⟩
      · intro pat hpat
        rw [p3] at hpat
        rw [q1, p4]
        exact hwf pat hpat
      · intro fd hfd
        rw [q2] at hfd
        rw [p3]
        exact hst fd hfd
    · refine ⟨?_, ?_⟩
      · intro pat hpat
        rw [p3] at hpat
        rw [p4]
        exact ⟨q3, (hwf pat hpat).2⟩
      · intro fd _
        rw [p3]
        exact q1
  cases k with
  | socket dm t p =>
    have h := step_socket_ok h
    subst h
    obtain ⟨hwf, hst⟩ := init_matchbufs_inv c.env c.malloc_ok hinv
    rw [socket_st]
    split
    · refine ⟨?_, ?_⟩
      · intro pat hpat
        obtain ⟨a1, a2⟩ := hwf pat hpat
        exact ⟨free_matchbuf_ne_none _ a1, a2⟩
      · intro fd hfd
        simp only at hfd ⊢
        by_cases e : fd = c.libc.socket dm t p
        · rw [e, upd_same] at hfd; exact absurd rfl hfd
        · rw [upd_other _ _ e] at hfd
          exact hst fd (by simpa using hfd)
    · exact ⟨hwf, hst⟩
  | poll u t =>
    simp only [step] at h
    injection h with h
    subst h
    obtain ⟨hwf, hst⟩ := init_matchbufs_inv c.env c.malloc_ok hinv
    rw [poll_st]
    split
    · obtain ⟨_, a2, a3, a4, a5, _⟩ :=
        poll_loop_static (set_revents u (c.libc.poll u t).1)
          (init_matchbufs c.env c.malloc_ok st) (c.libc.poll u t).2
      refine ⟨?_, ?_⟩
      · intro pat hpat
        rw [a3] at hpat
        rw [a4, a5]
        exact hwf pat hpat
      · intro fd hfd
        rw [a2] at hfd
        rw [a3]
        exact hst fd hfd
    · exact ⟨hwf, hst⟩
  | close f =>
    have h := step_close_ok h
    subst h
    obtain ⟨hwf, hst⟩ := hinv
    rw [close_st]
    split
    · exact ⟨hwf, hst⟩
    · split
      · refine ⟨?_, ?_⟩
        · intro pat hpat
          obtain ⟨a1, a2⟩ := hwf pat hpat
          exact ⟨free_matchbuf_ne_none _ a1, a2⟩
        · intro fd hfd
          simp only at hfd ⊢
          by_cases e : fd = f
          · rw [e, upd_same] at hfd; exact absurd rfl hfd
          · rw [upd_other _ _ e] at hfd
            exact hst fd hfd
      · exact ⟨hwf, hst⟩
  | writev f iov => exact htr _ _ rfl
  | send f b l fl => exact htr _ _ rfl
  | read f b l => exact htr _ _ rfl
  | recv f b l fl => exact htr _ _ rfl
  | recvfrom f b l fl a n => exact htr _ _ rfl

theorem init_inv : State.init.inv :=
  ⟨fun _ h => (nomatch h), fun _ h => absurd rfl h⟩

/-- Every reachable statics satisfies the invariant. -/
theorem reachable_inv {st : State} (h : Reachable st) : st.inv := by
  induction h with
  | init => exact init_inv
  | step c k _ hs ih => exact step_inv ih hs

theorem run_reachable {st st2 : State} (l : List (Ctx × Call)) (h : Reachable st)
    (hrun : run st l = .ok st2) : Reachable st2 := by
  induction l generalizing st with
  | nil =>
    simp only [run] at hrun
    injection hrun with hrun
    subst hrun
    exact h
  | cons x rest ih =>
    obtain ⟨c, k⟩ := x
    simp only [run] at hrun
    split at hrun
    · rename_i r hr
      exact ih (Reachable.step c k h hr) hrun
    · exact absurd hrun (by simp)

/-! ## What `poll` hands back -/

theorem and_not_of_land_eq_zero {x m : Int} (h : Int.land x m = 0) : and_not x m = x := by
  rw [land_eq_zero_iff] at h
  apply int_testBit_ext
  intro i
  have hi := h i
  rw [testBit_and_not]
  cases hx : Int.testBit x i <;> cases hm : Int.testBit m i <;> simp_all

/-- The entry handed back depends on the statics only through the exempt flags,
the stall flags and the pattern. -/
theorem poll_entry_fst_congr (p : pollfd) {st st1 : State} (r r1 : Int)
    (hw : st1.weird_fds = st.weird_fds) (hs : st1.snd_timeout_fds = st.snd_timeout_fds)
    (hp : st1.pattern = st.pattern) : (poll_entry p st1 r1).1 = (poll_entry p st r).1 := by
  unfold poll_entry
  dsimp only
  rw [hw, hs, hp]
  split
  · rfl
  · split
    · split <;> rfl
    · rfl

theorem poll_loop_fst (u : List pollfd) (st : State) (r : Int) :
    (poll_loop u st r).1 = u.map (returned_entry st) := by
  induction u generalizing st r with
  | nil => rfl
  | cons p ps ih =>
    simp only [poll_loop, List.map_cons]
    obtain ⟨b1, b2, b3, _⟩ := poll_entry_static p st r
    rw [ih]
    congr 1
    · exact poll_entry_fst_congr p 0 r rfl rfl rfl
    · apply List.map_congr_left
      intro q _
      exact poll_entry_fst_congr q 0 0 b1 b2 b3

/-- The array `poll` hands back: the real array passed entry by entry through
the loop when the real call reports events, and the real array otherwise. -/
theorem poll_ufds (c : Ctx) (st : State) (u : List pollfd) (t : Int) :
    (poll c st u t).ufds =
      if (c.libc.poll u t).2 > 0 then
        (set_revents u (c.libc.poll u t).1).map
          (returned_entry (init_matchbufs c.env c.malloc_ok st))
      else set_revents u (c.libc.poll u t).1 := by
  unfold poll
  simp only [forward]
  split
  · simp only [poll_loop_fst]
  · rfl

/-- The entry handed back, case by case: an entry above `MAX_FD` or of an exempt
descriptor is left as it is; with a pattern configured, an entry of a stalled
descriptor loses `POLLOUT`; every other entry is left as it is. -/
theorem returned_entry_eq (st : State) (p : pollfd) :
    returned_entry st p =
      if p.fd > MAX_FD ∨ st.weird_fds p.fd ≠ 0 then p
      else if st.pattern.isSome ∧ st.snd_timeout_fds p.fd ≠ 0 then
        { p with revents := and_not p.revents POLLOUT }
      else p := by
  unfold returned_entry poll_entry
  dsimp only
  split
  · rfl
  · by_cases hs : st.pattern.isSome ∧ st.snd_timeout_fds p.fd ≠ 0
    · rw [if_pos hs]
      by_cases hb : Int.land p.revents POLLOUT ≠ 0
      · rw [if_pos ⟨hs.1, hb, hs.2⟩]
        split <;> rfl
      · have hb0 : Int.land p.revents POLLOUT = 0 := not_not.1 hb
        rw [if_neg (fun h => hb h.2.1), and_not_of_land_eq_zero hb0]
    · rw [if_neg hs, if_neg (fun h => hs ⟨h.1, h.2.2⟩)]

theorem stalled_state_reachable : Reachable stalled_state :=
  run_reachable stall_calls Reachable.init rfl

/-! ## What `poll` records -/

theorem poll_loop_append (a b : List pollfd) (st : State) (r : Int) :
    poll_loop (a ++ b) st r =
      ((poll_loop a st r).1 ++ (poll_loop b (poll_loop a st r).2.1 (poll_loop a st r).2.2).1,
        (poll_loop b (poll_loop a st r).2.1 (poll_loop a st r).2.2).2.1,
        (poll_loop b (poll_loop a st r).2.1 (poll_loop a st r).2.2).2.2) := by
  induction a generalizing st r with
  | nil => simp [poll_loop]
  | cons p ps ih =>
    show poll_loop (p :: (ps ++ b)) st r = _
    simp only [poll_loop]
    rw [ih]
    rfl

theorem land_zero_left (m : Int) : Int.land 0 m = 0 := by
  rw [land_eq_zero_iff]
  intro i
  rw [int_testBit_zero]
  rfl

/-- One iteration of the loop on an entry of a descriptor that is within the
guard and not exempt: either the entry handed back was emptied by suppression
(its `revents` is 0 although the real `revents` held `POLLOUT`) and the tables are
as before, or the `revents` handed back is recorded and the polled flag set. -/
theorem poll_entry_records (p : pollfd) (st : State) (r : Int) (hle : p.fd ≤ MAX_FD)
    (hw : st.weird_fds p.fd = 0) :
    ((poll_entry p st r).1.revents = 0 ∧ p.revents ≠ 0
        ∧ (poll_entry p st r).2.1 = st)
      ∨ ((poll_entry p st r).2.1.active_fds p.fd = (poll_entry p st r).1.revents
          ∧ (poll_entry p st r).2.1.polled_fds p.fd = 1) := by
  unfold poll_entry
  dsimp only
  rw [if_neg (by simp [hw, not_lt.2 hle])]
  split
  · rename_i hs
    split
    · rename_i hz
      refine Or.inl ⟨hz, ?_, rfl⟩
      intro h0
      rw [h0] at hs
      exact hs.2.1 (land_zero_left _)
    · exact Or.inr ⟨by simp [record_poll], by simp [record_poll]⟩
  · exact Or.inr ⟨by simp [record_poll], by simp [record_poll]⟩

/-! ## Mocking disabled -/

theorem get_mocking_type_disabled {env : Env} {st : State} (he : mocking_disabled env)
    (hm : st.mocking_type = -1 ∨ st.mocking_type = 0) :
    (get_mocking_type env st).1 = 0 ∧ (get_mocking_type env st).2.mocking_type = 0 := by
  rcases hm with hm | hm
  · unfold get_mocking_type
    rw [if_neg (by rw [hm]; decide)]
    rcases he with he | he <;> rw [he] <;> exact ⟨rfl, rfl⟩
  · rw [get_mocking_type_of_nonneg env st (by rw [hm])]
    exact ⟨hm, hm⟩

theorem transparent_forward (libc : Libc) (st : State) (k : Call) :
    transparent libc k (forward libc st k) :=
  ⟨forward_calls _ _ _, by rw [forward_st], by rw [forward_st], forward_errno _ _ _,
    forward_slept _ _ _⟩

/-- With no descriptor stalled, one iteration of the loop hands the entry back
as it is and leaves the count as it is. -/
theorem poll_entry_no_stall (p : pollfd) (st : State) (r : Int)
    (h : ∀ fd, st.snd_timeout_fds fd = 0) :
    (poll_entry p st r).1 = p ∧ (poll_entry p st r).2.2 = r := by
  unfold poll_entry
  dsimp only
  split
  · exact ⟨rfl, rfl⟩
  · rw [if_neg (fun hs => hs.2.2 (h _))]
    exact ⟨rfl, rfl⟩

theorem poll_loop_no_stall (u : List pollfd) (st : State) (r : Int)
    (h : ∀ fd, st.snd_timeout_fds fd = 0) :
    (poll_loop u st r).1 = u ∧ (poll_loop u st r).2.2 = r := by
  induction u generalizing st r with
  | nil => exact ⟨rfl, rfl⟩
  | cons p ps ih =>
    simp only [poll_loop]
    obtain ⟨e1, e2⟩ := poll_entry_no_stall p st r h
    have h1 : ∀ fd, (poll_entry p st r).2.1.snd_timeout_fds fd = 0 := by
      intro fd
      rw [(poll_entry_static p st r).2.1]
      exact h fd
    obtain ⟨i1, i2⟩ := ih (poll_entry p st r).2.1 (poll_entry p st r).2.2 h1
    exact ⟨by rw [e1, i1], by rw [i2, e2]⟩

/-- With mocking off and the mocking-mode setting unset or empty, a call either
ends in the fault of `wild_free` (a `socket` or `close` call on a negative
handle with the window table allocated), or returns, is transparent and leaves
mocking off. -/
theorem step_off (c : Ctx) (st : State) (k : Call) (hoff : st.off)
    (he : mocking_disabled c.env) :
    step c st k = .error .bad_free
      ∨ ∃ r, step c st k = .ok r ∧ transparent c.libc k r ∧ r.st.off := by
  obtain ⟨hm, hs⟩ := hoff
  obtain ⟨g1, g2⟩ := get_mocking_type_disabled he hm
  have hgoff : (get_mocking_type c.env st).2.off :=
    ⟨Or.inr g2, fun fd => by simpa using hs fd⟩
  have hno : ∀ (flag : Int) (P : Prop),
      ¬ (Int.land (get_mocking_type c.env st).1 flag ≠ 0 ∧ P) := by
    intro flag P h
    rw [g1] at h
    exact h.1 (land_zero_left _)
  have hmt : ∀ (d : Dir) (fd : Int) (len : Nat) (k1 k2 : Call),
      ∃ st1, mocked_transfer c st d fd len k1 k2 = forward c.libc st1 k2 ∧ st1.off := by
    intro d fd len k1 k2
    unfold mocked_transfer
    split
    · exact ⟨st, rfl, hm, hs⟩
    · rw [if_neg (hno _ _), if_neg (hno _ _)]
      exact ⟨_, rfl, hgoff⟩
  have hfin : ∀ (r : Result), (∃ st1, r = forward c.libc st1 k ∧ st1.off) →
      transparent c.libc k r ∧ r.st.off := by
    rintro r ⟨st1, rfl, h1⟩
    exact ⟨transparent_forward _ _ _, by rw [forward_st]; exact h1⟩
  cases k with
  | socket dm t p =>
    by_cases hw : wild_free (init_matchbufs c.env c.malloc_ok st).matchbufs
        (c.libc.socket dm t p) = true
    · left
      simp only [step, if_pos hw]
    · right
      refine ⟨socket c st dm t p, by simp only [step, if_neg hw], ?_, ?_⟩
      · unfold socket
        dsimp only
        split
        · exact ⟨forward_calls _ _ _, rfl, rfl, rfl, rfl⟩
        · exact transparent_forward _ _ _
      · rw [socket_st]
        split
        · refine ⟨by simpa using hm, ?_⟩
          intro fd
          simp only
          by_cases e : fd = c.libc.socket dm t p
          · rw [e, upd_same]
          · rw [upd_other _ _ e]; exact hs fd
        · exact ⟨by simpa using hm, fun fd => by simpa using hs fd⟩
  | poll u t =>
    right
    have hs0 : ∀ fd, (init_matchbufs c.env c.malloc_ok st).snd_timeout_fds fd = 0 :=
      fun fd => by simpa using hs fd
    obtain ⟨l1, l2⟩ := poll_loop_no_stall (set_revents u (c.libc.poll u t).1)
      (init_matchbufs c.env c.malloc_ok st) (c.libc.poll u t).2 hs0
    refine ⟨_, rfl, ?_, ?_⟩
    · unfold poll
      simp only [forward]
      split
      · rename_i hpos
        refine ⟨rfl, l2, l1, rfl, ?_⟩
        simp only
        exact if_neg (by rw [l2]; exact ne_of_gt hpos)
      · exact ⟨rfl, rfl, rfl, rfl, rfl⟩
    · obtain ⟨_, a2, a3⟩ := poll_static c st u t
      exact ⟨by rw [a3]; exact hm, fun fd => by rw [a2]; exact hs fd⟩
  | close f =>
    by_cases hw : c.wl = 0 ∧ wild_free st.matchbufs f = true
    · left
      simp only [step, if_pos hw]
    · right
      refine ⟨close c st f, by simp only [step, if_neg hw], ?_, ?_⟩
      · unfold close
        split <;> exact transparent_forward _ _ _
      · rw [close_st]
        split
        · exact ⟨hm, hs⟩
        · split
          · refine ⟨hm, ?_⟩
            intro fd
            simp only
            by_cases e : fd = f
            · rw [e, upd_same]
            · rw [upd_other _ _ e]; exact hs fd
          · exact ⟨hm, hs⟩
  | writev f iov =>
    have : ∃ st1, writev c st f iov = .ok (forward c.libc st1 (.writev f iov)) ∧ st1.off := by
      rw [writev_eq]
      split
      · exact ⟨st, rfl, hm, hs⟩
      · rw [if_neg (hno _ _), if_neg (hno _ _)]
        exact ⟨_, rfl, hgoff⟩
    obtain ⟨st1, h1, h2⟩ := this
    exact Or.inr ⟨_, h1, hfin _ ⟨st1, rfl, h2⟩⟩
  | send f b l fl =>
    obtain ⟨st1, h1, h2⟩ := hmt .write f l (.send f b 1 fl) (.send f b l fl)
    exact Or.inr ⟨_, by simp only [step, send_eq], hfin _ ⟨st1, h1, h2⟩⟩
  | read f b l =>
    obtain ⟨st1, h1, h2⟩ := hmt .read f l (.read f b 1) (.read f b l)
    exact Or.inr ⟨_, by simp only [step, read_eq], hfin _ ⟨st1, h1, h2⟩⟩
  | recv f b l fl =>
    obtain ⟨st1, h1, h2⟩ := hmt .read f l (.recv f b 1 fl) (.recv f b l fl)
    exact Or.inr ⟨_, by simp only [step, recv_eq], hfin _ ⟨st1, h1, h2⟩⟩
  | recvfrom f b l fl a n =>
    obtain ⟨st1, h1, h2⟩ := hmt .read f l (.recvfrom f b 1 fl a n) (.recvfrom f b l fl a n)
    exact Or.inr ⟨_, by simp only [step, recvfrom_eq], hfin _ ⟨st1, h1, h2⟩⟩

/-- With the mocking-mode setting unset or empty at every call, a run from
statics with mocking off either ends in the fault of `wild_free` or leaves
mocking off. -/
theorem run_off (pre : List (Ctx × Call)) (st : State) (hoff : st.off)
    (hpre : ∀ x ∈ pre, mocking_disabled x.1.env) :
    run st pre = .error .bad_free ∨ ∃ st2, run st pre = .ok st2 ∧ st2.off := by
  induction pre generalizing st with
  | nil => exact Or.inr ⟨st, rfl, hoff⟩
  | cons x rest ih =>
    obtain ⟨c, k⟩ := x
    rcases step_off c st k hoff (hpre (c, k) (List.mem_cons_self _ _)) with h1 | ⟨r, h1, _, h3⟩
    · left
      simp only [run, h1]
    · rcases ih r.st h3 (fun y hy => hpre y (List.mem_cons_of_mem _ hy)) with h4 | ⟨st2, h4, h5⟩
      · left
        simp only [run, h1]
        exact h4
      · right
        refine ⟨st2, ?_, h5⟩
        simp only [run, h1]
        exact h4

/-- Mocking disabled, as far as the calls return.  With the mocking-mode setting
unset or empty at every call, a sequence `pre` of intercepted calls from the
statics at process start followed by a call `k` either ends in the fault of
`wild_free`, or every call returns, `k` makes exactly the caller's call to the
real implementation, returns its value and (for `poll`) its array, assigns no
`errno` and emulates no timeout, and no descriptor is write-stalled before or
after it. -/
theorem disabled_transparent (pre : List (Ctx × Call)) (c : Ctx) (k : Call)
    (hpre : ∀ x ∈ pre, mocking_disabled x.1.env) (hc : mocking_disabled c.env) :
    run_then State.init pre c k = .error .bad_free
      ∨ ∃ st r, run State.init pre = .ok st ∧ step c st k = .ok r
          ∧ r.calls = [k] ∧ r.retval = (forward c.libc r.st k).retval
          ∧ r.ufds = (forward c.libc r.st k).ufds ∧ r.errno = none ∧ r.slept = none
          ∧ (∀ fd, st.snd_timeout_fds fd = 0) ∧ (∀ fd, r.st.snd_timeout_fds fd = 0) := by
  rcases run_off pre State.init ⟨Or.inl rfl, fun _ => rfl⟩ hpre with h1 | ⟨st, h1, h2⟩
  · left
    simp only [run_then, h1]
  · rcases step_off c st k h2 hc with h3 | ⟨r, h3, ⟨t1, t2, t3, t4, t5⟩, h5⟩
    · left
      simp only [run_then, h1]
      exact h3
    · exact Or.inr ⟨st, r, h1, h3, t1, t2, t3, t4, t5, h2.2, h5.2⟩

/-! ## The match window -/

theorem strlen_append_zero (w rest : List Nat) (hw : ∀ b ∈ w, b ≠ 0) :
    strlen (w ++ 0 :: rest) = w.length := by
  induction w with
  | nil => simp [strlen]
  | cons a w ih =>
    show strlen (a :: (w ++ 0 :: rest)) = (a :: w).length
    rw [strlen, if_neg (hw a (List.mem_cons_self _ _)),
      ih (fun b hb => hw b (List.mem_cons_of_mem _ hb)), List.length_cons]

theorem strncmp_eq_zero_iff (w pat rest : List Nat) (hw : ∀ b ∈ w, b ≠ 0)
    (hlen : w.length = pat.length) :
    strncmp (w ++ rest) pat w.length = 0 ↔ w = pat := by
  induction w generalizing pat with
  | nil =>
    cases pat with
    | nil => simp [strncmp]
    | cons c pat => simp at hlen
  | cons a w ih =>
    cases pat with
    | nil => simp at hlen
    | cons c pat =>
      simp only [List.length_cons, Nat.add_right_cancel_iff] at hlen
      simp only [List.cons_append, List.length_cons, strncmp, List.headD_cons, List.tail_cons]
      have ha := hw a (List.mem_cons_self _ _)
      by_cases hac : a = c
      · subst hac
        simp only [ne_eq, not_true_eq_false, if_false, if_neg ha]
        rw [ih pat (fun b hb => hw b (List.mem_cons_of_mem _ hb)) hlen]
        simp
      · simp only [ne_eq, hac, not_false_eq_true, if_true]
        constructor
        · intro h
          exfalso
          apply hac
          have : (a : Int) = (c : Int) := by linarith
          exact_mod_cast this
        · intro h
          injection h with h1 _
          exact absurd h1 hac

theorem last_bytes_length (L : Nat) (bs : List Nat) :
    (last_bytes L bs).length = min bs.length L := by
  unfold last_bytes
  rw [List.length_drop]
  omega

theorem last_bytes_of_le (L : Nat) (bs : List Nat) (h : bs.length ≤ L) :
    last_bytes L bs = bs := by
  unfold last_bytes
  rw [Nat.sub_eq_zero_of_le h, List.drop_zero]

theorem last_bytes_snoc_of_lt (L : Nat) (bs : List Nat) (b : Nat) (h : bs.length < L) :
    last_bytes L (bs ++ [b]) = last_bytes L bs ++ [b] := by
  rw [last_bytes_of_le L bs (le_of_lt h), last_bytes_of_le]
  simp
  omega

theorem last_bytes_snoc_of_ge (L : Nat) (bs : List Nat) (b : Nat) (hL : 1 ≤ L)
    (h : L ≤ bs.length) :
    last_bytes L (bs ++ [b]) = (last_bytes L bs).drop 1 ++ [b] := by
  unfold last_bytes
  rw [List.drop_drop, List.length_append, List.length_singleton]
  have e : bs.length - L + 1 = bs.length + 1 - L := by omega
  rw [e, List.drop_append_of_le_length (by omega)]

theorem window_of_snoc_nil (L : Nat) (b : Nat) (hL : 1 ≤ L) :
    window_of L [b] = (List.replicate (L + 1) 0).set 0 b := by
  unfold window_of
  rw [last_bytes_of_le L [b] (by simpa using hL)]
  simp [List.replicate_succ]

theorem window_feed_fresh (L : Nat) (b : Nat) (hL : 1 ≤ L) :
    window_feed true (L + 1) b none = .ok (window_of L [b], 1) := by
  simp [window_feed, window_of_snoc_nil L b hL]

theorem window_feed_grow (ok : Bool) (L : Nat) (bs : List Nat) (b : Nat)
    (hbs : ∀ x ∈ bs, x ≠ 0) (hlt : bs.length < L) :
    window_feed ok (L + 1) b (some (window_of L bs))
      = .ok (window_of L (bs ++ [b]), bs.length + 1) := by
  have hw : window_of L bs = bs ++ 0 :: List.replicate (L - bs.length) 0 := by
    unfold window_of
    rw [last_bytes_of_le L bs (le_of_lt hlt)]
    have : L + 1 - bs.length = (L - bs.length) + 1 := by omega
    rw [this, List.replicate_succ]
  have hs : strlen (window_of L bs) = bs.length := by
    rw [hw]; exact strlen_append_zero bs _ hbs
  unfold window_feed
  simp only [hs, Nat.add_sub_cancel, if_pos hlt]
  congr 2
  rw [hw]
  unfold window_of
  rw [last_bytes_of_le L (bs ++ [b]) (by simp; omega)]
  simp only [List.length_append, List.length_singleton]
  rw [List.set_append_right _ _ (le_refl _)]
  simp only [Nat.sub_self, List.set_cons_zero, List.append_assoc, List.singleton_append]
  congr 2
  congr 1
  omega

theorem window_feed_shift (ok : Bool) (L : Nat) (bs : List Nat) (b : Nat)
    (hbs : ∀ x ∈ bs, x ≠ 0) (hL : 1 ≤ L) (hge : L ≤ bs.length) :
    window_feed ok (L + 1) b (some (window_of L bs))
      = .ok (window_of L (bs ++ [b]), L) := by
  have hlen : (last_bytes L bs).length = L := by rw [last_bytes_length]; omega
  have hlen1 : (last_bytes L (bs ++ [b])).length = L := by
    rw [last_bytes_length]; simp; omega
  have hnz : ∀ x ∈ last_bytes L bs, x ≠ 0 := fun x hx => hbs x (List.mem_of_mem_drop hx)
  have hw : window_of L bs = last_bytes L bs ++ [0] := by
    unfold window_of
    rw [hlen]
    simp
  have hs : strlen (window_of L bs) = L := by
    rw [hw, strlen_append_zero _ _ hnz, hlen]
  unfold window_feed
  simp only [hs, Nat.add_sub_cancel, lt_irrefl, if_false]
  congr 2
  have hw1 : window_of L (bs ++ [b]) = (last_bytes L bs).drop 1 ++ [b] ++ [0] := by
    unfold window_of
    rw [hlen1, last_bytes_snoc_of_ge L bs b hL hge]
    simp
  rw [hw1, hw]
  unfold memmove_down
  have e2 : L + 1 - 2 = L - 1 := by omega
  rw [e2]
  have hd : (last_bytes L bs ++ [0]).drop 1 = (last_bytes L bs).drop 1 ++ [0] := by
    rw [List.drop_append_of_le_length (by omega)]
  have ht : ((last_bytes L bs).drop 1 ++ [0]).take (L - 1) = (last_bytes L bs).drop 1 := by
    rw [List.take_append_of_le_length (by simp [hlen]), List.take_of_length_le (by simp [hlen])]
  rw [hd, ht]
  have hl2 : ((last_bytes L bs).drop 1).length = L - 1 := by simp [hlen]
  rw [List.set_append_right _ _ (by omega), hl2, Nat.sub_self]
  have hdd : (last_bytes L bs ++ [0]).drop (L - 1) = (last_bytes L bs).drop (L - 1) ++ [0] := by
    rw [List.drop_append_of_le_length (by omega)]
  rw [hdd]
  have hone : ∃ z, (last_bytes L bs).drop (L - 1) = [z] := by
    have : ((last_bytes L bs).drop (L - 1)).length = 1 := by simp [hlen]; omega
    match h : (last_bytes L bs).drop (L - 1), this with
    | [z], _ => exact ⟨z, rfl⟩
  obtain ⟨z, hz⟩ := hone
  rw [hz]
  simp

/-- The window and the local `len` after a non-zero byte is stored into the
window that holds the non-zero bytes `bs`. -/
theorem window_feed_spec (ok : Bool) (L : Nat) (bs : List Nat) (b : Nat) (hL : 1 ≤ L)
    (hbs : ∀ x ∈ bs, x ≠ 0) {p : List Nat} {len : Nat}
    (h : window_feed ok (L + 1) b (if bs = [] then none else some (window_of L bs))
      = .ok (p, len)) :
    p = window_of L (bs ++ [b]) ∧ len = min (bs.length + 1) L := by
  by_cases hnil : bs = []
  · subst hnil
    rw [if_pos rfl] at h
    cases ok with
    | false => simp [window_feed] at h
    | true =>
      rw [window_feed_fresh L b hL] at h
      injection h with h
      injection h with h1 h2
      subst h1 h2
      exact ⟨rfl, by simp; omega⟩
  · rw [if_neg hnil] at h
    by_cases hlt : bs.length < L
    · rw [window_feed_grow ok L bs b hbs hlt] at h
      injection h with h
      injection h with h1 h2
      subst h1 h2
      exact ⟨rfl, by omega⟩
    · rw [window_feed_shift ok L bs b hbs hL (not_lt.1 hlt)] at h
      injection h with h
      injection h with h1 h2
      subst h1 h2
      exact ⟨rfl, by omega⟩

/-- The test of line 404 on the window of the non-zero bytes `bs ++ [b]`
succeeds exactly when `L` bytes have been fed and the last `L` of them are the
pattern. -/
theorem match_iff (L : Nat) (bs : List Nat) (b : Nat) (pat : List Nat) (hpl : pat.length = L)
    (hnz : ∀ x ∈ bs ++ [b], x ≠ 0) :
    (min (bs.length + 1) L = L + 1 - 1
        ∧ strncmp (window_of L (bs ++ [b])) pat (min (bs.length + 1) L) = 0)
      ↔ (L ≤ bs.length + 1 ∧ last_bytes L (bs ++ [b]) = pat) := by
  have hiff : ∀ hle : L ≤ bs.length + 1,
      (strncmp (window_of L (bs ++ [b])) pat L = 0 ↔ last_bytes L (bs ++ [b]) = pat) := by
    intro hle
    have hlen : (last_bytes L (bs ++ [b])).length = L := by
      rw [last_bytes_length]; simp; omega
    have h := strncmp_eq_zero_iff (last_bytes L (bs ++ [b]))
      pat (List.replicate (L + 1 - (last_bytes L (bs ++ [b])).length) 0)
      (fun x hx => hnz x (List.mem_of_mem_drop hx)) (by rw [hlen, hpl])
    unfold window_of
    rw [hlen] at h ⊢
    exact h
  constructor
  · rintro ⟨h1, h2⟩
    have hle : L ≤ bs.length + 1 := by omega
    rw [min_eq_right hle] at h2
    exact ⟨hle, (hiff hle).1 h2⟩
  · rintro ⟨hle, h2⟩
    rw [min_eq_right hle]
    exact ⟨by omega, (hiff hle).2 h2⟩

/-- The pattern block of `writev`, when it does not fault: the window table
exists, `window_feed` gives the new window of `fd` and the local `len`, and the
stall flag of `fd` is set when the test of line 404 succeeds and kept otherwise.
-/
theorem writev_match_inv {ok : Bool} {pat : List Nat} {ch : Nat} {st st3 : State} {fd : Int}
    (h : writev_match ok pat ch st fd = .ok st3) :
    ∃ p len, window_feed ok st.matchbuf_len ch (window st fd) = .ok (p, len)
      ∧ window st3 fd = some p ∧ st3.pattern = st.pattern
      ∧ st3.matchbuf_len = st.matchbuf_len
      ∧ (st3.snd_timeout_fds fd ≠ 0 ↔
          (len = st.matchbuf_len - 1 ∧ strncmp p pat len = 0) ∨ st.snd_timeout_fds fd ≠ 0) := by
  unfold writev_match at h
  split at h
  · exact absurd h (by simp)
  · rename_i mb hmb
    split at h
    · exact absurd h (by simp)
    · rename_i p len hw
      refine ⟨p, len, ?_, ?_⟩
      · unfold window
        rw [hmb]
        exact hw
      · split at h
        · rename_i hc
          injection h with h
          subst h
          refine ⟨by simp [window], rfl, rfl, ?_⟩
          simp only [upd_same]
          constructor
          · intro _; exact Or.inl hc
          · intro _; decide
        · rename_i hc
          injection h with h
          subst h
          refine ⟨by simp [window], rfl, rfl, ?_⟩
          simp only
          constructor
          · intro h1; exact Or.inr h1
          · rintro (h1 | h1)
            · exact absurd h1 hc
            · exact h1

/-- The statics a mocked truncated `writev` leaves, when a pattern is
configured: those of the pattern block with `POLLOUT` cleared in
`active_fds[fd]`. -/
theorem writev_trunc_st {c : Ctx} {st : State} {fd : Int} {iov : List iovec} {r : Result}
    {pat : List Nat} (hwl : c.wl = 0) (ht : trunc_cond c st .write fd (.writev fd iov))
    (hpat : st.pattern = some pat) (h : writev c st fd iov = .ok r) :
    ∃ st3, writev_match c.malloc_ok pat (c.mem (truncate_iov iov).iov_base)
        (get_mocking_type c.env st).2 fd = .ok st3
      ∧ r.st = clear_active st3 fd POLLOUT := by
  obtain ⟨hm, hle, hpo, hbit, hpay⟩ := ht
  have hnb : ¬ (Int.land (get_mocking_type c.env st).1 MOCKING_WRITES ≠ 0 ∧ fd ≤ MAX_FD
      ∧ st.polled_fds fd ≠ 0 ∧ Int.land (st.active_fds fd) POLLOUT = 0) :=
    fun h4 => hbit h4.2.2.2
  have hpos : Int.land (get_mocking_type c.env st).1 MOCKING_WRITES ≠ 0 ∧ fd ≤ MAX_FD
      ∧ st.polled_fds fd ≠ 0 ∧ (truncate_iov iov).iov_base ≠ 0 := ⟨hm, hle, hpo, hpay⟩
  rw [writev_eq, if_neg (by simp [hwl]), if_neg hnb, if_pos hpos, hpat] at h
  dsimp only at h
  split at h
  · exact absurd h (by simp)
  · rename_i st3 h3
    injection h with h
    subst h
    exact ⟨st3, h3, rfl⟩

theorem take_snoc_iff (L : Nat) (bs : List Nat) (b : Nat) (pat : List Nat) :
    (∃ k, L ≤ k ∧ k ≤ (bs ++ [b]).length ∧ ((bs ++ [b]).take k).drop (k - L) = pat)
      ↔ (L ≤ bs.length + 1 ∧ last_bytes L (bs ++ [b]) = pat)
        ∨ ∃ k, L ≤ k ∧ k ≤ bs.length ∧ (bs.take k).drop (k - L) = pat := by
  constructor
  · rintro ⟨k, h1, h2, h3⟩
    rw [List.length_append, List.length_singleton] at h2
    by_cases hk : k ≤ bs.length
    · right
      rw [List.take_append_of_le_length hk] at h3
      exact ⟨k, h1, hk, h3⟩
    · left
      have hk1 : k = bs.length + 1 := by omega
      subst hk1
      refine ⟨h1, ?_⟩
      rw [List.take_of_length_le (by simp)] at h3
      unfold last_bytes
      rw [List.length_append, List.length_singleton]
      exact h3
  · rintro (⟨h1, h2⟩ | ⟨k, h1, h2, h3⟩)
    · refine ⟨bs.length + 1, h1, by simp, ?_⟩
      rw [List.take_of_length_le (by simp)]
      unfold last_bytes at h2
      rw [List.length_append, List.length_singleton] at h2
      exact h2
    · refine ⟨k, h1, by simp; omega, ?_⟩
      rw [List.take_append_of_le_length h2]
      exact h3

/-- One mocked truncated `writev` that feeds a non-zero byte takes the statics
of the bytes `bs` to those of the bytes `bs ++ [b]`. -/
theorem fed_step {pat : List Nat} {fd : Int} {bs : List Nat} {st1 st2 : State} {c : Ctx}
    {iov : List iovec} {r : Result} (hL : 1 ≤ pat.length) (hfed : fed pat fd bs st1)
    (hsame : same_window fd st1 st2) (hwl : c.wl = 0)
    (ht : trunc_cond c st2 .write fd (.writev fd iov)) (h : writev c st2 fd iov = .ok r)
    (hnz : ∀ x ∈ bs ++ [c.mem (truncate_iov iov).iov_base], x ≠ 0) :
    fed pat fd (bs ++ [c.mem (truncate_iov iov).iov_base]) r.st := by
  obtain ⟨f1, f2, f3, f4⟩ := hfed
  obtain ⟨s1, s2, s3, s4⟩ := hsame
  have hpat2 : st2.pattern = some pat := by rw [s1]; exact f1
  obtain ⟨st3, h3, hr⟩ := writev_trunc_st hwl ht hpat2 h
  obtain ⟨p, len, w1, w2, w3, w4, w5⟩ := writev_match_inv h3
  have hg_len : (get_mocking_type c.env st2).2.matchbuf_len = pat.length + 1 := by
    rw [gmt_matchbuf_len, s2]; exact f2
  have hg_win : window (get_mocking_type c.env st2).2 fd
      = (if bs = [] then none else some (window_of pat.length bs)) := by
    have : window (get_mocking_type c.env st2).2 fd = window st2 fd := by
      unfold window; rw [gmt_matchbufs]
    rw [this, s4]; exact f3
  rw [hg_len, hg_win] at w1
  obtain ⟨hp, hlen⟩ := window_feed_spec c.malloc_ok pat.length bs _ hL
    (fun x hx => hnz x (List.mem_append_left _ hx)) w1
  have hwin : window r.st fd = window st3 fd := by
    rw [hr]; unfold window; rw [(clear_active_fields st3 fd POLLOUT).2.2.2.1]
  refine ⟨?_, ?_, ?_, ?_⟩
  · rw [hr, (clear_active_fields st3 fd POLLOUT).2.2.2.2.2.1, w3, gmt_pattern]; exact hpat2
  · rw [hr, (clear_active_fields st3 fd POLLOUT).2.2.2.2.1, w4]; exact hg_len
  · rw [hwin, w2, if_neg (by simp), hp]
  · rw [hr, (clear_active_fields st3 fd POLLOUT).2.2.1, w5, hg_len, hp, hlen,
      match_iff pat.length bs _ pat rfl hnz, take_snoc_iff, gmt_snd_timeout, s3, f4]

/-- The statics after the non-zero bytes `bs` have been fed to a fresh
descriptor. -/
theorem feed_run_fed {pat : List Nat} {fd : Int} {bs : List Nat} {st0 st : State}
    (hL : 1 ≤ pat.length) (hrun : FeedRun fd st0 bs st) (h0 : fed pat fd [] st0)
    (hnz : ∀ x ∈ bs, x ≠ 0) : fed pat fd bs st := by
  induction hrun with
  | start => exact h0
  | feed c iov r _ hsame hwl ht hw ih =>
    exact fed_step hL (ih (fun x hx => hnz x (List.mem_append_left _ hx))) hsame hwl ht hw hnz

/-- A descriptor a `socket` call has just returned is fresh: it has no window
and its stall flag is clear. -/
theorem socket_fresh (c : Ctx) (st : State) (dm t p : Int)
    (hle : c.libc.socket dm t p ≤ MAX_FD) :
    window (socket c st dm t p).st (c.libc.socket dm t p) = none
      ∧ (socket c st dm t p).st.snd_timeout_fds (c.libc.socket dm t p) = 0 := by
  rw [socket_st, if_pos hle]
  refine ⟨?_, by simp⟩
  unfold window free_matchbuf
  simp only
  split
  · rfl
  · rename_i mb hmb
    split at hmb
    · exact absurd hmb (by simp)
    · split at hmb
      · rename_i hnone
        injection hmb with hmb
        rw [← hmb]
        exact hnone
      · injection hmb with hmb
        rw [← hmb, upd_same]

theorem polled_state_reachable : Reachable polled_state :=
  Reachable.step ctx_pat (.poll [⟨3, 5, 0⟩] 0)
    (Reachable.step ctx_pat (.socket 2 1 0) Reachable.init rfl) rfl

/-! ## The decision of a transfer call -/

/-- What a transfer call that returns does, for every caller, descriptor and
statics: a non-exempt call under the guard `block_cond` (which bounds `fd` from
above only) is answered with the would-block failure and makes no call to the
real implementation; every other call makes exactly one call to the real
implementation, with the caller's request or with the request truncated to
one byte. -/
theorem step_transfer_calls {c : Ctx} {st : State} {k : Call} {d : Dir} {fd : Int} {r : Result}
    (hk : k.transfer = some (d, fd)) (h : step c st k = .ok r) :
    (c.wl = 0 ∧ block_cond c st d fd ∧ r = would_block (get_mocking_type c.env st).2)
      ∨ (¬ (c.wl = 0 ∧ block_cond c st d fd) ∧ (r.calls = [k] ∨ r.calls = [k.truncated])) := by
  by_cases hwl : c.wl = 0
  · by_cases hb : block_cond c st d fd
    · left
      have h1 := step_block c st k d fd hk hwl hb
      rw [h1] at h
      injection h with h
      exact ⟨hwl, hb, h.symm⟩
    · right
      refine ⟨fun h2 => hb h2.2, ?_⟩
      have hb1 : ¬ (Int.land (get_mocking_type c.env st).1 d.flag ≠ 0 ∧ fd ≤ MAX_FD
          ∧ st.polled_fds fd ≠ 0 ∧ Int.land (st.active_fds fd) d.bit = 0) := hb
      have hmt : ∀ (len : Nat) (k1 k2 : Call),
          (mocked_transfer c st d fd len k1 k2).calls = [k2]
            ∨ (mocked_transfer c st d fd len k1 k2).calls = [k1] := by
        intro len k1 k2
        unfold mocked_transfer
        rw [if_neg (by simp [hwl]), if_neg hb1]
        split
        · exact Or.inr (forward_calls _ _ _)
        · exact Or.inl (forward_calls _ _ _)
      cases k with
      | socket _ _ _ => simp [Call.transfer] at hk
      | poll _ _ => simp [Call.transfer] at hk
      | close _ => simp [Call.transfer] at hk
      | writev f iov =>
        simp only [Call.transfer, Option.some.injEq, Prod.mk.injEq] at hk
        obtain ⟨rfl, rfl⟩ := hk
        have hb2 : ¬ (Int.land (get_mocking_type c.env st).1 MOCKING_WRITES ≠ 0 ∧ f ≤ MAX_FD
            ∧ st.polled_fds f ≠ 0 ∧ Int.land (st.active_fds f) POLLOUT = 0) := hb1
        simp only [step, writev_eq] at h
        rw [if_neg (by simp [hwl]), if_neg hb2] at h
        split at h
        · split at h
          · exact absurd h (by simp)
          · injection h with h
            subst h
            exact Or.inr (forward_calls _ _ _)
        · injection h with h
          subst h
          exact Or.inl (forward_calls _ _ _)
      | send f b l fl =>
        simp only [Call.transfer, Option.some.injEq, Prod.mk.injEq] at hk
        obtain ⟨rfl, rfl⟩ := hk
        simp only [step, send_eq] at h
        injection h with h
        subst h
        exact hmt _ _ _
      | read f b l =>
        simp only [Call.transfer, Option.some.injEq, Prod.mk.injEq] at hk
        obtain ⟨rfl, rfl⟩ := hk
        simp only [step, read_eq] at h
        injection h with h
        subst h
        exact hmt _ _ _
      | recv f b l fl =>
        simp only [Call.transfer, Option.some.injEq, Prod.mk.injEq] at hk
        obtain ⟨rfl, rfl⟩ := hk
        simp only [step, recv_eq] at h
        injection h with h
        subst h
        exact hmt _ _ _
      | recvfrom f b l fl a n =>
        simp only [Call.transfer, Option.some.injEq, Prod.mk.injEq] at hk
        obtain ⟨rfl, rfl⟩ := hk
        simp only [step, recvfrom_eq] at h
        injection h with h
        subst h
        exact hmt _ _ _
  · right
    refine ⟨fun h2 => hwl h2.1, Or.inl ?_⟩
    rw [step_exempt c st k d fd hk hwl] at h
    injection h with h
    rw [← h]
    exact forward_calls _ _ _

/-- A `close` call of an exempt caller is forwarded as it is. -/
theorem close_exempt (c : Ctx) (st : State) (fd : Int) (hwl : c.wl ≠ 0) :
    close c st fd = forward c.libc st (.close fd) := by
  unfold close
  rw [if_pos hwl]

/-! ## Close and reuse -/

theorem window_free_matchbuf (st : State) (mb : Option (Int → Option (List Nat))) (fd : Int)
    (h : st.matchbufs = free_matchbuf mb fd) : window st fd = none := by
  unfold window
  rw [h]
  unfold free_matchbuf
  split
  · rfl
  · rename_i m hm
    split at hm
    · exact absurd hm (by simp)
    · split at hm
      · rename_i hnone
        injection hm with hm
        rw [← hm]
        exact hnone
      · injection hm with hm
        rw [← hm, upd_same]

/-- The record a non-exempt `close` leaves for a descriptor within the guard:
all four flags are zero and there is no window. -/
theorem close_record (c : Ctx) (st : State) (fd : Int) (hwl : c.wl = 0) (hle : fd ≤ MAX_FD) :
    (close c st fd).st.active_fds fd = 0 ∧ (close c st fd).st.polled_fds fd = 0
      ∧ (close c st fd).st.weird_fds fd = 0 ∧ (close c st fd).st.snd_timeout_fds fd = 0
      ∧ window (close c st fd).st fd = none := by
  rw [close_st, if_neg (by simp [hwl]), if_pos hle]
  refine ⟨by simp, by simp, by simp, by simp, ?_⟩
  exact window_free_matchbuf _ st.matchbufs fd rfl

/-- The record a `socket` call leaves for the handle it returns, within the
guard: the readiness mask, the polled flag and the stall flag are zero, there
is no window, and the exempt flag is 1 or 0 by the test `!(type & SOCK_STREAM)`.
-/
theorem socket_record (c : Ctx) (st : State) (dm t p : Int)
    (hle : c.libc.socket dm t p ≤ MAX_FD) :
    (socket c st dm t p).st.active_fds (c.libc.socket dm t p) = 0
      ∧ (socket c st dm t p).st.polled_fds (c.libc.socket dm t p) = 0
      ∧ (socket c st dm t p).st.snd_timeout_fds (c.libc.socket dm t p) = 0
      ∧ window (socket c st dm t p).st (c.libc.socket dm t p) = none
      ∧ (socket c st dm t p).st.weird_fds (c.libc.socket dm t p)
          = (if Int.land t SOCK_STREAM = 0 then 1 else 0) := by
  obtain ⟨h1, h2⟩ := socket_fresh c st dm t p hle
  refine ⟨?_, ?_, h2, h1, ?_⟩
  · rw [socket_st, if_pos hle]; simp
  · rw [socket_st, if_pos hle]; simp
  · rw [socket_st, if_pos hle]; simp

/-! ## Exempt descriptors -/

theorem poll_entry_exempt_unpolled (p : pollfd) (st : State) (r : Int)
    (h : st.exempt_unpolled) : (poll_entry p st r).2.1.exempt_unpolled := by
  intro fd hw
  rw [(poll_entry_static p st r).1] at hw
  by_cases e : p.fd = fd
  · subst e
    unfold poll_entry
    dsimp only
    rw [if_pos (Or.inr hw)]
    exact h _ hw
  · rw [(poll_entry_other p st r e).2]
    exact h fd hw

theorem poll_loop_exempt_unpolled (u : List pollfd) (st : State) (r : Int)
    (h : st.exempt_unpolled) : (poll_loop u st r).2.1.exempt_unpolled := by
  induction u generalizing st r with
  | nil => exact h
  | cons p ps ih =>
    simp only [poll_loop]
    exact ih _ _ (poll_entry_exempt_unpolled p st r h)

/-- Every intercepted call that returns keeps exempt descriptors unpolled. -/
theorem step_exempt_unpolled {c : Ctx} {st : State} {k : Call} {r : Result}
    (hinv : st.exempt_unpolled) (h : step c st k = .ok r) : r.st.exempt_unpolled := by
  have htr : ∀ (d1 : Dir) (fd1 : Int), k.transfer = some (d1, fd1) → r.st.exempt_unpolled := by
    intro d1 fd1 hk fd hw
    obtain ⟨p1, p2, _⟩ := step_transfer_post hk h
    rw [p2] at hw
    rw [p1]
    exact hinv fd hw
  cases k with
  | socket dm t p =>
    have h := step_socket_ok h
    subst h
    rw [socket_st]
    split
    · intro fd hw
      simp only at hw ⊢
      by_cases e : fd = c.libc.socket dm t p
      · rw [e, upd_same]
      · rw [upd_other _ _ e] at hw ⊢
        exact hinv fd (by simpa using hw)
    · intro fd hw
      exact by simpa using hinv fd (by simpa using hw)
  | poll u t =>
    simp only [step] at h
    injection h with h
    subst h
    have h0 : (init_matchbufs c.env c.malloc_ok st).exempt_unpolled := by
      intro fd hw
      simpa using hinv fd (by simpa using hw)
    rw [poll_st]
    split
    · exact poll_loop_exempt_unpolled _ _ _ h0
    · exact h0
  | close f =>
    have h := step_close_ok h
    subst h
    rw [close_st]
    split
    · exact hinv
    · split
      · intro fd hw
        simp only at hw ⊢
        by_cases e : fd = f
        · rw [e, upd_same]
        · rw [upd_other _ _ e] at hw ⊢
          exact hinv fd hw
      · exact hinv
  | writev f iov => exact htr _ _ rfl
  | send f b l fl => exact htr _ _ rfl
  | read f b l => exact htr _ _ rfl
  | recv f b l fl => exact htr _ _ rfl
  | recvfrom f b l fl a n => exact htr _ _ rfl

theorem reachable_exempt_unpolled {st : State} (h : Reachable st) : st.exempt_unpolled := by
  induction h with
  | init => intro fd hw; exact absurd rfl hw
  | step c k _ hs ih => exact step_exempt_unpolled ih hs

theorem dgram_state_reachable : Reachable dgram_state :=
  Reachable.step ctx_pat (.poll [⟨3, 5, 0⟩] 0)
    (Reachable.step ctx_pat (.socket 2 2 0) Reachable.init rfl) rfl

/-! ## Parsing of the mocking mode -/

theorem mentions_iff (s : List Char) (a b : Char) :
    mentions s a b = true ↔ (a ∈ s ∨ b ∈ s) := by
  unfold mentions
  rw [List.any_eq_true]
  constructor
  · rintro ⟨x, hx, h⟩
    rcases of_decide_eq_true h with h | h
    · exact Or.inl (h ▸ hx)
    · exact Or.inr (h ▸ hx)
  · rintro (h | h)
    · exact ⟨a, h, decide_eq_true (Or.inl rfl)⟩
    · exact ⟨b, h, decide_eq_true (Or.inr rfl)⟩

/-- The scanning loop adds to the mask the read bit when an `r` or `R` is met and
the write bit when a `w` or `W` is met. -/
theorem scan_mocking_mask (cs : List Char) (r w : Bool) :
    scan_mocking cs (mode_mask r w)
      = mode_mask (r || mentions cs 'r' 'R') (w || mentions cs 'w' 'W') := by
  induction cs generalizing r w with
  | nil => simp [scan_mocking, mentions]
  | cons c cs ih =>
    unfold scan_mocking
    have e1 : Int.lor (mode_mask r w) MOCKING_READS = mode_mask true w := by
      cases r <;> cases w <;> decide
    have e2 : Int.lor (mode_mask r w) MOCKING_WRITES = mode_mask r true := by
      cases r <;> cases w <;> decide
    have m1 : ∀ a b : Char, mentions (c :: cs) a b
        = (decide (c = a ∨ c = b) || mentions cs a b) := fun _ _ => rfl
    by_cases hr : c = 'r' ∨ c = 'R'
    · have hw : ¬ (c = 'w' ∨ c = 'W') := by
        rcases hr with h | h <;> subst h <;> decide
      rw [if_pos hr, e1, ih, m1, m1, decide_eq_true hr, decide_eq_false hw]
      simp
    · rw [if_neg hr]
      by_cases hw : c = 'w' ∨ c = 'W'
      · rw [if_pos hw, e2, ih, m1, m1, decide_eq_true hw, decide_eq_false hr]
        simp
      · rw [if_neg hw, ih, m1, m1, decide_eq_false hw, decide_eq_false hr]
        simp

/-- The value of the first call of `get_mocking_type` on a non-empty setting. -/
theorem get_mocking_type_first (env : Env) (st : State) (s : List Char)
    (h : st.mocking_type < 0) (he : env.MOCKEAGAIN = some s) (hs : s ≠ []) :
    (get_mocking_type env st).1
      = mode_mask (mentions s 'r' 'R')
          (mentions s 'w' 'W' || (!mentions s 'r' 'R' && !mentions s 'w' 'W')) := by
  unfold get_mocking_type
  rw [if_neg (not_le.2 h), he]
  cases s with
  | nil => exact absurd rfl hs
  | cons c cs =>
    simp only
    have e := scan_mocking_mask (c :: cs) false false
    have e0 : mode_mask false false = 0 := rfl
    rw [e0] at e
    rw [e]
    simp only [Bool.false_or]
    cases mentions (c :: cs) 'r' 'R' <;> cases mentions (c :: cs) 'w' 'W' <;> decide

/-- No intercepted call changes a cached mocking mode. -/
theorem step_mocking_type {c : Ctx} {st : State} {k : Call} {r : Result}
    (h0 : 0 ≤ st.mocking_type) (h : step c st k = .ok r) :
    r.st.mocking_type = st.mocking_type := by
  have htr : ∀ (d1 : Dir) (fd1 : Int), k.transfer = some (d1, fd1) →
      r.st.mocking_type = st.mocking_type :=
    fun d1 fd1 hk => (step_transfer_post hk h).2.2.2.2.1 h0
  cases k with
  | socket dm t p =>
    have h := step_socket_ok h
    subst h
    rw [socket_st]
    split
    · exact (init_matchbufs_tables _ _ _).2.2.2.2
    · exact (init_matchbufs_tables _ _ _).2.2.2.2
  | poll u t =>
    simp only [step] at h
    injection h with h
    subst h
    exact (poll_static c st u t).2.2
  | close f =>
    have h := step_close_ok h
    subst h
    rw [close_st]
    split
    · rfl
    · split <;> rfl
  | writev f iov => exact htr _ _ rfl
  | send f b l fl => exact htr _ _ rfl
  | read f b l => exact htr _ _ rfl
  | recv f b l fl => exact htr _ _ rfl
  | recvfrom f b l fl a n => exact htr _ _ rfl

theorem run_mocking_type {st st2 : State} (ks : List (Ctx × Call))
    (h0 : 0 ≤ st.mocking_type) (h : run st ks = .ok st2) :
    st2.mocking_type = st.mocking_type := by
  induction ks generalizing st with
  | nil =>
    simp only [run] at h
    injection h with h
    rw [h]
  | cons a rest ih =>
    obtain ⟨c, k⟩ := a
    simp only [run] at h
    split at h
    · rename_i r hr
      have e := step_mocking_type h0 hr
      rw [ih (by rw [e]; exact h0) h, e]
    · exact absurd h (by simp)

/-! ## The emulated timeout -/

theorem to_int_of_range {x : Int} (h0 : -2147483648 ≤ x) (h1 : x ≤ 2147483647) :
    to_int x = x := by
  unfold to_int
  omega

/-- Without a configured pattern the loop of `poll` leaves the count as it is. -/
theorem poll_loop_count_of_no_pattern (u : List pollfd) (st : State) (r : Int)
    (h : st.pattern = none) : (poll_loop u st r).2.2 = r := by
  induction u generalizing st r with
  | nil => rfl
  | cons p ps ih =>
    simp only [poll_loop]
    have e1 : (poll_entry p st r).2.2 = r := by
      unfold poll_entry
      dsimp only
      split
      · rfl
      · rw [if_neg (fun hs => by rw [h] at hs; exact absurd hs.1 (by simp))]
    rw [ih _ _ (by rw [(poll_entry_static p st r).2.2.1]; exact h), e1]

/-- The value `poll` returns and the duration it sleeps, in terms of the real
result and the adjusted count. -/
theorem poll_retval_slept (c : Ctx) (st : State) (u : List pollfd) (t : Int) :
    (poll c st u t).retval
        = (if (c.libc.poll u t).2 > 0 then adjusted_count c st u t else (c.libc.poll u t).2)
      ∧ (poll c st u t).slept
        = (if (c.libc.poll u t).2 > 0 ∧ adjusted_count c st u t = 0 then
            emulate_timeout t
              (if (init_matchbufs c.env c.malloc_ok st).pattern.isSome
                then now c.t1 - now c.t0 else 0)
          else none)
      ∧ (poll c st u t).calls = [.poll u t] := by
  unfold poll adjusted_count
  simp only [forward]
  by_cases h : (c.libc.poll u t).2 > 0
  · by_cases hz : (poll_loop (set_revents u (c.libc.poll u t).1)
        (init_matchbufs c.env c.malloc_ok st) (c.libc.poll u t).2).2.2 = 0
    · by_cases hp : (init_matchbufs c.env c.malloc_ok st).pattern.isSome = true
      · simp only [if_pos h, if_pos hz, if_pos hp, if_pos (And.intro h hz)]
        exact ⟨trivial, trivial, trivial⟩
      · simp only [if_pos h, if_pos hz, if_neg hp, if_pos (And.intro h hz)]
        exact ⟨trivial, trivial, trivial⟩
    · simp only [if_pos h, if_neg hz, if_neg (fun x : _ ∧ _ => hz x.2)]
      exact ⟨trivial, trivial, trivial⟩
  · simp only [if_neg h, if_neg (fun x : _ ∧ _ => h x.1)]
    exact ⟨trivial, trivial, trivial⟩

/-! ## The real result and the statics -/

theorem mocked_transfer_st_libc (c : Ctx) (l : Libc) (st : State) (d : Dir) (fd : Int)
    (len : Nat) (k1 k : Call) :
    (mocked_transfer { c with libc := l } st d fd len k1 k).st
      = (mocked_transfer c st d fd len k1 k).st := by
  unfold mocked_transfer
  dsimp only
  split_ifs <;> simp [forward_st, would_block]

theorem writev_st_libc {c : Ctx} (l : Libc) {st : State} {fd : Int} {iov : List iovec}
    {r : Result} (h : writev c st fd iov = .ok r) :
    ∃ r1, writev { c with libc := l } st fd iov = .ok r1 ∧ r1.st = r.st := by
  rw [writev_eq] at h ⊢
  dsimp only at h ⊢
  by_cases h1 : c.wl ≠ 0
  · rw [if_pos h1] at h ⊢
    injection h with h
    exact ⟨_, rfl, by rw [← h, forward_st, forward_st]⟩
  · rw [if_neg h1] at h ⊢
    split at h
    · rename_i h2
      rw [if_pos h2]
      injection h with h
      exact ⟨_, rfl, by rw [← h]⟩
    · rename_i h2
      rw [if_neg h2]
      split at h
      · rename_i h3
        rw [if_pos h3]
        split at h
        · exact absurd h (by simp)
        · injection h with h
          exact ⟨_, rfl, by rw [← h]⟩
      · rename_i h3
        rw [if_neg h3]
        injection h with h
        exact ⟨_, rfl, by rw [← h, forward_st, forward_st]⟩

/-- The statics a transfer call leaves do not depend on what the real
implementation returns. -/
theorem step_st_libc {c : Ctx} (l : Libc) {st : State} {k : Call} {d : Dir} {fd : Int}
    {r : Result} (hk : k.transfer = some (d, fd)) (h : step c st k = .ok r) :
    ∃ r1, step { c with libc := l } st k = .ok r1 ∧ r1.st = r.st := by
  cases k with
  | socket dm t p => exact absurd hk (by simp [Call.transfer])
  | poll u t => exact absurd hk (by simp [Call.transfer])
  | close f => exact absurd hk (by simp [Call.transfer])
  | writev f iov => exact writev_st_libc l h
  | send f b len fl =>
    simp only [step] at h ⊢
    injection h with h
    exact ⟨_, rfl, by rw [← h, send_eq, send_eq, mocked_transfer_st_libc]⟩
  | read f b len =>
    simp only [step] at h ⊢
    injection h with h
    exact ⟨_, rfl, by rw [← h, read_eq, read_eq, mocked_transfer_st_libc]⟩
  | recv f b len fl =>
    simp only [step] at h ⊢
    injection h with h
    exact ⟨_, rfl, by rw [← h, recv_eq, recv_eq, mocked_transfer_st_libc]⟩
  | recvfrom f b len fl a n =>
    simp only [step] at h ⊢
    injection h with h
    exact ⟨_, rfl, by rw [← h, recvfrom_eq, recvfrom_eq, mocked_transfer_st_libc]⟩

/-- A transfer call under the truncation condition returns, when the pattern
configuration is consistent and the allocation of a missing window succeeds. -/
theorem step_trunc_returns {c : Ctx} {st : State} {k : Call} {d : Dir} {fd : Int}
    (hk : k.transfer = some (d, fd)) (hwl : c.wl = 0) (ht : trunc_cond c st d fd k)
    (hwf : st.wf) (halloc : st.pattern ≠ none → window st fd = none → c.malloc_ok = true) :
    ∃ r, step c st k = .ok r := by
  cases k with
  | socket dm t p => exact absurd hk (by simp [Call.transfer])
  | poll u t => exact ⟨_, rfl⟩
  | close f => exact absurd hk (by simp [Call.transfer])
  | send f b len fl => exact ⟨_, rfl⟩
  | read f b len => exact ⟨_, rfl⟩
  | recv f b len fl => exact ⟨_, rfl⟩
  | recvfrom f b len fl a n => exact ⟨_, rfl⟩
  | writev f iov =>
    have e : d = .write ∧ f = fd := by
      simp only [Call.transfer, Option.some.injEq, Prod.mk.injEq] at hk
      exact ⟨hk.1.symm, hk.2⟩
    obtain ⟨e1, e2⟩ := e
    subst e1
    subst e2
    obtain ⟨hm, hle, hpo, hbit, hpay⟩ := ht
    show ∃ r, writev c st f iov = .ok r
    rw [writev_eq, if_neg (by simp [hwl]), if_neg (fun h4 => hbit h4.2.2.2),
      if_pos ⟨hm, hle, hpo, hpay⟩]
    cases hpat : st.pattern with
    | none => exact ⟨_, rfl⟩
    | some pat =>
      obtain ⟨st2, h2⟩ := writev_match_ok c.malloc_ok pat (c.mem (truncate_iov iov).iov_base)
        (get_mocking_type c.env st).2 f (by simpa using (hwf pat hpat).1)
        (fun hn => halloc (by rw [hpat]; simp)
          (by unfold window at hn ⊢; rw [gmt_matchbufs] at hn; exact hn))
      simp only [h2]
      exact ⟨_, rfl⟩

/-! ## Stalled descriptors -/

theorem mocked_transfer_snd_timeout (c : Ctx) (st : State) (d : Dir) (fd : Int) (len : Nat)
    (k1 k : Call) :
    (mocked_transfer c st d fd len k1 k).st.snd_timeout_fds = st.snd_timeout_fds := by
  unfold mocked_transfer
  split_ifs <;> simp [forward_st, would_block, clear_active]

/-- A `writev` call that returns leaves the stall flags as they are unless it is
a non-exempt call under the truncation condition. -/
theorem writev_stall {c : Ctx} {st : State} {fd : Int} {iov : List iovec} {r : Result}
    (h : writev c st fd iov = .ok r) :
    r.st.snd_timeout_fds = st.snd_timeout_fds
      ∨ (c.wl = 0 ∧ trunc_cond c st .write fd (.writev fd iov)) := by
  rw [writev_eq] at h
  by_cases h1 : c.wl ≠ 0
  · rw [if_pos h1] at h
    injection h with h
    exact Or.inl (by rw [← h, forward_st])
  · rw [if_neg h1] at h
    by_cases h2 : Int.land (get_mocking_type c.env st).1 MOCKING_WRITES ≠ 0 ∧ fd ≤ MAX_FD
        ∧ st.polled_fds fd ≠ 0 ∧ Int.land (st.active_fds fd) POLLOUT = 0
    · rw [if_pos h2] at h
      injection h with h
      exact Or.inl (by rw [← h]; simp [would_block])
    · rw [if_neg h2] at h
      by_cases h3 : Int.land (get_mocking_type c.env st).1 MOCKING_WRITES ≠ 0 ∧ fd ≤ MAX_FD
          ∧ st.polled_fds fd ≠ 0 ∧ (truncate_iov iov).iov_base ≠ 0
      · exact Or.inr ⟨not_not.1 h1, h3.1, h3.2.1, h3.2.2.1,
          fun hb => h2 ⟨h3.1, h3.2.1, h3.2.2.1, hb⟩, h3.2.2.2⟩
      · rw [if_neg h3] at h
        injection h with h
        exact Or.inl (by rw [← h, forward_st]; simp)

/-- A transfer call that returns leaves the stall flags as they are unless it is
a non-exempt outbound call under the truncation condition. -/
theorem step_stall_change {c : Ctx} {st : State} {k : Call} {d : Dir} {fd : Int} {r : Result}
    (hk : k.transfer = some (d, fd)) (h : step c st k = .ok r) :
    r.st.snd_timeout_fds = st.snd_timeout_fds
      ∨ (d = .write ∧ c.wl = 0 ∧ trunc_cond c st .write fd k) := by
  cases k with
  | socket dm t p => exact absurd hk (by simp [Call.transfer])
  | poll u t => exact absurd hk (by simp [Call.transfer])
  | close f => exact absurd hk (by simp [Call.transfer])
  | writev f iov =>
    simp only [Call.transfer, Option.some.injEq, Prod.mk.injEq] at hk
    obtain ⟨e1, e2⟩ := hk
    subst e1
    subst e2
    rcases writev_stall h with h1 | h1
    · exact Or.inl h1
    · exact Or.inr ⟨rfl, h1⟩
  | send f b len fl =>
    simp only [step] at h
    injection h with h
    exact Or.inl (by rw [← h, send_eq, mocked_transfer_snd_timeout])
  | read f b len =>
    simp only [step] at h
    injection h with h
    exact Or.inl (by rw [← h, read_eq, mocked_transfer_snd_timeout])
  | recv f b len fl =>
    simp only [step] at h
    injection h with h
    exact Or.inl (by rw [← h, recv_eq, mocked_transfer_snd_timeout])
  | recvfrom f b len fl a n =>
    simp only [step] at h
    injection h with h
    exact Or.inl (by rw [← h, recvfrom_eq, mocked_transfer_snd_timeout])

/-- A call that does not release `fd` leaves a set stall flag of `fd` set. -/
theorem step_stall_kept {c : Ctx} {st : State} {k : Call} {fd : Int} {r : Result}
    (hrel : ¬ releases c fd k) (h : step c st k = .ok r) (hs : st.snd_timeout_fds fd ≠ 0) :
    r.st.snd_timeout_fds fd ≠ 0 := by
  have htr : ∀ (d1 : Dir) (fd1 : Int), k.transfer = some (d1, fd1) →
      r.st.snd_timeout_fds fd ≠ 0 := by
    intro d1 fd1 hk
    obtain ⟨_, _, _, _, _, _, p7⟩ := step_transfer_post hk h
    rcases p7 with ⟨_, q⟩ | ⟨_, _, _, q4, q5⟩
    · rw [q]; exact hs
    · by_cases e : fd = fd1
      · subst e
        rcases q5 with q5 | q5
        · rw [q5]; exact hs
        · rw [q5]; decide
      · rw [q4 fd e]; exact hs
  cases k with
  | socket dm t p =>
    have h := step_socket_ok h
    subst h
    have hne : fd ≠ c.libc.socket dm t p := fun e => hrel e.symm
    rw [socket_st]
    split
    · simp only
      rw [upd_other _ _ hne]
      exact hs
    · simpa using hs
  | poll u t =>
    simp only [step] at h
    injection h with h
    subst h
    rw [(poll_static c st u t).2.1]
    exact hs
  | close f =>
    have h := step_close_ok h
    subst h
    rw [close_st]
    split
    · exact hs
    · rename_i hwl
      split
      · have hne : fd ≠ f := fun e => hrel ⟨e.symm, not_not.1 hwl⟩
        simp only
        rw [upd_other _ _ hne]
        exact hs
      · exact hs
  | writev f iov => exact htr _ _ rfl
  | send f b l fl => exact htr _ _ rfl
  | read f b l => exact htr _ _ rfl
  | recv f b l fl => exact htr _ _ rfl
  | recvfrom f b l fl a n => exact htr _ _ rfl

theorem run_stall_kept {fd : Int} (mid : List (Ctx × Call)) {st st2 : State}
    (hmid : ∀ x ∈ mid, ¬ releases x.1 fd x.2) (hrun : run st mid = .ok st2)
    (hs : st.snd_timeout_fds fd ≠ 0) : st2.snd_timeout_fds fd ≠ 0 := by
  induction mid generalizing st with
  | nil =>
    simp only [run] at hrun
    injection hrun with hrun
    subst hrun
    exact hs
  | cons x rest ih =>
    obtain ⟨c, k⟩ := x
    simp only [run] at hrun
    split at hrun
    · rename_i r hr
      exact ih (fun y hy => hmid y (List.mem_cons_of_mem _ hy)) hrun
        (step_stall_kept (hmid (c, k) (List.mem_cons_self _ _)) hr hs)
    · exact absurd hrun (by simp)

theorem poll_entry_stall_polled (p : pollfd) (st : State) (r : Int) (h : st.stall_polled) :
    (poll_entry p st r).2.1.stall_polled := by
  intro fd hs
  rw [(poll_entry_static p st r).2.1] at hs
  rw [(poll_entry_static p st r).2.2.1]
  obtain ⟨hp, hpo, hb⟩ := h fd hs
  refine ⟨hp, ?_⟩
  by_cases e : p.fd = fd
  · subst e
    unfold poll_entry
    dsimp only
    split
    · exact ⟨hpo, hb⟩
    · split
      · split
        · exact ⟨hpo, hb⟩
        · simp only [record_poll, upd_same]
          exact ⟨by decide, land_and_not_self _ _⟩
      · rename_i hn
        simp only [record_poll, upd_same]
        refine ⟨by decide, ?_⟩
        by_contra hl
        exact hn ⟨hp, hl, hs⟩
  · obtain ⟨a1, a2⟩ := poll_entry_other p st r e
    rw [a1, a2]
    exact ⟨hpo, hb⟩

theorem poll_loop_stall_polled (u : List pollfd) (st : State) (r : Int) (h : st.stall_polled) :
    (poll_loop u st r).2.1.stall_polled := by
  induction u generalizing st r with
  | nil => exact h
  | cons p ps ih =>
    simp only [poll_loop]
    exact ih _ _ (poll_entry_stall_polled p st r h)

/-- Every intercepted call that returns keeps stalled descriptors blocked. -/
theorem step_stall_blocked {c : Ctx} {st : State} {k : Call} {r : Result} (hinv : st.inv)
    (hb : st.stall_blocked) (h : step c st k = .ok r) : r.st.stall_blocked := by
  have hkeep : ∀ fd, ¬ resets c fd k → st.snd_timeout_fds fd ≠ 0 →
      fd ≤ MAX_FD ∧ blocked r.st .write fd :=
    fun fd hres hs => ⟨(hb fd hs).1, step_keeps_blocked hres h (hb fd hs).2⟩
  have htr : ∀ (d1 : Dir) (fd1 : Int), k.transfer = some (d1, fd1) → r.st.stall_blocked := by
    intro d1 fd1 hk fd hs
    have hres : ¬ resets c fd k := by
      cases k <;> simp [Call.transfer] at hk <;> simp [resets]
    rcases step_stall_change hk h with hc | ⟨hd, hwl, ht⟩
    · rw [hc] at hs
      exact hkeep fd hres hs
    · by_cases hs0 : st.snd_timeout_fds fd ≠ 0
      · exact hkeep fd hres hs0
      · have hfd : fd = fd1 := by
          by_contra hne
          obtain ⟨_, _, _, _, _, _, p7⟩ := step_transfer_post hk h
          rcases p7 with ⟨_, q⟩ | ⟨_, _, _, q4, _⟩
          · rw [q] at hs; exact hs0 hs
          · rw [q4 fd hne] at hs; exact hs0 hs
        subst hfd
        subst hd
        exact ⟨ht.2.1, step_trunc_blocked hk hwl ht h⟩
  cases k with
  | socket dm t p =>
    intro fd hs
    have h1 := h
    have h1 := step_socket_ok h1
    have hs0 : st.snd_timeout_fds fd ≠ 0 ∧ (c.libc.socket dm t p ≤ MAX_FD →
        fd ≠ c.libc.socket dm t p) := by
      rw [← h1, socket_st] at hs
      split at hs
      · rename_i hle
        simp only at hs
        by_cases e : fd = c.libc.socket dm t p
        · rw [e, upd_same] at hs
          exact absurd rfl hs
        · rw [upd_other _ _ e] at hs
          exact ⟨hs, fun _ => e⟩
      · rename_i hle
        exact ⟨by simpa using hs, fun hle1 => absurd hle1 hle⟩
    refine hkeep fd ?_ hs0.1
    intro hres
    have e : c.libc.socket dm t p = fd := hres
    exact hs0.2 (by rw [e]; exact (hb fd hs0.1).1) e.symm
  | poll u t =>
    simp only [step] at h
    injection h with h
    subst h
    have hi := init_matchbufs_inv c.env c.malloc_ok hinv
    have h0 : (init_matchbufs c.env c.malloc_ok st).stall_polled := by
      intro fd hs
      have hs1 : st.snd_timeout_fds fd ≠ 0 := by simpa using hs
      obtain ⟨_, _, _, hpo, hbit⟩ := hb fd hs1
      refine ⟨?_, by simpa using hpo, by simpa using hbit⟩
      have := hi.2 fd hs
      cases hp : (init_matchbufs c.env c.malloc_ok st).pattern with
      | none => exact absurd hp this
      | some _ => rfl
    have h1 : (poll c st u t).st.stall_polled := by
      rw [poll_st]
      split
      · exact poll_loop_stall_polled _ _ _ h0
      · exact h0
    intro fd hs
    obtain ⟨_, hpo, hbit⟩ := h1 fd hs
    obtain ⟨_, s2, s3⟩ := poll_static c st u t
    rw [s2] at hs
    obtain ⟨hle, hm0, hm1, _, _⟩ := hb fd hs
    exact ⟨hle, by rw [s3]; exact hm0, by rw [s3]; exact hm1, hpo, hbit⟩
  | close f =>
    intro fd hs
    have h1 := h
    have h1 := step_close_ok h1
    rw [← h1, close_st] at hs ⊢
    split at hs
    · rename_i hwl
      rw [if_pos hwl]
      exact hb fd hs
    · rename_i hwl
      rw [if_neg hwl]
      split at hs
      · rename_i hle
        rw [if_pos hle]
        simp only at hs
        by_cases e : fd = f
        · rw [e, upd_same] at hs
          exact absurd rfl hs
        · rw [upd_other _ _ e] at hs
          obtain ⟨hle1, hm0, hm1, hpo, hbit⟩ := hb fd hs
          refine ⟨hle1, hm0, hm1, ?_, ?_⟩
          · simp only
            rw [upd_other _ _ e]
            exact hpo
          · simp only
            rw [upd_other _ _ e]
            exact hbit
      · rename_i hle
        rw [if_neg hle]
        exact hb fd hs
  | writev f iov => exact htr _ _ rfl
  | send f b l fl => exact htr _ _ rfl
  | read f b l => exact htr _ _ rfl
  | recv f b l fl => exact htr _ _ rfl
  | recvfrom f b l fl a n => exact htr _ _ rfl

theorem reachable_stall_blocked {st : State} (h : Reachable st) : st.stall_blocked := by
  induction h with
  | init => intro fd hs; exact absurd rfl hs
  | step c k hr hs ih => exact step_stall_blocked (reachable_inv hr) ih hs

/-! ## The count `poll` returns -/

theorem testBit_POLLOUT (i : Nat) : Int.testBit POLLOUT i = decide (i = 2) := by
  have h1 : Int.testBit POLLOUT i = Nat.testBit (2 ^ 2) i := rfl
  rw [h1, Nat.testBit_two_pow]
  simp [eq_comm]

/-- Clearing `POLLOUT` empties a mask exactly when the mask is 0 or `POLLOUT`. -/
theorem and_not_POLLOUT_eq_zero (x : Int) : and_not x POLLOUT = 0 ↔ x = 0 ∨ x = POLLOUT := by
  constructor
  · intro h
    have hb : ∀ i, (Int.testBit x i && !Int.testBit POLLOUT i) = false := by
      intro i
      rw [← testBit_and_not, h, int_testBit_zero]
    by_cases h2 : Int.testBit x 2 = true
    · right
      apply int_testBit_ext
      intro i
      by_cases e : i = 2
      · subst e
        rw [h2, testBit_POLLOUT]
        simp
      · have := hb i
        rw [testBit_POLLOUT] at this ⊢
        simpa [e] using this
    · left
      apply int_testBit_ext
      intro i
      rw [int_testBit_zero]
      by_cases e : i = 2
      · subst e
        simpa using h2
      · have := hb i
        rw [testBit_POLLOUT] at this
        simpa [e] using this
  · rintro (h | h) <;> subst h <;> decide

theorem count_events_cons (p : pollfd) (ps : List pollfd) :
    count_events (p :: ps) = count_events ps + (if p.revents ≠ 0 then 1 else 0) := by
  unfold count_events
  rw [List.countP_cons]
  by_cases h : p.revents ≠ 0
  · simp [h]
  · simp [h]

theorem count_events_nonneg (u : List pollfd) : 0 ≤ count_events u :=
  Int.ofNat_nonneg _

theorem count_events_eq_zero (u : List pollfd) :
    count_events u = 0 ↔ ∀ p ∈ u, p.revents = 0 := by
  unfold count_events
  rw [Int.natCast_eq_zero, List.countP_eq_zero]
  constructor
  · intro h p hp
    by_contra hne
    exact h p hp (decide_eq_true hne)
  · intro h p hp hd
    exact of_decide_eq_true hd (h p hp)

/-- One iteration of the loop of `poll` lowers the count by one exactly when it
empties the entry. -/
theorem poll_entry_count (p : pollfd) (st : State) (r : Int) :
    (poll_entry p st r).2.2 - (if (poll_entry p st r).1.revents ≠ 0 then 1 else 0)
      = r - (if p.revents ≠ 0 then 1 else 0) := by
  unfold poll_entry
  dsimp only
  split
  · rfl
  · split
    · rename_i hs
      have hne : p.revents ≠ 0 := by
        intro e
        rw [e, land_zero_left] at hs
        exact hs.2.1 rfl
      split
      · rename_i hz
        simp [hz, hne]
      · rename_i hz
        simp [hz, hne]
    · rfl

/-- The loop of `poll` keeps the count in step with the entries: the count less
the number of non-empty entries is the same before and after. -/
theorem poll_loop_count (u : List pollfd) (st : State) (r : Int) :
    (poll_loop u st r).2.2 - count_events (poll_loop u st r).1 = r - count_events u := by
  induction u generalizing st r with
  | nil => rfl
  | cons p ps ih =>
    simp only [poll_loop, count_events_cons]
    have e := poll_entry_count p st r
    have i := ih (poll_entry p st r).2.1 (poll_entry p st r).2.2
    linarith

theorem window_init_matchbufs (env : Env) (b : Bool) (st : State) (fd : Int) :
    window (init_matchbufs env b st) fd = window st fd := by
  cases hmb : st.matchbufs with
  | some mb =>
    have e : init_matchbufs env b st = st := by
      unfold init_matchbufs
      rw [hmb]
    rw [e]
  | none =>
    have e1 : window st fd = none := by
      unfold window
      rw [hmb]
    rw [e1]
    unfold init_matchbufs
    rw [hmb]
    dsimp only
    cases env.MOCKEAGAIN_WRITE_TIMEOUT_PATTERN with
    | none => simp [window, hmb]
    | some l =>
      cases l with
      | nil => simp [window, hmb]
      | cons a as => cases b <;> simp [window, hmb]

/-- In reachable statics the entry of a stalled descriptor that reports
`POLLOUT` alone is handed back empty. -/
theorem returned_entry_stalled {st : State} (env : Env) (b : Bool) (hr : Reachable st)
    {p : pollfd} (hp : p.revents = POLLOUT) (hs : st.snd_timeout_fds p.fd ≠ 0) :
    (returned_entry (init_matchbufs env b st) p).revents = 0 := by
  obtain ⟨hle, _, _, hpo, _⟩ := reachable_stall_blocked hr p.fd hs
  have hw : st.weird_fds p.fd = 0 := by
    by_contra hne
    exact hpo (reachable_exempt_unpolled hr p.fd hne)
  have hi := (init_matchbufs_inv env b (reachable_inv hr)).2 p.fd (by simpa using hs)
  have hpat : (init_matchbufs env b st).pattern.isSome = true := by
    cases hq : (init_matchbufs env b st).pattern with
    | none => exact absurd hq hi
    | some _ => rfl
  rw [returned_entry_eq, if_neg (by simp [hw, not_lt.2 hle]),
    if_pos ⟨hpat, by simpa using hs⟩, hp]
  show and_not POLLOUT POLLOUT = 0
  decide

/-! ## The token of a frame -/

/-- On a string that starts with a non-empty run `a` free of delimiters
followed by a delimiter, `strtok` gives `a` and leaves the saved position
behind the delimiter. -/
theorem strtok_plain (delims a : List Char) (d : Char) (b : List Char) (ha : a ≠ [])
    (hna : ∀ ch ∈ a, delims.contains ch = false) (hd : delims.contains d = true) :
    strtok (a ++ d :: b) delims = (some a, b) := by
  cases a with
  | nil => exact absurd rfl ha
  | cons x xs =>
    have hx : ¬ (fun ch => delims.contains ch) x = true := by
      simp only [hna x (List.mem_cons_self _ _)]
      exact Bool.false_ne_true
    have h1 : (x :: xs ++ d :: b).dropWhile (fun ch => delims.contains ch)
        = x :: (xs ++ d :: b) := List.dropWhile_cons_of_neg hx
    have hall : ∀ ch ∈ x :: xs, (fun ch => !delims.contains ch) ch = true := by
      intro ch hch
      simp only [hna ch hch]
      rfl
    have hd1 : ¬ (fun ch => !delims.contains ch) d = true := by
      simp only [hd]
      exact Bool.false_ne_true
    have h2 : (x :: (xs ++ d :: b)).takeWhile (fun ch => !delims.contains ch) = x :: xs := by
      have := @List.takeWhile_append_of_pos Char (fun ch => !delims.contains ch) (x :: xs) (d :: b)
        hall
      rw [List.takeWhile_cons_of_neg (p := fun ch => !delims.contains ch) (a := d) (l := b) hd1,
        List.append_nil] at this
      exact this
    have h3 : (x :: (xs ++ d :: b)).dropWhile (fun ch => !delims.contains ch) = d :: b := by
      have := @List.dropWhile_append_of_pos Char (fun ch => !delims.contains ch) (x :: xs) (d :: b)
        hall
      rw [List.dropWhile_cons_of_neg (p := fun ch => !delims.contains ch) (a := d) (l := b) hd1]
        at this
      exact this
    unfold strtok
    rw [h1]
    simp only
    rw [h2, h3]
    rfl

/-- For a frame string `path(function+rest` whose path and function name are
non-empty and hold neither `(` nor `+`, the token looked up is the function
name. -/
theorem frame_token_plain (path function rest : List Char) (hp : path ≠ [])
    (hpn : ∀ ch ∈ path, ['(', '+'].contains ch = false) (hf : function ≠ [])
    (hfn : ∀ ch ∈ function, ['(', '+'].contains ch = false) :
    frame_token (path ++ '(' :: (function ++ '+' :: rest)) = some function := by
  unfold frame_token
  rw [strtok_plain _ path '(' _ hp hpn (by decide),
    strtok_plain _ function '+' _ hf hfn (by decide)]

/-- With the exemption list unset or empty the first call of `is_whitelist`
returns 0 and leaves the filter off. -/
theorem is_whitelist_disabled (w : Stack)
    (h : w.env.MOCKEAGAIN_WL = none ∨ w.env.MOCKEAGAIN_WL = some []) :
    is_whitelist w Filter.init
      = .ok (0, { whitelist_status := WHITELIST_ERR, htab := none }) := by
  unfold is_whitelist get_whitelist
  rcases h with h | h <;>
    simp [h, Filter.init, WHITELIST_UNSET, WHITELIST_ERR, WHITELIST_OK]

/-- With the filter off a call of `is_whitelist` returns 0 and looks at no
frame. -/
theorem is_whitelist_off (w : Stack) (f : Filter) (h : f.whitelist_status = WHITELIST_ERR) :
    is_whitelist w f = .ok (0, f) := by
  unfold is_whitelist
  simp [h, WHITELIST_UNSET, WHITELIST_ERR, WHITELIST_OK]

/-- The emulated timeout within `int`.  A `poll` call sleeps only when the real `poll`
reported a count above 0 and the loop brought the count to 0.  In that case it
calls the real `poll` once and returns 0; with a negative timeout it sleeps
86400 s (`tv_sec = 86400`, `tv_usec = 0`); with a timeout `t ≥ 0` and the
elapsed value `e = now t1 - now t0` of the two clock readings below `t` (and
`t - e` within `int`) it sleeps `tv_sec = (t - e) / 1000`,
`tv_usec = ((t - e) mod 1000) * 1000`, with `0 ≤ tv_usec < 1000000`, which is
`t - e` milliseconds; and with `t ≤ e` it does not sleep. -/
theorem poll_emulated_timeout (c : Ctx) (st : State) (u : List pollfd) (t : Int) :
    (¬ ((c.libc.poll u t).2 > 0 ∧ adjusted_count c st u t = 0) → (poll c st u t).slept = none)
      ∧ ((c.libc.poll u t).2 > 0 → adjusted_count c st u t = 0 →
          (poll c st u t).retval = 0 ∧ (poll c st u t).calls = [.poll u t]
            ∧ (t < 0 → (poll c st u t).slept = some ⟨86400, 0⟩)
            ∧ (0 ≤ t → now c.t1 - now c.t0 < t → t - (now c.t1 - now c.t0) ≤ 2147483647 →
                (poll c st u t).slept
                    = some ⟨(t - (now c.t1 - now c.t0)) / 1000,
                        (t - (now c.t1 - now c.t0)) % 1000 * 1000⟩
                  ∧ 0 ≤ (t - (now c.t1 - now c.t0)) % 1000 * 1000
                  ∧ (t - (now c.t1 - now c.t0)) % 1000 * 1000 < 1000000
                  ∧ (t - (now c.t1 - now c.t0)) / 1000 * 1000
                      + (t - (now c.t1 - now c.t0)) % 1000 = t - (now c.t1 - now c.t0))
            ∧ (0 ≤ t → t ≤ now c.t1 - now c.t0 → (poll c st u t).slept = none)) := by
  obtain ⟨hret, hslept, hcalls⟩ := poll_retval_slept c st u t
  refine ⟨fun hn => by rw [hslept, if_neg hn], fun hreal hz => ?_⟩
  have hpat : (init_matchbufs c.env c.malloc_ok st).pattern.isSome = true := by
    cases hp : (init_matchbufs c.env c.malloc_ok st).pattern with
    | some _ => rfl
    | none =>
      have e := poll_loop_count_of_no_pattern (set_revents u (c.libc.poll u t).1) _
        (c.libc.poll u t).2 hp
      unfold adjusted_count at hz
      rw [e] at hz
      rw [hz] at hreal
      exact absurd hreal (by decide)
  rw [if_pos ⟨hreal, hz⟩, if_pos hpat] at hslept
  rw [if_pos hreal] at hret
  refine ⟨hret.trans hz, hcalls, ?_, ?_, ?_⟩
  · intro ht
    rw [hslept]
    unfold emulate_timeout
    rw [if_pos ht]
    rfl
  · intro ht he hmax
    have hpos : 0 ≤ t - (now c.t1 - now c.t0) := by omega
    refine ⟨?_, by omega, by omega, by omega⟩
    rw [hslept]
    unfold emulate_timeout
    rw [if_neg (not_lt.2 ht), if_pos he]
    simp only
    rw [to_int_of_range (by omega) hmax, Int.tdiv_eq_ediv hpos (by omega), Int.tmod_eq_emod hpos (by omega)]
  · intro ht he
    rw [hslept]
    unfold emulate_timeout
    rw [if_neg (not_lt.2 ht), if_neg (not_lt.2 he)]

/-! ## Claims -/

/-- C1 at a negative handle: after a `poll` whose array holds an entry with
`fd = -1` (which the real `poll` ignores) next to a ready descriptor, a
non-exempt `writev(-1, ...)` under write-mocking returns -1 with
`errno = EAGAIN` and makes no call to the real implementation, although -1 is
not within `0..MAX_FD`. -/
theorem C1_negative_fd_would_block :
    observe (run_then State.init [(ctx_w2, .poll [⟨-1, 4, 0⟩, ⟨5, 4, 0⟩] 0)] ctx_w2
      (.writev (-1) [⟨100, 5⟩])) = some (-1, some EAGAIN, []) := by
  decide

/-- C2: vectorized-write truncation.  For every non-exempt `writev(fd, iov)`
with write-mocking on, `fd` tracked and polled and `POLLOUT` set in
`active_fds[fd]`, made in statics whose pattern configuration is consistent and
with the allocation of the window succeeding if the call makes one (a pattern
is configured and `fd` has no window yet): if `seg` is the first segment
with a non-null base and a non-zero length, the wrapper calls the real `writev`
exactly once, with the single segment `{seg.iov_base, 1}`, returns its value,
assigns no `errno`, clears `POLLOUT` in `active_fds[fd]` and keeps every other bit
of that mask, every other mask and the polled flags; if no segment is
non-empty, the wrapper forwards the original `iov` and leaves the tables as they
are. -/
theorem C2_writev_truncation (c : Ctx) (st : State) (fd : Int) (iov : List iovec)
    (hwl : c.wl = 0) (hm : mode_on c st .write) (hfd : 0 ≤ fd ∧ fd ≤ MAX_FD)
    (hpo : st.polled_fds fd ≠ 0) (hbit : Int.land (st.active_fds fd) POLLOUT ≠ 0)
    (hwf : st.wf)
    (halloc : st.pattern ≠ none → window st fd = none → c.malloc_ok = true) :
    (∀ (pre : List iovec) (seg : iovec) (post : List iovec), iov = pre ++ seg :: post →
        (∀ s ∈ pre, s.iov_base = 0 ∨ s.iov_len = 0) → seg.iov_base ≠ 0 → seg.iov_len ≠ 0 →
        ∃ r, writev c st fd iov = .ok r
          ∧ r.calls = [.writev fd [⟨seg.iov_base, 1⟩]]
          ∧ r.retval = c.libc.writev fd [⟨seg.iov_base, 1⟩]
          ∧ r.errno = none
          ∧ Int.land (r.st.active_fds fd) POLLOUT = 0
          ∧ (∀ i, Int.testBit (r.st.active_fds fd) i
              = (Int.testBit (st.active_fds fd) i && !Int.testBit POLLOUT i))
          ∧ (∀ j, j ≠ fd → r.st.active_fds j = st.active_fds j)
          ∧ r.st.polled_fds = st.polled_fds)
      ∧ ((∀ s ∈ iov, s.iov_base = 0 ∨ s.iov_len = 0) →
        ∃ st1, writev c st fd iov = .ok (forward c.libc st1 (.writev fd iov))
          ∧ same_tables st st1
          ∧ (forward c.libc st1 (.writev fd iov)).calls = [.writev fd iov]) := by
  have hnb : ¬ (Int.land (get_mocking_type c.env st).1 MOCKING_WRITES ≠ 0 ∧ fd ≤ MAX_FD
      ∧ st.polled_fds fd ≠ 0 ∧ Int.land (st.active_fds fd) POLLOUT = 0) :=
    fun h => hbit h.2.2.2
  constructor
  · intro pre seg post hiov hpre hb hl
    have ht : truncate_iov iov = ⟨seg.iov_base, 1⟩ := by
      rw [hiov]; exact truncate_iov_first pre seg post hpre hb hl
    have htc : trunc_cond c st .write fd (.writev fd iov) :=
      ⟨hm, hfd.2, hpo, hbit, by simp [Call.has_payload, ht, hb]⟩
    have hok : ∃ r, writev c st fd iov = .ok r := by
      rw [writev_eq, if_neg (by simp [hwl]), if_neg hnb,
        if_pos ⟨hm, hfd.2, hpo, by simp [ht, hb]⟩]
      cases hpat : st.pattern with
      | none => exact ⟨_, rfl⟩
      | some pat =>
        obtain ⟨st2, h2⟩ := writev_match_ok c.malloc_ok pat (c.mem (truncate_iov iov).iov_base)
          (get_mocking_type c.env st).2 fd (by simpa using (hwf pat hpat).1)
          (fun hn => halloc (by rw [hpat]; simp)
            (by unfold window at hn ⊢; rw [gmt_matchbufs] at hn; exact hn))
        simp only [h2]
        exact ⟨_, rfl⟩
    obtain ⟨r, hr⟩ := hok
    have hstep : step c st (.writev fd iov) = .ok r := hr
    obtain ⟨t1, t2, t3, t4, t5, _⟩ := step_trunc (k := .writev fd iov) rfl hwl htc hstep
    refine ⟨r, hr, ?_, ?_, t3, ?_, ?_, ?_, t5⟩
    · rw [t1]; simp [Call.truncated, ht]
    · rw [t2]; simp [Call.truncated, ht, forward]
    · rw [t4, upd_same]; exact land_and_not_self _ _
    · intro i
      rw [t4, upd_same]
      exact testBit_and_not _ _ _
    · intro j hj
      rw [t4, upd_other _ _ hj]
  · intro hall
    have ht : truncate_iov iov = ⟨0, 0⟩ := truncate_iov_empty iov hall
    refine ⟨(get_mocking_type c.env st).2, ?_, get_mocking_type_same_tables _ _,
      forward_calls _ _ _⟩
    rw [writev_eq, if_neg (by simp [hwl]), if_neg hnb, if_neg (by simp [ht])]

theorem C2_writev_truncation_witness :
    ctx_pat.wl = 0 ∧ (0 : Int) ≤ 3 ∧ (3 : Int) ≤ MAX_FD ∧ polled_state.polled_fds 3 ≠ 0
      ∧ Int.land (polled_state.active_fds 3) POLLOUT ≠ 0 ∧ polled_state.wf
      ∧ ctx_pat.malloc_ok = true
      ∧ ∃ r, writev ctx_pat polled_state 3 [⟨0, 7⟩, ⟨200, 0⟩, ⟨300, 5⟩, ⟨400, 2⟩] = .ok r
          ∧ r.calls = [.writev 3 [⟨300, 1⟩]] ∧ Int.land (r.st.active_fds 3) POLLOUT = 0 :=
  ⟨rfl, by decide, by decide, by decide, by decide, (reachable_inv polled_state_reachable).1,
    rfl,
    let ⟨r, h1, h2, _, _, h5, _⟩ :=
      (C2_writev_truncation ctx_pat polled_state 3 [⟨0, 7⟩, ⟨200, 0⟩, ⟨300, 5⟩, ⟨400, 2⟩]
        rfl (by unfold mode_on; decide) ⟨by decide, by decide⟩ (by decide) (by decide)
        (reachable_inv polled_state_reachable).1 (fun _ _ => rfl)).1
        [⟨0, 7⟩, ⟨200, 0⟩] ⟨300, 5⟩ [⟨400, 2⟩] rfl (by decide) (by decide) (by decide)
    ⟨r, h1, h2, h5⟩⟩

/-- C3: second call would-blocks.  For a tracked descriptor `fd` and a direction
`d`: let a non-exempt call `k1` of direction `d` on `fd` be mocked and truncated
to one byte (`trunc_cond`: mode flag on, `fd` polled, readiness bit set, payload
non-empty) and succeed, returning 1.  Then that call passed its one-byte
request to the real implementation, and after any calls `mid` among which is no
`poll`, `close` or `socket` call on `fd`, the next non-exempt call `k2` of
direction `d` on `fd` returns -1 with `errno = EAGAIN`, makes no call to the real
implementation and leaves the statics as they are. -/
theorem C3_second_call_would_block (c1 c2 : Ctx) (st st2 : State) (k1 k2 : Call) (d : Dir)
    (fd : Int) (r1 : Result) (mid : List (Ctx × Call))
    (hfd : 0 ≤ fd ∧ fd ≤ MAX_FD)
    (hk1 : k1.transfer = some (d, fd)) (hk2 : k2.transfer = some (d, fd))
    (hwl1 : c1.wl = 0) (hwl2 : c2.wl = 0)
    (htr : trunc_cond c1 st d fd k1)
    (h1 : step c1 st k1 = .ok r1) (_hsucc : r1.retval = 1)
    (hmid : ∀ x ∈ mid, ¬ resets x.1 fd x.2)
    (hrun : run r1.st mid = .ok st2) :
    r1.calls = [k1.truncated]
      ∧ step c2 st2 k2 = .ok (would_block st2)
      ∧ (would_block st2).retval = -1 ∧ (would_block st2).errno = some EAGAIN
      ∧ (would_block st2).calls = [] ∧ (would_block st2).st = st2 :=
  ⟨(step_trunc hk1 hwl1 htr h1).1,
    step_of_blocked hk2 hwl2 hfd.2
      (run_keeps_blocked mid hmid hrun (step_trunc_blocked hk1 hwl1 htr h1)),
    rfl, rfl, rfl, rfl⟩

theorem C3_second_call_would_block_witness :
    trunc_cond ctx_w (sample_state 5 4) .write 5 (.send 5 100 10 0)
      ∧ step ctx_w (send ctx_w (sample_state 5 4) 5 100 10 0).st (.writev 5 [⟨100, 3⟩])
          = .ok (would_block (send ctx_w (sample_state 5 4) 5 100 10 0).st) :=
  have htr : trunc_cond ctx_w (sample_state 5 4) .write 5 (.send 5 100 10 0) := by
    unfold trunc_cond mode_on Call.has_payload
    decide
  ⟨htr,
    (C3_second_call_would_block ctx_w ctx_w (sample_state 5 4) _ (.send 5 100 10 0)
      (.writev 5 [⟨100, 3⟩]) .write 5 (send ctx_w (sample_state 5 4) 5 100 10 0) []
      ⟨by decide, by decide⟩ rfl rfl rfl rfl htr rfl rfl (by simp) rfl).2.1⟩

/-- C4 as stated fails after an exempt `close`.  Descriptor 5 is listed in a
`poll` that reports nothing for it, which sets its polled flag with an empty
mask; an exempt caller then closes it, which leaves the record as it is; the
next non-exempt `send` on 5, made before any further `poll`, is answered with -1
and `errno = EAGAIN` without a call to the real `send`.  After a non-exempt
`close(5)` the same `send` is forwarded as it is. -/
theorem C4_counterexample :
    ctx_exempt.wl ≠ 0 ∧ ctx_w.wl = 0
      ∧ (poll ctx_w2 State.init [⟨5, 4, 0⟩, ⟨6, 4, 0⟩] 0).st.polled_fds 5 = 1
      ∧ (close ctx_exempt (poll ctx_w2 State.init [⟨5, 4, 0⟩, ⟨6, 4, 0⟩] 0).st 5).st.polled_fds 5
          = 1
      ∧ observe (run_then State.init
          [(ctx_w2, .poll [⟨5, 4, 0⟩, ⟨6, 4, 0⟩] 0), (ctx_exempt, .close 5)] ctx_w
          (.send 5 100 10 0)) = some (-1, some EAGAIN, [])
      ∧ (close ctx_w (poll ctx_w2 State.init [⟨5, 4, 0⟩, ⟨6, 4, 0⟩] 0).st 5).st.polled_fds 5 = 0
      ∧ observe (run_then State.init
          [(ctx_w2, .poll [⟨5, 4, 0⟩, ⟨6, 4, 0⟩] 0), (ctx_w, .close 5)] ctx_w
          (.send 5 100 10 0)) = some (1, none, [.send 5 100 10 0]) := by
  decide

/-- C4: no mocking before the first readiness wait.  For every mocking mode,
every caller and every transfer call `k` on a descriptor `fd` whose polled flag
is clear (or which lies above `MAX_FD`, where no flag is consulted): the call
makes exactly the call `k` to the real implementation, returns its value,
assigns no `errno` and leaves the tables, windows and pattern statics as they
are (the result is `forward` on statics that are `same_tables` with those
before the call).  The polled flag of `fd` is
clear at process start, after a `socket` call that returns `fd`, after a
non-exempt `close(fd)`, and stays clear along any calls among which is no `poll`
with an entry for `fd`. -/
theorem C4_no_mocking_before_first_poll (c : Ctx) (st : State) (k : Call) (d : Dir) (fd : Int)
    (hk : k.transfer = some (d, fd)) :
    ((fd ≤ MAX_FD → st.polled_fds fd = 0) →
        ∃ st1, step c st k = .ok (forward c.libc st1 k) ∧ same_tables st st1
          ∧ (forward c.libc st1 k).calls = [k] ∧ (forward c.libc st1 k).errno = none
          ∧ (forward c.libc st1 k).st = st1)
      ∧ State.init.polled_fds fd = 0
      ∧ (∀ (c0 : Ctx) (st0 : State) (dm t p : Int), c0.libc.socket dm t p = fd →
          fd ≤ MAX_FD → (socket c0 st0 dm t p).st.polled_fds fd = 0)
      ∧ (∀ (c0 : Ctx) (st0 : State), c0.wl = 0 → fd ≤ MAX_FD →
          (close c0 st0 fd).st.polled_fds fd = 0)
      ∧ (∀ (st0 : State) (mid : List (Ctx × Call)), st0.polled_fds fd = 0 →
          (∀ x ∈ mid, ¬ polls fd x.2) → run st0 mid = .ok st → st.polled_fds fd = 0) := by
  refine ⟨?_, rfl, ?_, ?_, ?_⟩
  · intro hp
    obtain ⟨st1, h1, h2⟩ := step_unpolled c st k d fd hk hp
    exact ⟨st1, h1, h2, forward_calls _ _ _, forward_errno _ _ _, forward_st _ _ _⟩
  · intro c0 st0 dm t p hs hle
    rw [socket_st, hs, if_pos hle]
    simp
  · intro c0 st0 hwl hle
    rw [close_st, if_neg (by simp [hwl]), if_pos hle]
    simp
  · intro st0 mid h0 hmid hrun
    exact run_polled_clear mid hmid hrun h0

theorem C4_no_mocking_before_first_poll_witness :
    (Call.recv 7 100 10 0).transfer = some (.read, 7)
      ∧ ∃ st1, step ctx_rw State.init (.recv 7 100 10 0)
          = .ok (forward ctx_rw.libc st1 (.recv 7 100 10 0)) ∧ same_tables State.init st1 :=
  ⟨rfl,
    let ⟨st1, h1, h2, _⟩ :=
      (C4_no_mocking_before_first_poll ctx_rw State.init (.recv 7 100 10 0) .read 7 rfl).1
        (fun _ => rfl)
    ⟨st1, h1, h2⟩⟩

/-- C5 as stated fails for a zero byte.  Under the pattern `"AB"`, descriptor 3
is created and three mocked truncated `writev` calls (each passing one byte to
the real `writev` and returning 1) feed the bytes `'A'`, 0 and `'B'`; the stall
flag of the descriptor is then set although neither two-byte window of the
bytes fed equals the pattern. -/
theorem C5_counterexample :
    trace State.init zero_byte_calls
        = [some (3, none, [.socket 2 1 0]),
            some (1, none, [.poll [⟨3, 4, 0⟩] 0]), some (1, none, [.writev 3 [⟨100, 1⟩]]),
            some (1, none, [.poll [⟨3, 4, 0⟩] 0]), some (1, none, [.writev 3 [⟨100, 1⟩]]),
            some (1, none, [.poll [⟨3, 4, 0⟩] 0]), some (1, none, [.writev 3 [⟨100, 1⟩]])]
      ∧ stall_flag_3 (run State.init zero_byte_calls) = some 1
      ∧ ¬ ∃ k, 2 ≤ k ∧ k ≤ 3 ∧ (([65, 0, 66] : List Nat).take k).drop (k - 2) = [65, 66] := by
  refine ⟨by decide, by decide, ?_⟩
  rintro ⟨k, h1, h2, h3⟩
  interval_cases k <;> simp at h3

/-- C5, amended: pattern stall is set exactly on a full-window match, for
non-zero bytes.  For every configured pattern `pat` (of length L >= 1) and every
sequence `bs` of non-zero bytes fed one at a time by mocked truncated `writev`
calls on one descriptor `fd`, starting from statics in which `fd` is fresh (no
window, stall flag clear): the write-stall flag of `fd` is set after the last
feed if and only if there is some `k` with L <= k <= n such that the bytes
`b(k-L+1)..bk` equal the pattern byte for byte; in particular it is not set
before the L-th byte has been fed. -/
theorem C5_stall_iff_window_match (fd : Int) (st0 st : State) (pat bs : List Nat)
    (hwf : st0.wf) (hpat : st0.pattern = some pat)
    (hfresh : window st0 fd = none ∧ st0.snd_timeout_fds fd = 0)
    (hbz : ∀ b ∈ bs, b ≠ 0) (hrun : FeedRun fd st0 bs st) :
    (st.snd_timeout_fds fd ≠ 0 ↔
        ∃ k, pat.length ≤ k ∧ k ≤ bs.length ∧ (bs.take k).drop (k - pat.length) = pat)
      ∧ (bs.length < pat.length → st.snd_timeout_fds fd = 0) := by
  obtain ⟨_, hlen, hne⟩ := hwf pat hpat
  have hL : 1 ≤ pat.length := List.length_pos.2 hne
  have h0 : fed pat fd [] st0 := by
    refine ⟨hpat, hlen, by rw [if_pos rfl]; exact hfresh.1, ?_⟩
    constructor
    · intro h; exact absurd hfresh.2 h
    · rintro ⟨k, h1, h2, _⟩
      simp only [List.length_nil, Nat.le_zero_eq] at h2
      omega
  obtain ⟨_, _, _, h4⟩ := feed_run_fed hL hrun h0 hbz
  refine ⟨h4, ?_⟩
  intro hlt
  by_contra hne0
  obtain ⟨k, h1, h2, _⟩ := h4.1 hne0
  omega

theorem C5_stall_iff_window_match_witness :
    polled_state.pattern = some [65]
      ∧ (window polled_state 3 = none ∧ polled_state.snd_timeout_fds 3 = 0)
      ∧ FeedRun 3 polled_state [65] fed_result.st
      ∧ (fed_result.st.snd_timeout_fds 3 ≠ 0 ↔
          ∃ k, ([65] : List Nat).length ≤ k ∧ k ≤ ([65] : List Nat).length
            ∧ (([65] : List Nat).take k).drop (k - ([65] : List Nat).length) = [65]) :=
  have hrun : FeedRun 3 polled_state [65] fed_result.st :=
    FeedRun.feed ctx_pat [⟨100, 5⟩] fed_result (FeedRun.start polled_state)
      ⟨rfl, rfl, rfl, rfl⟩ rfl (by unfold trunc_cond mode_on Call.has_payload; decide) rfl
  ⟨rfl, ⟨by decide, by decide⟩, hrun,
    (C5_stall_iff_window_match 3 polled_state fed_result.st [65] [65]
      (reachable_inv polled_state_reachable).1 rfl ⟨by decide, by decide⟩ (by decide) hrun).1⟩

/-- C6: write-readiness is stripped for stalled descriptors.  For every `poll`
call made in reachable statics in which the real `poll` returns a count > 0,
the array handed back corresponds entry by entry to the array the real call
left (`p` the real entry, `q` the one handed back): `fd` and `events` are those
of `p`; if `p.fd` is within `0..MAX_FD`, not exempt and write-stalled, then
`q.revents` does not contain `POLLOUT` and every bit of it other than `POLLOUT` is
that of `p.revents`; and if the descriptor is not stalled, or exempt, or above
`MAX_FD`, then `q = p`. -/
theorem C6_poll_strips_stalled_write_readiness (c : Ctx) (st : State) (u : List pollfd)
    (t : Int) (hr : Reachable st) (hpos : (c.libc.poll u t).2 > 0) :
    List.Forall₂
      (fun p q =>
        q.fd = p.fd ∧ q.events = p.events
          ∧ (0 ≤ p.fd ∧ p.fd ≤ MAX_FD ∧ st.weird_fds p.fd = 0 ∧ st.snd_timeout_fds p.fd ≠ 0 →
              Int.land q.revents POLLOUT = 0
                ∧ ∀ i, Int.testBit q.revents i
                    = (Int.testBit p.revents i && !Int.testBit POLLOUT i))
          ∧ (st.snd_timeout_fds p.fd = 0 ∨ st.weird_fds p.fd ≠ 0 ∨ p.fd > MAX_FD → q = p))
      (set_revents u (c.libc.poll u t).1) (poll c st u t).ufds := by
  rw [poll_ufds, if_pos hpos]
  obtain ⟨hwf, hst⟩ := reachable_inv hr
  have hpat : ∀ fd, st.snd_timeout_fds fd ≠ 0 →
      (init_matchbufs c.env c.malloc_ok st).pattern.isSome = true := by
    intro fd hfd
    rw [init_matchbufs_of_pattern c.env c.malloc_ok hwf (hst fd hfd)]
    exact Option.isSome_iff_ne_none.2 (hst fd hfd)
  rw [List.forall₂_map_right_iff]
  apply List.forall₂_same.2
  intro p _
  rw [returned_entry_eq]
  simp only [init_matchbufs_weird, init_matchbufs_snd_timeout]
  refine ⟨?_, ?_, ?_, ?_⟩
  · split
    · rfl
    · split <;> rfl
  · split
    · rfl
    · split <;> rfl
  · rintro ⟨_, hle, hw, hs⟩
    rw [if_neg (by simp [hw, not_lt.2 hle]), if_pos ⟨hpat _ hs, hs⟩]
    exact ⟨land_and_not_self _ _, fun i => testBit_and_not _ _ _⟩
  · rintro (hs | hw | hgt)
    · split
      · rfl
      · rw [if_neg (fun h => h.2 hs)]
    · rw [if_pos (Or.inr hw)]
    · rw [if_pos (Or.inl hgt)]

theorem C6_poll_strips_stalled_write_readiness_witness :
    Reachable stalled_state ∧ (ctx_pat.libc.poll [⟨3, 5, 0⟩] 0).2 > 0
      ∧ stalled_state.snd_timeout_fds 3 ≠ 0
      ∧ ∃ q, (poll ctx_pat stalled_state [⟨3, 5, 0⟩] 0).ufds = [q]
          ∧ Int.land q.revents POLLOUT = 0 := by
  have h := C6_poll_strips_stalled_write_readiness ctx_pat stalled_state [⟨3, 5, 0⟩] 0
    stalled_state_reachable (by decide)
  refine ⟨stalled_state_reachable, by decide, by decide, ?_⟩
  have hreal : set_revents [⟨3, 5, 0⟩] (ctx_pat.libc.poll [⟨3, 5, 0⟩] 0).1 = [⟨3, 5, 5⟩] := rfl
  rw [hreal] at h
  obtain ⟨q, rest, hq, hrest, hu⟩ := List.forall₂_cons_left_iff.1 h
  rw [List.forall₂_nil_left_iff] at hrest
  subst hrest
  exact ⟨q, hu, (hq.2.2.1 ⟨by decide, by decide, by decide, by decide⟩).1⟩

/-- C7 as stated fails in two ways.  (1) On the stalled descriptor 3, whose
recorded mask is `POLLIN`, a `poll` for which the real call reports `POLLOUT`
hands back `revents = 0` and returns 0, and the recorded mask is still `POLLIN`:
the emptied entry is not recorded.  (2) When an array lists descriptor 5 twice
and the real call reports `POLLIN` for the first entry and `POLLOUT` for the
second, the first entry is handed back with `revents = POLLIN` while the mask
recorded is that of the second, `POLLOUT`. -/
theorem C7_counterexample :
    ((ctx_pat_out.libc.poll [⟨3, 4, 0⟩] 0).2 > 0
        ∧ stalled_state.weird_fds 3 = 0
        ∧ (poll ctx_pat_out stalled_state [⟨3, 4, 0⟩] 0).ufds = [⟨3, 4, 0⟩]
        ∧ (poll ctx_pat_out stalled_state [⟨3, 4, 0⟩] 0).retval = 0
        ∧ (poll ctx_pat_out stalled_state [⟨3, 4, 0⟩] 0).st.active_fds 3 = 1)
      ∧ ((ctx_dup.libc.poll [⟨5, 1, 0⟩, ⟨5, 4, 0⟩] 0).2 > 0
        ∧ State.init.weird_fds 5 = 0
        ∧ (poll ctx_dup State.init [⟨5, 1, 0⟩, ⟨5, 4, 0⟩] 0).ufds = [⟨5, 1, 1⟩, ⟨5, 4, 4⟩]
        ∧ (poll ctx_dup State.init [⟨5, 1, 0⟩, ⟨5, 4, 0⟩] 0).st.active_fds 5 = 4) := by
  decide

/-- C7, amended: `poll` records what it returns for the last entry of a
descriptor, unless suppression emptied it.  For every `poll` call in which the
real `poll` returns a count > 0 and every entry `p` of the real array whose `fd`
is within `0..MAX_FD` and not exempt and which is the last entry of the array
with that `fd`: the entry `q` handed back in its place has the same `fd`, and
unless `q.revents` is 0 while `p.revents` is not (the entry was emptied by
write-stall suppression), `active_fds[fd]` equals `q.revents` and `polled_fds[fd]`
is 1 after the call. -/
theorem C7_poll_records_last_entry (c : Ctx) (st : State) (u : List pollfd) (t : Int)
    (pre post : List pollfd) (p : pollfd)
    (hpos : (c.libc.poll u t).2 > 0)
    (hreal : set_revents u (c.libc.poll u t).1 = pre ++ p :: post)
    (hlast : ∀ x ∈ post, x.fd ≠ p.fd)
    (hfd : 0 ≤ p.fd ∧ p.fd ≤ MAX_FD) (hw : st.weird_fds p.fd = 0) :
    ∃ q, (poll c st u t).ufds[pre.length]? = some q ∧ q.fd = p.fd
      ∧ ((q.revents = 0 → p.revents = 0) →
          (poll c st u t).st.active_fds p.fd = q.revents
            ∧ (poll c st u t).st.polled_fds p.fd = 1) := by
  have hu : (poll c st u t).ufds
      = (pre ++ p :: post).map (returned_entry (init_matchbufs c.env c.malloc_ok st)) := by
    rw [poll_ufds, if_pos hpos, hreal]
  have hs : (poll c st u t).st
      = (poll_loop (pre ++ p :: post) (init_matchbufs c.env c.malloc_ok st)
          (c.libc.poll u t).2).2.1 := by
    rw [poll_st, if_pos hpos, hreal]
  rw [hu, hs, poll_loop_append]
  generalize hA : poll_loop pre (init_matchbufs c.env c.malloc_ok st) (c.libc.poll u t).2 = A
  obtain ⟨s1, s2, s3, _⟩ := poll_loop_static pre (init_matchbufs c.env c.malloc_ok st)
    (c.libc.poll u t).2
  rw [hA] at s1 s2 s3
  have hAw : A.2.1.weird_fds p.fd = 0 := by
    rw [s1]
    simpa using hw
  have hq : (poll_entry p A.2.1 A.2.2).1
      = returned_entry (init_matchbufs c.env c.malloc_ok st) p :=
    poll_entry_fst_congr p 0 A.2.2 s1 s2 s3
  simp only [poll_loop]
  refine ⟨returned_entry (init_matchbufs c.env c.malloc_ok st) p, ?_, ?_, ?_⟩
  · rw [List.map_append, List.getElem?_append_right (by simp)]
    simp
  · rw [returned_entry_eq]
    split
    · rfl
    · split <;> rfl
  · intro hne
    obtain ⟨a1, a2⟩ := poll_loop_other post (poll_entry p A.2.1 A.2.2).2.1
      (poll_entry p A.2.1 A.2.2).2.2 hlast
    rw [a1, a2, ← hq]
    rw [← hq] at hne
    rcases poll_entry_records p A.2.1 A.2.2 hfd.2 hAw with ⟨h1, h2, _⟩ | h
    · exact absurd (hne h1) h2
    · exact h

theorem C7_poll_records_last_entry_witness :
    (ctx_pat.libc.poll [⟨3, 5, 0⟩] 0).2 > 0 ∧ stalled_state.weird_fds 3 = 0
      ∧ ∃ q, (poll ctx_pat stalled_state [⟨3, 5, 0⟩] 0).ufds[0]? = some q ∧ q.fd = 3
          ∧ ((q.revents = 0 → (5 : Int) = 0) →
              (poll ctx_pat stalled_state [⟨3, 5, 0⟩] 0).st.active_fds 3 = q.revents
                ∧ (poll ctx_pat stalled_state [⟨3, 5, 0⟩] 0).st.polled_fds 3 = 1) :=
  ⟨by decide, by decide,
    C7_poll_records_last_entry ctx_pat stalled_state [⟨3, 5, 0⟩] 0 [] [] ⟨3, 5, 5⟩
      (by decide) rfl (fun _ h => nomatch h) ⟨by decide, by decide⟩ (by decide)⟩

/-- C8 at a failed `socket` call: with the mocking-mode setting unset and a
pattern configured, `socket` allocates the window table, and when the real
`socket` returns -1 the guard `fd <= MAX_FD` lets the handle through to the test
of `matchbufs[fd]`, which reads in front of the table and frees the word found
there: the call ends in a fault and returns nothing, where the real call
returns -1.  With the real result 3 the call returns 3.  Once the table is
allocated a non-exempt `close(-1)` ends the same way, where `close(3)` returns
the real result.  And whatever the mocking mode, a frame string without `(` and
`+` in the call stack ends `is_whitelist`, which every transfer wrapper and
`close` call first, in a fault when an exemption list is configured. -/
theorem C8_failed_socket_faults :
    mocking_disabled ctx_off_fail.env ∧ mocking_disabled ctx_off_plain.env
      ∧ mocking_disabled (sample_stack "ngx_write" ["[0x401a2b]"]).env
      ∧ ctx_off_fail.libc.socket 2 1 0 = -1
      ∧ observe (step ctx_off_fail State.init (.socket 2 1 0)) = none
      ∧ observe (step ctx_off_plain State.init (.socket 2 1 0))
          = some (3, none, [.socket 2 1 0])
      ∧ observe (run_then State.init [(ctx_off_plain, .socket 2 1 0)] ctx_off_plain
          (.close (-1))) = none
      ∧ observe (run_then State.init [(ctx_off_plain, .socket 2 1 0)] ctx_off_plain
          (.close 3)) = some (0, none, [.close 3])
      ∧ verdict (is_whitelist (sample_stack "ngx_write" ["[0x401a2b]"]) Filter.init) = none :=
  ⟨Or.inl rfl, Or.inl rfl, Or.inl rfl, by decide⟩

/-- C9: exempt callers see unmocked transfers.  For each of `writev`, `send`,
`read`, `recv` and `recvfrom`, every mocking mode and every statics: when
`is_whitelist()` returns non-zero, the wrapper makes exactly the caller's call
to the real implementation, returns its value, assigns no `errno` and leaves
the statics (every table entry and every match window) as they are. -/
theorem C9_exempt_callers_unmocked (c : Ctx) (st : State) (k : Call) (d : Dir) (fd : Int)
    (hk : k.transfer = some (d, fd)) (hwl : c.wl ≠ 0) :
    step c st k = .ok (forward c.libc st k)
      ∧ (forward c.libc st k).st = st ∧ (forward c.libc st k).calls = [k]
      ∧ (forward c.libc st k).errno = none :=
  ⟨step_exempt c st k d fd hk hwl, forward_st _ _ _, forward_calls _ _ _, forward_errno _ _ _⟩

theorem C9_exempt_callers_unmocked_witness :
    (Call.send 5 100 10 0).transfer = some (.write, 5) ∧ ctx_exempt.wl ≠ 0
      ∧ step ctx_exempt (sample_state 5 0) (.send 5 100 10 0)
          = .ok (forward ctx_exempt.libc (sample_state 5 0) (.send 5 100 10 0)) :=
  ⟨rfl, by decide,
    (C9_exempt_callers_unmocked ctx_exempt (sample_state 5 0) (.send 5 100 10 0) .write 5 rfl
      (by decide)).1⟩

/-- C10 at `poll` and `socket`: neither consults `is_whitelist()`.  A `poll` made
by an exempt caller records the readiness mask and sets the polled flag of the
reported descriptor; on the stalled descriptor 3 it hands back `revents = 0` and
returns 0 where the real `poll` reported `POLLOUT` and returned 1; and a `socket`
call made by an exempt caller resets the record of the handle it returns. -/
theorem C10_poll_socket_ignore_exemption :
    ctx_exempt.wl ≠ 0
      ∧ State.init.polled_fds 5 = 0
      ∧ (poll ctx_exempt State.init [⟨5, 4, 0⟩] 0).st.polled_fds 5 = 1
      ∧ (poll ctx_exempt State.init [⟨5, 4, 0⟩] 0).st.active_fds 5 = 4
      ∧ ctx_pat_exempt.wl ≠ 0
      ∧ ctx_pat_exempt.libc.poll [⟨3, 4, 0⟩] 0 = ([4], 1)
      ∧ (poll ctx_pat_exempt stalled_state [⟨3, 4, 0⟩] 0).ufds = [⟨3, 4, 0⟩]
      ∧ (poll ctx_pat_exempt stalled_state [⟨3, 4, 0⟩] 0).retval = 0
      ∧ (sample_state 3 4).polled_fds 3 = 1
      ∧ (socket ctx_exempt (sample_state 3 4) 2 1 0).retval = 3
      ∧ (socket ctx_exempt (sample_state 3 4) 2 1 0).st.polled_fds 3 = 0
      ∧ (socket ctx_exempt (sample_state 3 4) 2 1 0).st.active_fds 3 = 0 := by
  decide

/-- C11: close and reuse reset the record.  For every handle `fd` with
`0 <= fd <= MAX_FD` and every statics `st` (any readiness mask, polled, exempt
and stall flag, any window): after a non-exempt `close(fd)` the readiness mask,
the polled flag, the exempt flag and the write-stall flag of `fd` are zero and
`fd` has no match window; and after a `socket` call that returns `fd`, made in
any statics `st1`, the readiness mask, the polled flag and the write-stall flag
are zero, there is no match window, and the exempt flag is a function of the
type passed to `socket` alone. -/
theorem C11_close_and_reuse_reset (c c1 : Ctx) (st st1 : State) (fd dm t p : Int)
    (hfd : 0 ≤ fd ∧ fd ≤ MAX_FD) (hwl : c.wl = 0) (hs : c1.libc.socket dm t p = fd) :
    ((close c st fd).st.active_fds fd = 0 ∧ (close c st fd).st.polled_fds fd = 0
        ∧ (close c st fd).st.weird_fds fd = 0 ∧ (close c st fd).st.snd_timeout_fds fd = 0
        ∧ window (close c st fd).st fd = none)
      ∧ ((socket c1 st1 dm t p).st.active_fds fd = 0
        ∧ (socket c1 st1 dm t p).st.polled_fds fd = 0
        ∧ (socket c1 st1 dm t p).st.snd_timeout_fds fd = 0
        ∧ window (socket c1 st1 dm t p).st fd = none
        ∧ (socket c1 st1 dm t p).st.weird_fds fd = (if Int.land t SOCK_STREAM = 0 then 1 else 0))
    := by
  refine ⟨close_record c st fd hwl hfd.2, ?_⟩
  have h := socket_record c1 st1 dm t p (by rw [hs]; exact hfd.2)
  rw [hs] at h
  exact h

theorem C11_close_and_reuse_reset_witness :
    ((0 : Int) ≤ 3 ∧ (3 : Int) ≤ MAX_FD) ∧ ctx_pat.wl = 0 ∧ ctx_pat.libc.socket 2 2 0 = 3
      ∧ stalled_state.snd_timeout_fds 3 = 1
      ∧ (close ctx_pat stalled_state 3).st.snd_timeout_fds 3 = 0
      ∧ window (close ctx_pat stalled_state 3).st 3 = none
      ∧ (socket ctx_pat (close ctx_pat stalled_state 3).st 2 2 0).st.polled_fds 3 = 0 :=
  have h := C11_close_and_reuse_reset ctx_pat ctx_pat stalled_state
    (close ctx_pat stalled_state 3).st 3 2 2 0 ⟨by decide, by decide⟩ rfl rfl
  ⟨⟨by decide, by decide⟩, rfl, rfl, by decide, h.1.2.2.2.1, h.1.2.2.2.2, h.2.2.1⟩

/-- C12: exempt descriptors are never mocked.  In every statics reachable from
those at process start by any sequence of intercepted calls, a descriptor whose
exempt flag (`weird_fds`) is set has its polled flag clear; consequently every
transfer call on it, of any caller and under any mocking mode, makes exactly
the caller's call to the real implementation, returns its value, assigns no
`errno` and leaves the tables as they are. -/
theorem C12_exempt_descriptors_never_mocked (st : State) (fd : Int) (hr : Reachable st)
    (hw : st.weird_fds fd ≠ 0) :
    st.polled_fds fd = 0
      ∧ ∀ (c : Ctx) (k : Call) (d : Dir), k.transfer = some (d, fd) →
          ∃ st1, step c st k = .ok (forward c.libc st1 k) ∧ same_tables st st1
            ∧ (forward c.libc st1 k).calls = [k] ∧ (forward c.libc st1 k).errno = none :=
  have hp : st.polled_fds fd = 0 := reachable_exempt_unpolled hr fd hw
  ⟨hp, fun c k d hk =>
    let ⟨st1, h1, h2⟩ := step_unpolled c st k d fd hk (fun _ => hp)
    ⟨st1, h1, h2, forward_calls _ _ _, forward_errno _ _ _⟩⟩

theorem C12_exempt_descriptors_never_mocked_witness :
    Reachable dgram_state ∧ dgram_state.weird_fds 3 ≠ 0 ∧ dgram_state.polled_fds 3 = 0
      ∧ ∃ st1, step ctx_pat dgram_state (.send 3 100 5 0)
          = .ok (forward ctx_pat.libc st1 (.send 3 100 5 0)) ∧ same_tables dgram_state st1 :=
  have h := C12_exempt_descriptors_never_mocked dgram_state 3 dgram_state_reachable (by decide)
  ⟨dgram_state_reachable, by decide, h.1,
    let ⟨st1, h1, h2, _⟩ := h.2 ctx_pat (.send 3 100 5 0) .write rfl
    ⟨st1, h1, h2⟩⟩

/-- C13 at `SOCK_RAW` and `SOCK_SEQPACKET`: the test `!(type & SOCK_STREAM)` looks
at bit 0 of `type`, so a `socket` call of type `SOCK_RAW` (3) or `SOCK_SEQPACKET`
(5) that returns the handle 3 leaves the exempt flag of 3 clear, as for
`SOCK_STREAM` (1), while `SOCK_DGRAM` (2) and `SOCK_RDM` (4) set it. -/
theorem C13_raw_and_seqpacket_not_exempt :
    (socket ctx_w State.init 2 3 0).retval = 3
      ∧ (socket ctx_w State.init 2 3 0).st.weird_fds 3 = 0
      ∧ (socket ctx_w State.init 2 5 0).st.weird_fds 3 = 0
      ∧ (socket ctx_w State.init 2 1 0).st.weird_fds 3 = 0
      ∧ (socket ctx_w State.init 2 2 0).st.weird_fds 3 = 1
      ∧ (socket ctx_w State.init 2 4 0).st.weird_fds 3 = 1 := by
  decide

/-- C14 with a pattern configured: on descriptor 3, polled writable under the
pattern `"A"`, a non-exempt `send` and a non-exempt `writev` of the same buffer
both take the truncated branch, but `writev` creates the match window, stores
the byte `'A'` and sets the write-stall flag, while `send` leaves the descriptor
without a window and with the flag clear. -/
theorem C14_send_skips_pattern_matcher :
    polled_state.pattern = some [65]
      ∧ (send ctx_pat polled_state 3 100 5 0).calls = [.send 3 100 1 0]
      ∧ fed_result.calls = [.writev 3 [⟨100, 1⟩]]
      ∧ observe (writev ctx_pat polled_state 3 [⟨100, 5⟩])
          = some (fed_result.retval, fed_result.errno, fed_result.calls)
      ∧ window fed_result.st 3 = some [65, 0]
      ∧ fed_result.st.snd_timeout_fds 3 = 1
      ∧ window (send ctx_pat polled_state 3 100 5 0).st 3 = none
      ∧ (send ctx_pat polled_state 3 100 5 0).st.snd_timeout_fds 3 = 0 := by
  decide

/-- C15 at a timeout near `INT_MAX`: the remaining time is held in `int diff`.
With the timeout 2147483647 and the clock readings `(0, 999000)` and `(1, 0)`,
for which the elapsed value is `1 - 999 = -998`, a `poll` whose only event is
suppressed computes `2147483647 - (-998)`, which does not fit `int`: the value
wraps to -2147482651 and `select` is handed `tv_sec = -2147482`,
`tv_usec = -651000`, where the remaining time is 2147484 s and 645000 us.  With
the timeout 500 the same call sleeps `tv_sec = 1`, `tv_usec = 498000`. -/
theorem C15_timeout_difference_overflows :
    now ctx_wrap.t1 - now ctx_wrap.t0 = -998
      ∧ (ctx_wrap.libc.poll [⟨3, 4, 0⟩] 2147483647).2 > 0
      ∧ adjusted_count ctx_wrap stalled_state [⟨3, 4, 0⟩] 2147483647 = 0
      ∧ (poll ctx_wrap stalled_state [⟨3, 4, 0⟩] 2147483647).retval = 0
      ∧ to_int (2147483647 - (now ctx_wrap.t1 - now ctx_wrap.t0)) = -2147482651
      ∧ (poll ctx_wrap stalled_state [⟨3, 4, 0⟩] 2147483647).slept
          = some ⟨-2147482, -651000⟩
      ∧ (poll ctx_wrap stalled_state [⟨3, 4, 0⟩] 500).slept = some ⟨1, 498000⟩ := by
  decide

/-- C16 at the handle -1: the guards are `fd <= MAX_FD` only.  A `socket` call
whose real call fails with -1 writes the exempt flag at index -1; a `poll` with
an entry whose `fd` is -1 sets the polled flag at index -1; a `close(-1)` made
thereafter clears it again; and a `send(-1, ...)` made after that `poll` is
answered with -1 and `errno = EAGAIN` without a call to the real `send`. -/
theorem C16_negative_handle_indexes_tables :
    (socket ctx_fail State.init 2 2 0).retval = -1
      ∧ State.init.weird_fds (-1) = 0
      ∧ (socket ctx_fail State.init 2 2 0).st.weird_fds (-1) = 1
      ∧ State.init.polled_fds (-1) = 0
      ∧ (poll ctx_fail State.init [⟨-1, 4, 0⟩, ⟨5, 4, 0⟩] 0).st.polled_fds (-1) = 1
      ∧ (close ctx_fail (poll ctx_fail State.init [⟨-1, 4, 0⟩, ⟨5, 4, 0⟩] 0).st (-1)).st.polled_fds
          (-1) = 0
      ∧ observe (run_then State.init [(ctx_fail, .poll [⟨-1, 4, 0⟩, ⟨5, 4, 0⟩] 0)] ctx_fail
          (.send (-1) 100 5 0)) = some (-1, some EAGAIN, []) := by
  decide

/-- C17: parsing of the mocking mode.  On its first call (no value cached yet)
`get_mocking_type` returns 0 when the setting is unset or empty; for a
non-empty setting `s` it returns the mask whose read bit (0x01) is set iff `s`
contains `r` or `R` and whose write bit (0x02) is set iff `s` contains `w` or
`W` or none of the four letters, and no other bit.  The value is cached: no
sequence of intercepted calls changes it, and in every statics holding it a
call returns it and changes nothing, whatever the setting has become. -/
theorem C17_mocking_mode_parsing (env : Env) (st : State) (h : st.mocking_type < 0) :
    ((env.MOCKEAGAIN = none ∨ env.MOCKEAGAIN = some []) → (get_mocking_type env st).1 = 0)
      ∧ (∀ s, env.MOCKEAGAIN = some s → s ≠ [] →
          (Int.land (get_mocking_type env st).1 MOCKING_READS ≠ 0 ↔ ('r' ∈ s ∨ 'R' ∈ s))
            ∧ (Int.land (get_mocking_type env st).1 MOCKING_WRITES ≠ 0
                ↔ ('w' ∈ s ∨ 'W' ∈ s ∨ ('r' ∉ s ∧ 'R' ∉ s ∧ 'w' ∉ s ∧ 'W' ∉ s)))
            ∧ (get_mocking_type env st).1
                = mode_mask (mentions s 'r' 'R')
                    (mentions s 'w' 'W' || (!mentions s 'r' 'R' && !mentions s 'w' 'W')))
      ∧ (get_mocking_type env st).2.mocking_type = (get_mocking_type env st).1
      ∧ (∀ (env1 : Env) (st1 : State), st1.mocking_type = (get_mocking_type env st).1 →
          get_mocking_type env1 st1 = ((get_mocking_type env st).1, st1))
      ∧ ∀ (ks : List (Ctx × Call)) (st2 : State),
          run (get_mocking_type env st).2 ks = .ok st2 →
            st2.mocking_type = (get_mocking_type env st).1 := by
  refine ⟨?_, ?_, get_mocking_type_snd_mocking_type env st, ?_, ?_⟩
  rotate_right
  · intro ks st2 hrun
    rw [run_mocking_type ks
      (by rw [get_mocking_type_snd_mocking_type]; exact get_mocking_type_nonneg env st) hrun,
      get_mocking_type_snd_mocking_type]
  · intro he
    unfold get_mocking_type
    rw [if_neg (not_le.2 h)]
    rcases he with he | he <;> rw [he]
  · intro s he hs
    have e := get_mocking_type_first env st s h he hs
    have hr := mentions_iff s 'r' 'R'
    have hw := mentions_iff s 'w' 'W'
    refine ⟨?_, ?_, e⟩
    · rw [e, ← hr]
      cases mentions s 'r' 'R' <;> cases mentions s 'w' 'W' <;> decide
    · have hn : ('r' ∉ s ∧ 'R' ∉ s ∧ 'w' ∉ s ∧ 'W' ∉ s)
          ↔ (¬ ('r' ∈ s ∨ 'R' ∈ s) ∧ ¬ ('w' ∈ s ∨ 'W' ∈ s)) := by
        constructor
        · rintro ⟨a, b, c1, d⟩
          exact ⟨fun x => x.elim a b, fun x => x.elim c1 d⟩
        · rintro ⟨a, b⟩
          exact ⟨fun x => a (Or.inl x), fun x => a (Or.inr x), fun x => b (Or.inl x),
            fun x => b (Or.inr x)⟩
      have hw3 : ('w' ∈ s ∨ 'W' ∈ s ∨ ('r' ∉ s ∧ 'R' ∉ s ∧ 'w' ∉ s ∧ 'W' ∉ s))
          ↔ (('w' ∈ s ∨ 'W' ∈ s) ∨ ('r' ∉ s ∧ 'R' ∉ s ∧ 'w' ∉ s ∧ 'W' ∉ s)) := by
        rw [or_assoc]
      rw [e, hw3, hn, ← hr, ← hw]
      cases mentions s 'r' 'R' <;> cases mentions s 'w' 'W' <;> decide
  · intro env1 st1 h1
    rw [get_mocking_type_of_nonneg env1 st1 (by rw [h1]; exact get_mocking_type_nonneg env st),
      h1]

theorem C17_mocking_mode_parsing_witness :
    State.init.mocking_type < 0
      ∧ (get_mocking_type ⟨some ['x', 'R'], none, none⟩ State.init).1 = 1
      ∧ (get_mocking_type ⟨some ['x'], none, none⟩ State.init).1 = 2
      ∧ (get_mocking_type ⟨some ['w', 'r'], none, none⟩ State.init).1 = 3
      ∧ (get_mocking_type ⟨some [], none, none⟩ State.init).1 = 0
      ∧ (Int.land (get_mocking_type ⟨some ['x', 'R'], none, none⟩ State.init).1 MOCKING_READS ≠ 0
          ↔ ('r' ∈ ['x', 'R'] ∨ 'R' ∈ ['x', 'R'])) :=
  ⟨by decide, by decide, by decide, by decide, by decide,
    ((C17_mocking_mode_parsing ⟨some ['x', 'R'], none, none⟩ State.init (by decide)).2.1
      ['x', 'R'] rfl (by decide)).1⟩

/-- C18 at a failing allocation: on descriptor 3, polled writable, without a
window and with the pattern `"A"` configured, a non-exempt `writev` takes the
truncated branch; when `malloc` returns `NULL` the pattern block passes the null
pointer to `memset` and the call ends in a fault, with no call made to the real
`writev` and nothing returned. -/
theorem C18_failed_allocation_faults :
    ctx_pat_nomem.malloc_ok = false
      ∧ polled_state.pattern = some [65]
      ∧ window polled_state 3 = none
      ∧ polled_state.polled_fds 3 = 1
      ∧ Int.land (polled_state.active_fds 3) POLLOUT ≠ 0
      ∧ observe (writev ctx_pat_nomem polled_state 3 [⟨100, 5⟩]) = none
      ∧ observe (writev ctx_pat polled_state 3 [⟨100, 5⟩])
          = some (1, none, [.writev 3 [⟨100, 1⟩]]) := by
  decide

/-- C19, counterexample: a truncated `writev` whose real call fails and a
truncated `send` whose real call transfers nothing still change the record of
the descriptor.  Descriptor 3 is polled with `POLLOUT` set, has no window and is
not stalled; the real `writev` returns -1 for the one-byte request, the wrapper
returns -1, and afterwards `POLLOUT` is clear, the byte `'A'` is in the window
and the stall flag is set.  The real `send` returns 0, the wrapper returns 0,
and afterwards `POLLOUT` is clear. -/
theorem C19_counterexample :
    ctx_pat_fail.wl = 0 ∧ polled_state.polled_fds 3 = 1
      ∧ Int.land (polled_state.active_fds 3) POLLOUT ≠ 0
      ∧ window polled_state 3 = none ∧ polled_state.snd_timeout_fds 3 = 0
      ∧ observe (writev ctx_pat_fail polled_state 3 [⟨100, 5⟩])
          = some (-1, none, [.writev 3 [⟨100, 1⟩]])
      ∧ Int.land (failed_result.st.active_fds 3) POLLOUT = 0
      ∧ window failed_result.st 3 = some [65, 0]
      ∧ failed_result.st.snd_timeout_fds 3 = 1
      ∧ (send ctx_pat_fail polled_state 3 100 5 0).retval = 0
      ∧ (send ctx_pat_fail polled_state 3 100 5 0).calls = [.send 3 100 1 0]
      ∧ Int.land ((send ctx_pat_fail polled_state 3 100 5 0).st.active_fds 3) POLLOUT = 0 := by
  decide

/-- C19, amended: the record is updated whatever the real call returns.  For
every non-exempt transfer call that is truncated to one byte, made in statics
whose pattern configuration is consistent and with the allocation of a missing
window succeeding: the wrapper calls the real implementation once with the
one-byte request, returns its value unchanged and assigns no `errno`; the
readiness bit of the direction is cleared; and the statics after the call are
the same whatever the real implementation is, hence the same after a failed or
empty transfer as after a transferred byte. -/
theorem C19_record_updated_whatever_the_result (c : Ctx) (libc1 : Libc) (st : State) (k : Call)
    (d : Dir) (fd : Int) (hk : k.transfer = some (d, fd)) (hwl : c.wl = 0)
    (ht : trunc_cond c st d fd k) (hwf : st.wf)
    (halloc : st.pattern ≠ none → window st fd = none → c.malloc_ok = true) :
    ∃ r r1, step c st k = .ok r ∧ step { c with libc := libc1 } st k = .ok r1
      ∧ r.calls = [k.truncated] ∧ r.retval = (forward c.libc st k.truncated).retval
      ∧ r.errno = none
      ∧ r1.calls = [k.truncated] ∧ r1.retval = (forward libc1 st k.truncated).retval
      ∧ Int.land (r.st.active_fds fd) d.bit = 0
      ∧ r1.st = r.st := by
  obtain ⟨r, hr⟩ := step_trunc_returns hk hwl ht hwf halloc
  obtain ⟨r1, hr1, hst⟩ := step_st_libc libc1 hk hr
  obtain ⟨t1, t2, t3, t4, _, _⟩ := step_trunc hk hwl ht hr
  obtain ⟨s1, s2, _⟩ := step_trunc (c := { c with libc := libc1 }) hk hwl ht hr1
  exact ⟨r, r1, hr, hr1, t1, t2, t3, s1, s2,
    by rw [t4, upd_same]; exact land_and_not_self _ _, hst⟩

theorem C19_record_updated_whatever_the_result_witness :
    ctx_pat_fail.wl = 0 ∧ trunc_cond ctx_pat_fail polled_state .write 3 (.writev 3 [⟨100, 5⟩])
      ∧ polled_state.wf ∧ ctx_pat_fail.malloc_ok = true
      ∧ ∃ r r1, step ctx_pat_fail polled_state (.writev 3 [⟨100, 5⟩]) = .ok r
          ∧ step { ctx_pat_fail with libc := ctx_pat.libc } polled_state (.writev 3 [⟨100, 5⟩])
              = .ok r1
          ∧ r.retval = -1 ∧ r1.retval = 1 ∧ r1.st = r.st :=
  have htr : trunc_cond ctx_pat_fail polled_state .write 3 (.writev 3 [⟨100, 5⟩]) := by
    unfold trunc_cond mode_on Call.has_payload
    decide
  ⟨rfl, htr, (reachable_inv polled_state_reachable).1, rfl,
    let ⟨r, r1, h1, h2, _, h4, _, _, h7, _, h9⟩ :=
      C19_record_updated_whatever_the_result ctx_pat_fail ctx_pat.libc polled_state
        (.writev 3 [⟨100, 5⟩]) .write 3 rfl rfl htr (reachable_inv polled_state_reachable).1
        (fun _ _ => rfl)
    ⟨r, r1, h1, h2, h4.trans (by decide), h7.trans (by decide), h9⟩⟩

/-- C20 at one second past midnight: `now` adds the seconds of the day to the
milliseconds of the second without scaling the seconds by 1000.  The reading
`(tv_sec, tv_usec) = (1, 0)` gives 1 where the time of day is 1000 ms, and from
the reading `(0, 999000)` to the reading `(1, 0)`, one millisecond later, the
difference of the two values is -998. -/
theorem C20_now_mixes_seconds_and_milliseconds :
    now ⟨1, 0⟩ = 1
      ∧ now_spec ⟨1, 0⟩ = 1000
      ∧ now ⟨0, 999000⟩ = 999
      ∧ now_spec ⟨0, 999000⟩ = 999
      ∧ now ⟨1, 0⟩ - now ⟨0, 999000⟩ = -998
      ∧ now_spec ⟨1, 0⟩ - now_spec ⟨0, 999000⟩ = 1 := by
  decide

/-- C21 at a path that contains `+`: `is_whitelist` cuts the frame string at the
first `(` or `+` wherever it stands.  For the frame
`/usr/sbin/nginx(foo+0x10) [0x43299c]` the token looked up is `foo`, and with
the exemption list `foo` the call returns 1.  For the frame
`/usr/lib/libstdc++.so.6(foo+0x10) [0x7f01]` the token looked up is `.so.6`, and
with the exemption list `foo` the call returns 0; the frame without a function
name `/usr/lib/libstdc++.so.6(+0x10) [0x7f01]` is not skipped: its token `.so.6`
is looked up, and with the exemption list `.so.6` the call returns 1.  A frame
string without `(` and `+`, such as `[0x7f01]`, has no second token: the null
pointer is passed to `hsearch` as the key and the call ends in a fault. -/
theorem C21_path_with_plus_shifts_token :
    frame_token (String.toList "/usr/sbin/nginx(foo+0x10) [0x43299c]")
        = some (String.toList "foo")
      ∧ verdict (is_whitelist (sample_stack "foo" ["/usr/sbin/nginx(foo+0x10) [0x43299c]"])
          Filter.init) = some 1
      ∧ frame_token (String.toList "/usr/lib/libstdc++.so.6(foo+0x10) [0x7f01]")
        = some (String.toList ".so.6")
      ∧ verdict (is_whitelist (sample_stack "foo" ["/usr/lib/libstdc++.so.6(foo+0x10) [0x7f01]"])
          Filter.init) = some 0
      ∧ frame_token (String.toList "/usr/lib/libstdc++.so.6(+0x10) [0x7f01]")
        = some (String.toList ".so.6")
      ∧ verdict (is_whitelist (sample_stack ".so.6" ["/usr/lib/libstdc++.so.6(+0x10) [0x7f01]"])
          Filter.init) = some 1
      ∧ frame_token (String.toList "[0x7f01]") = none
      ∧ verdict (is_whitelist (sample_stack "foo" ["[0x7f01]"]) Filter.init) = none := by
  decide

/-- C22: a stalled descriptor can no longer be written through the mock.  In
every statics reachable from those at process start by any sequence of
intercepted calls, a descriptor `fd` whose write-stall flag is set lies within
the guard, has its polled flag set and has `POLLOUT` clear in its readiness
mask.  After any further calls `mid` among which is no non-exempt `close(fd)`
and no `socket` call that returns `fd` (so after any `poll`, `read`, `recv`,
`recvfrom`, `send` and `writev` calls), the flag is still set, and every
non-exempt `writev` and `send` on `fd` returns -1 with `errno = EAGAIN`, makes no
call to the real implementation and leaves the statics as they are. -/
theorem C22_stalled_descriptor_stays_blocked (st : State) (fd : Int) (hr : Reachable st)
    (hs : st.snd_timeout_fds fd ≠ 0) :
    fd ≤ MAX_FD ∧ st.polled_fds fd ≠ 0 ∧ Int.land (st.active_fds fd) POLLOUT = 0
      ∧ ∀ (mid : List (Ctx × Call)) (st2 : State),
          (∀ x ∈ mid, ¬ releases x.1 fd x.2) → run st mid = .ok st2 →
            st2.snd_timeout_fds fd ≠ 0 ∧ st2.polled_fds fd ≠ 0
              ∧ Int.land (st2.active_fds fd) POLLOUT = 0
              ∧ ∀ (c : Ctx) (k : Call), c.wl = 0 → k.transfer = some (.write, fd) →
                  step c st2 k = .ok (would_block st2)
                    ∧ (would_block st2).retval = -1
                    ∧ (would_block st2).errno = some EAGAIN
                    ∧ (would_block st2).calls = [] ∧ (would_block st2).st = st2 := by
  obtain ⟨hle, _, _, hpo, hbit⟩ := reachable_stall_blocked hr fd hs
  refine ⟨hle, hpo, hbit, ?_⟩
  intro mid st2 hmid hrun
  have hs2 := run_stall_kept mid hmid hrun hs
  obtain ⟨hle2, hb2⟩ := reachable_stall_blocked (run_reachable mid hr hrun) fd hs2
  exact ⟨hs2, hb2.2.2.1, hb2.2.2.2,
    fun c k hwl hk => ⟨step_of_blocked hk hwl hle2 hb2, rfl, rfl, rfl, rfl⟩⟩

theorem C22_stalled_descriptor_stays_blocked_witness :
    Reachable stalled_state ∧ stalled_state.snd_timeout_fds 3 ≠ 0
      ∧ ¬ releases ctx_pat 3 (.poll [⟨3, 5, 0⟩] 0)
      ∧ ∃ st2, run stalled_state [(ctx_pat, .poll [⟨3, 5, 0⟩] 0)] = .ok st2
          ∧ st2.snd_timeout_fds 3 ≠ 0
          ∧ step ctx_pat st2 (.send 3 100 5 0) = .ok (would_block st2) :=
  ⟨stalled_state_reachable, by decide, fun h => h,
    ⟨_, rfl,
      ((C22_stalled_descriptor_stays_blocked stalled_state 3 stalled_state_reachable
        (by decide)).2.2.2 [(ctx_pat, .poll [⟨3, 5, 0⟩] 0)] _
        (by intro x hx; rw [List.mem_singleton] at hx; subst hx; exact fun h => h) rfl).1,
      (((C22_stalled_descriptor_stays_blocked stalled_state 3 stalled_state_reachable
        (by decide)).2.2.2 [(ctx_pat, .poll [⟨3, 5, 0⟩] 0)] _
        (by intro x hx; rw [List.mem_singleton] at hx; subst hx; exact fun h => h)
        rfl).2.2.2 ctx_pat (.send 3 100 5 0) rfl rfl).1⟩⟩

/-- C23: the count `poll` returns stays consistent with its entries.  When the
real `poll` returns a positive count equal to the number of entries it left
with a non-zero `revents`, the wrapper returns the number of entries whose
`revents` is non-zero in the array it hands back, which is not negative; and in
reachable statics it returns 0 exactly when every entry the real call left
non-zero reports `POLLOUT` alone on a write-stalled descriptor.  When the real
`poll` returns a value that is not positive, the wrapper returns that value,
hands back the array as the real call left it, does not sleep, and leaves the
four descriptor tables and every match window as they are. -/
theorem C23_poll_count_consistent (c : Ctx) (st : State) (u : List pollfd) (t : Int) :
    ((c.libc.poll u t).2 > 0 →
        (c.libc.poll u t).2 = count_events (set_revents u (c.libc.poll u t).1) →
          (poll c st u t).retval = count_events (poll c st u t).ufds
            ∧ 0 ≤ (poll c st u t).retval
            ∧ (Reachable st →
                ((poll c st u t).retval = 0 ↔
                  ∀ p ∈ set_revents u (c.libc.poll u t).1, p.revents ≠ 0 →
                    p.revents = POLLOUT ∧ st.snd_timeout_fds p.fd ≠ 0)))
      ∧ ((c.libc.poll u t).2 ≤ 0 →
          (poll c st u t).retval = (c.libc.poll u t).2
            ∧ (poll c st u t).ufds = set_revents u (c.libc.poll u t).1
            ∧ (poll c st u t).slept = none
            ∧ (poll c st u t).st.active_fds = st.active_fds
            ∧ (poll c st u t).st.polled_fds = st.polled_fds
            ∧ (poll c st u t).st.weird_fds = st.weird_fds
            ∧ (poll c st u t).st.snd_timeout_fds = st.snd_timeout_fds
            ∧ ∀ fd, window (poll c st u t).st fd = window st fd) := by
  obtain ⟨hret, hslept, _⟩ := poll_retval_slept c st u t
  have hufds := poll_ufds c st u t
  have hst := poll_st c st u t
  constructor
  · intro hpos hpost
    rw [if_pos hpos] at hret hufds
    have hcount := poll_loop_count (set_revents u (c.libc.poll u t).1)
      (init_matchbufs c.env c.malloc_ok st) (c.libc.poll u t).2
    rw [poll_loop_fst] at hcount
    have hadj : adjusted_count c st u t
        = (poll_loop (set_revents u (c.libc.poll u t).1) (init_matchbufs c.env c.malloc_ok st)
            (c.libc.poll u t).2).2.2 := rfl
    have heq : (poll c st u t).retval = count_events (poll c st u t).ufds := by
      rw [hret, hufds, hadj]
      linarith
    refine ⟨heq, by rw [heq]; exact count_events_nonneg _, ?_⟩
    intro hr
    rw [heq, hufds, count_events_eq_zero]
    constructor
    · intro hall p hp hne
      have h0 := hall _ (List.mem_map_of_mem _ hp)
      rw [returned_entry_eq] at h0
      split at h0
      · exact absurd h0 hne
      · split at h0
        · rename_i hs
          rcases (and_not_POLLOUT_eq_zero p.revents).1 h0 with h1 | h1
          · exact absurd h1 hne
          · exact ⟨h1, by simpa using hs.2⟩
        · exact absurd h0 hne
    · intro hall q hq
      obtain ⟨p, hp, rfl⟩ := List.mem_map.1 hq
      by_cases hne : p.revents = 0
      · rw [returned_entry_eq]
        split
        · exact hne
        · split
          · simp only
            rw [hne]
            decide
          · exact hne
      · obtain ⟨h1, h2⟩ := hall p hp hne
        exact returned_entry_stalled c.env c.malloc_ok hr h1 h2
  · intro hle
    have hn : ¬ (c.libc.poll u t).2 > 0 := not_lt.2 hle
    rw [if_neg hn] at hret hufds hst
    rw [if_neg (fun x => hn x.1)] at hslept
    refine ⟨hret, hufds, hslept, ?_, ?_, ?_, ?_, ?_⟩
    · rw [hst]; simp
    · rw [hst]; simp
    · rw [hst]; simp
    · rw [hst]; simp
    · intro fd
      rw [hst]
      exact window_init_matchbufs _ _ _ _

theorem C23_poll_count_consistent_witness :
    (ctx_pat_out.libc.poll [⟨3, 4, 0⟩] 0).2 > 0
      ∧ (ctx_pat_out.libc.poll [⟨3, 4, 0⟩] 0).2
          = count_events (set_revents [⟨3, 4, 0⟩] (ctx_pat_out.libc.poll [⟨3, 4, 0⟩] 0).1)
      ∧ Reachable stalled_state
      ∧ (poll ctx_pat_out stalled_state [⟨3, 4, 0⟩] 0).retval
          = count_events (poll ctx_pat_out stalled_state [⟨3, 4, 0⟩] 0).ufds
      ∧ (poll ctx_pat_out stalled_state [⟨3, 4, 0⟩] 0).retval = 0 :=
  have h := (C23_poll_count_consistent ctx_pat_out stalled_state [⟨3, 4, 0⟩] 0).1
    (by decide) (by decide)
  ⟨by decide, by decide, stalled_state_reachable, h.1,
    (h.2.2 stalled_state_reachable).2 (by decide)⟩

end Mockeagain
